import Mathlib

/-!
Shallow embedding of the gomoku_rust engine core (src/board.rs, src/cache.rs,
src/zobrist_cache.rs, src/player.rs, src/shapes.rs, src/ai.rs) in Lean 4,
together with theorems settling the frozen claims about the specification.

Modelling conventions:
- Rust usize becomes Nat, i32 and i64 become Int (the engine scores stay far
  below i32 overflow on the inputs considered), u64 hash values become Nat
  (XOR of values below 2^64 never exceeds 2^64, so Nat.xor agrees with u64 XOR).
- Vec push/pop at the back of the move history is modelled by cons/head, so the
  head of the Lean list is the newest move.
- Rust HashMap is modelled by an association list whose insert replaces the
  binding in place, matching HashMap observable behaviour for these programs.
- The random Zobrist key table (rand::thread_rng in zobrist_cache.rs) is not
  modellable as a pure value; every construction takes the drawn key table as
  an explicit parameter, which instantiates one outcome of the random draw.
- Mutating methods (taking mutable self in Rust) return the updated value.
-/

/-- Read a cell of a two-dimensional list with a default for out-of-range. -/
def get2 {α : Type} (g : List (List α)) (i j : Nat) (d : α) : α :=
  (g.getD i []).getD j d

/-- Write a cell of a two-dimensional list; out-of-range writes are dropped
(the Rust source never indexes out of range on reachable states). -/
def set2 {α : Type} (g : List (List α)) (i j : Nat) (v : α) : List (List α) :=
  g.set i ((g.getD i []).set j v)

/-- Read from a four-dimensional nested list. -/
def get4 {α : Type} (g : List (List (List (List α)))) (r d x y : Nat) (dflt : α) : α :=
  (((g.getD r []).getD d []).getD x []).getD y dflt

/-- Write into a four-dimensional nested list. -/
def set4 {α : Type} (g : List (List (List (List α)))) (r d x y : Nat) (v : α) :
    List (List (List (List α))) :=
  g.set r ((g.getD r []).set d (((g.getD r []).getD d []).set x
    ((((g.getD r []).getD d []).getD x []).set y v)))

/-- The inclusive integer range from lo to hi, in increasing order. -/
def intRange (lo hi : Int) : List Int :=
  (List.range (hi + 1 - lo).toNat).map (fun k => lo + (k : Int))

/-- Role of a stone (src/player.rs): Black is -1, White is +1. -/
inductive Role where
  | Black
  | White
deriving DecidableEq, Repr

/-- Opponent of a role (src/player.rs Role::opponent). -/
def Role.opponent : Role → Role
  | .Black => .White
  | .White => .Black

/-- Integer encoding of a role (src/player.rs Role::to_int). -/
def Role.to_int : Role → Int
  | .Black => -1
  | .White => 1

/-- Map Role::Black to 0, Role::White to 1 (src/board.rs role_index). -/
def role_index : Role → Nat
  | .Black => 0
  | .White => 1

/-- Zobrist hasher state (src/zobrist_cache.rs): the key table maps a cell and
a role index (0 for role value +1, 1 for role value -1) to a 64-bit key; the
accumulator starts at zero. The random table is a parameter of construction. -/
structure ZobristCache where
  table : Nat → Nat → Fin 2 → Nat
  hash : Nat

/-- Fresh hasher with a given (randomly drawn) key table and accumulator 0. -/
def ZobristCache.new (table : Nat → Nat → Fin 2 → Nat) : ZobristCache :=
  { table := table, hash := 0 }

/-- XOR the key of (x, y, role) into the accumulator
(src/zobrist_cache.rs toggle_piece); role value 1 selects index 0, any other
role value selects index 1. -/
def ZobristCache.toggle_piece (z : ZobristCache) (x y : Nat) (role : Int) : ZobristCache :=
  let idx : Fin 2 := if role = 1 then 0 else 1
  { z with hash := z.hash ^^^ z.table x y idx }

/-- Current accumulator value (src/zobrist_cache.rs get_hash). -/
def ZobristCache.get_hash (z : ZobristCache) : Nat := z.hash

/-- Cache settings (src/cache.rs CacheConfig). -/
structure CacheConfig where
  capacity : Nat
  enable_cache : Bool
deriving DecidableEq, Repr

/-- Association-list lookup used to model HashMap get. -/
def mapLookup {K V : Type} [DecidableEq K] (m : List (K × V)) (k : K) : Option V :=
  (m.find? (fun p => p.1 = k)).map Prod.snd

/-- Association-list insert-or-replace used to model HashMap insert: replace
the binding in place when the key is present, else append. -/
def mapInsert {K V : Type} [DecidableEq K] : List (K × V) → K → V → List (K × V)
  | [], k, v => [(k, v)]
  | p :: rest, k, v => if p.1 = k then (k, v) :: rest else p :: mapInsert rest k v

/-- Association-list removal used to model HashMap remove. -/
def mapRemove {K V : Type} [DecidableEq K] (m : List (K × V)) (k : K) : List (K × V) :=
  m.filter (fun p => ¬ p.1 = k)

/-- Bounded FIFO cache (src/cache.rs Cache): a key queue in insertion order
plus a key-value map. -/
structure Cache (K V : Type) where
  config : CacheConfig
  keys_fifo : List K
  map : List (K × V)

/-- Fresh cache from a configuration (src/cache.rs Cache::new). -/
def Cache.new {K V : Type} (config : CacheConfig) : Cache K V :=
  { config := config, keys_fifo := [], map := [] }

/-- Lookup (src/cache.rs Cache::get): none when caching is disabled. -/
def Cache.get {K V : Type} [DecidableEq K] (c : Cache K V) (k : K) : Option V :=
  if !c.config.enable_cache then none
  else mapLookup c.map k

/-- Store (src/cache.rs Cache::put): no-op when disabled; replace in place when
the key exists; otherwise evict the oldest key first when the queue length is
at or over capacity, then append. -/
def Cache.put {K V : Type} [DecidableEq K] (c : Cache K V) (k : K) (v : V) : Cache K V :=
  if !c.config.enable_cache then c
  else if (mapLookup c.map k).isSome then { c with map := mapInsert c.map k v }
  else
    let evicted :=
      if c.keys_fifo.length ≥ c.config.capacity then
        match c.keys_fifo with
        | [] => (([] : List K), c.map)
        | oldest :: rest => (rest, mapRemove c.map oldest)
      else (c.keys_fifo, c.map)
    { c with keys_fifo := evicted.1 ++ [k], map := mapInsert evicted.2 k v }

/-- Membership test (src/cache.rs Cache::has). -/
def Cache.has {K V : Type} [DecidableEq K] (c : Cache K V) (k : K) : Bool :=
  if !c.config.enable_cache then false
  else (mapLookup c.map k).isSome

/-- Decisive score constant (src/shapes.rs shape::FIVE). -/
def shapeFIVE : Int := 10000000

/-- Hard score bound (src/ai.rs MAX). -/
def aiMAX : Int := 100000000

/-- Identifier of a matched pattern (src/board.rs ShapeId): either no pattern
or the index of a pattern in the pattern table. -/
inductive ShapeId where
  | noneShape
  | pattern (i : Nat)
deriving DecidableEq, Repr

/-- Modelled from the spec: the static pattern table GOMOKU_PATTERNS lives in
src/patterns.rs, which is missing from the provided sources. Per the spec it is
a static, read-only, ordered list of (activation offset, fixed-length template
over 0=empty, 1=own, 2=opponent-or-wall, cost) entries whose longest template
spans 6 cells, with costs aligned to the thresholds the code compares against
(250000 for an open three, 1000000 for an open four) and including the cheap
(cost below 200) patterns that find_best_pattern_in_dir skips late in the game.
The concrete entries below are one faithful instantiation of that description;
every theorem that can be stated for an arbitrary pattern table quantifies over
the table instead of using this value. -/
def GOMOKU_PATTERNS : List (Int × List Int × Int) :=
  [ (0, [0, 1, 1, 1, 1], 4000000)
  , (4, [1, 1, 1, 1, 0], 4000000)
  , (0, [0, 1, 1, 1, 1, 0], 1000000)
  , (0, [0, 1, 1, 1, 0], 250000)
  , (0, [0, 1, 0], 1000)
  , (0, [0, 0, 0, 0, 0], 10) ]

/-- Per-cell, per-role, per-direction pattern cache (src/board.rs ShapeCache),
indexed data[role][dir][x][y]. -/
structure ShapeCache where
  data : List (List (List (List (ShapeId × Int))))
  dirty : List (List (List (List Bool)))
deriving DecidableEq, Repr

/-- Fresh shape cache for a size-by-size board (src/board.rs ShapeCache::new). -/
def ShapeCache.new (size : Nat) : ShapeCache :=
  { data := List.replicate 2 (List.replicate 4 (List.replicate size
      (List.replicate size (ShapeId.noneShape, (0 : Int)))))
  , dirty := List.replicate 2 (List.replicate 4 (List.replicate size
      (List.replicate size false))) }

/-- Mark all four directions of a cell dirty for a role
(src/board.rs ShapeCache::mark_dirty). -/
def ShapeCache.mark_dirty (sc : ShapeCache) (role : Role) (x y : Nat) : ShapeCache :=
  (List.range 4).foldl
    (fun sc dir => { sc with dirty := set4 sc.dirty (role_index role) dir x y true }) sc

/-- The in-range cells at steps 1..maxStep along a ray, stopped at the first
out-of-range step exactly as the Rust loops break. -/
def rayCells (size x y : Nat) (dx dy sign : Int) (maxStep : Nat) : List (Nat × Nat) :=
  ((((List.range maxStep).map (fun s : Nat => ((s : Int) + 1))).map
    (fun step => ((x : Int) + sign * step * dx, (y : Int) + sign * step * dy))).takeWhile
    (fun p => decide (0 ≤ p.1 ∧ p.1 < (size : Int) ∧ 0 ≤ p.2 ∧ p.2 < (size : Int)))).map
    (fun p => (p.1.toNat, p.2.toNat))

/-- Mark the cell and its neighbourhood up to 5 steps along the 4 line
directions dirty for a role (src/board.rs ShapeCache::mark_neighbors_dirty). -/
def ShapeCache.mark_neighbors_dirty (sc : ShapeCache) (role : Role) (x y size : Nat) :
    ShapeCache :=
  let dirs : List (Int × Int) := [(0, 1), (1, 0), (1, 1), (1, -1)]
  let sc := sc.mark_dirty role x y
  dirs.foldl (fun sc d =>
    [(-1 : Int), 1].foldl (fun sc sign =>
      (rayCells size x y d.1 d.2 sign 5).foldl
        (fun sc c => sc.mark_dirty role c.1 c.2) sc) sc) sc

/-- Memo entry of the valuable-move cache (src/board.rs
ValuableMovesCacheEntry). -/
structure VMEntry where
  role : Role
  moves : List (Nat × Nat)
  depth : Int
  only_three : Bool
  only_four : Bool
deriving DecidableEq, Repr

/-- The board and incremental evaluator (src/board.rs Board). The Rust
role_scores HashMap always holds exactly the two roles, modelled by two list
fields. -/
structure Board where
  size : Nat
  board : List (List Int)
  history : List (Nat × Nat × Role)
  zorbist_cache : ZobristCache
  winner_cache : Cache Nat Int
  gameover_cache : Cache Nat Bool
  evaluate_cache : Cache Nat (Role × Int)
  valuable_moves_cache : Cache Nat VMEntry
  role_scores_black : List (List Int)
  role_scores_white : List (List Int)
  patterns : List (Int × List Int × Int)
  shape_cache : ShapeCache

/-- Score matrix of a role (access into the role_scores map). -/
def Board.role_scores (b : Board) (r : Role) : List (List Int) :=
  match r with
  | .Black => b.role_scores_black
  | .White => b.role_scores_white

/-- Update the score matrix entry of a role at a cell
(the value_mut helper of src/board.rs). -/
def Board.setScore (b : Board) (r : Role) (x y : Nat) (v : Int) : Board :=
  match r with
  | .Black => { b with role_scores_black := set2 b.role_scores_black x y v }
  | .White => { b with role_scores_white := set2 b.role_scores_white x y v }

/-- Current Zobrist fingerprint (src/board.rs Board::hash). -/
def Board.hash (b : Board) : Nat := b.zorbist_cache.get_hash

/-- Classify a raw cell value against a role value for pattern matching
(src/board.rs cell_pattern_value): 1 own stone, 0 empty, 2 otherwise. -/
def cell_pattern_value (board_val role_val : Int) : Int :=
  if board_val = role_val then 1
  else if board_val = 0 then 0
  else 2

/-- Check whether a template matches when activating (x, y) in direction
(dx, dy) with activation index act_idx (src/board.rs Board::check_pattern). -/
def Board.check_pattern (b : Board) (role_val : Int) (x y : Nat) (dx dy : Int)
    (act_idx : Int) (pattern_vec : List Int) : Bool :=
  (List.range pattern_vec.length).all (fun i =>
    let board_x := (x : Int) + ((i : Int) - act_idx) * dx
    let board_y := (y : Int) + ((i : Int) - act_idx) * dy
    if board_x < 0 ∨ board_x ≥ (b.size : Int) ∨ board_y < 0 ∨ board_y ≥ (b.size : Int) then
      pattern_vec.getD i 0 = 2
    else
      cell_pattern_value (get2 b.board (board_x.toNat + 1) (board_y.toNat + 1) 2) role_val
        = pattern_vec.getD i 0)

/-- Find the best-cost matching pattern and the summed cost of all matching
patterns for a role at (x, y) in a direction
(src/board.rs Board::find_best_pattern_in_dir). -/
def Board.find_best_pattern_in_dir (b : Board) (role : Role) (x y : Nat) (dir : Nat) :
    ShapeId × Int :=
  let role_val := role.to_int
  let dxy : Int × Int :=
    match dir with
    | 0 => (1, 0)
    | 1 => (0, 1)
    | 2 => (1, 1)
    | 3 => (-1, 1)
    | _ => (1, 0)
  let st := b.patterns.enum.foldl
    (fun (st : Int × ShapeId × Int) ip =>
      let cost := ip.2.2.2
      if b.history.length > 2 ∧ cost < 200 then st
      else if b.check_pattern role_val x y dxy.1 dxy.2 ip.2.1 ip.2.2.1 then
        if cost > st.1 then (cost, ShapeId.pattern ip.1, st.2.2 + cost)
        else (st.1, st.2.1, st.2.2 + cost)
      else st)
    (0, ShapeId.noneShape, 0)
  (st.2.1, st.2.2)

/-- Recompute the dirty direction entries of one cell for one role
(src/board.rs Board::update_cache_if_needed). -/
def Board.update_cache_if_needed (b : Board) (role : Role) (x y : Nat) : Board :=
  (List.range 4).foldl
    (fun b dir =>
      if get4 b.shape_cache.dirty (role_index role) dir x y false then
        let r := b.find_best_pattern_in_dir role x y dir
        { b with shape_cache :=
            { data := set4 b.shape_cache.data (role_index role) dir x y r
            , dirty := set4 b.shape_cache.dirty (role_index role) dir x y false } }
      else b)
    b

/-- Defensive surcharge tiers applied to a base score given the opponent
threat score at the same cell (the tier ladder in cacl_score_for_point). -/
def defensiveAdd (total opp_threat : Int) : Int :=
  if opp_threat ≥ 2000000 then total + 1500000
  else if opp_threat ≥ 1000000 then total + 1000000
  else if opp_threat ≥ 300000 then total + 600000
  else total

/-- One iteration of the role loop of cacl_score_for_point: refresh the shape
cache of the role and of its opponent at the cell, sum the four direction
costs of each, and store the role's score with the defensive surcharge. -/
def Board.cacl_role_pass (b : Board) (role : Role) (x y : Nat) : Board :=
  let b := b.update_cache_if_needed role x y
  let total_score := (List.range 4).foldl
    (fun acc dir => acc + (get4 b.shape_cache.data (role_index role) dir x y
      (ShapeId.noneShape, 0)).2) 0
  let opp := role.opponent
  let b := b.update_cache_if_needed opp x y
  let opp_threat_score := (List.range 4).foldl
    (fun acc dir => acc + (get4 b.shape_cache.data (role_index opp) dir x y
      (ShapeId.noneShape, 0)).2) 0
  b.setScore role x y (defensiveAdd total_score opp_threat_score)

/-- Recompute both roles' aggregate score of one cell from the shape cache
(src/board.rs Board::cacl_score_for_point). -/
def Board.cacl_score_for_point (b : Board) (x y : Nat) : Board :=
  let b := b.setScore .Black x y 0
  let b := b.setScore .White x y 0
  [Role.Black, Role.White].foldl (fun b role => b.cacl_role_pass role x y) b

/-- One cell visit of recalc_scores: recompute the cell when it is empty,
leave the board unchanged otherwise (the loop body of src/board.rs
Board::recalc_scores). -/
def Board.caclStep (b : Board) (c : Nat × Nat) : Board :=
  if get2 b.board (c.1 + 1) (c.2 + 1) 2 = 0 then b.cacl_score_for_point c.1 c.2 else b

/-- Recompute scores of the touched cell (when empty) and of every empty cell
up to 4 steps along the 4 directions (src/board.rs Board::recalc_scores). -/
def Board.recalc_scores (b : Board) (x y : Nat) : Board :=
  let b0 := b.caclStep (x, y)
  [((1 : Int), (0 : Int)), (0, 1), (1, 1), (-1, 1)].foldl
    (fun acc d =>
      [(1 : Int), -1].foldl
        (fun acc2 sign =>
          (rayCells b.size x y d.1 d.2 sign 4).foldl Board.caclStep acc2)
        acc)
    b0

/-- Fresh board (src/board.rs Board::new): wall-padded grid, empty history,
zeroed hasher with the drawn key table, capacity-zero caches (the Rust callers
pass 0 where Cache::new expects a CacheConfig; the only reading consistent with
src/cache.rs is capacity 0 with caching enabled), zero score matrices except a
1000-point bonus at the centre, and the static pattern table. -/
def Board.new (size : Nat) (table : Nat → Nat → Fin 2 → Nat) : Board :=
  let zeroScores : List (List Int) := List.replicate size (List.replicate size 0)
  { size := size
  , board := (List.range (size + 2)).map (fun i => (List.range (size + 2)).map (fun j =>
      if 1 ≤ i ∧ i ≤ size ∧ 1 ≤ j ∧ j ≤ size then (0 : Int) else 2))
  , history := []
  , zorbist_cache := ZobristCache.new table
  , winner_cache := Cache.new ⟨0, true⟩
  , gameover_cache := Cache.new ⟨0, true⟩
  , evaluate_cache := Cache.new ⟨0, true⟩
  , valuable_moves_cache := Cache.new ⟨0, true⟩
  , role_scores_black := set2 zeroScores (size / 2) (size / 2) 1000
  , role_scores_white := set2 zeroScores (size / 2) (size / 2) 1000
  , patterns := GOMOKU_PATTERNS
  , shape_cache := ShapeCache.new size }

/-- Place a stone (src/board.rs Board::put): reject out-of-range or occupied
cells without mutation; otherwise set the cell, push history, toggle the
fingerprint, zero the cell scores, dirty the neighbourhood for both roles and
recompute scores around the cell. -/
def Board.put (b : Board) (x y : Nat) (role : Role) : Bool × Board :=
  if x ≥ b.size ∨ y ≥ b.size then (false, b)
  else if get2 b.board (x + 1) (y + 1) 2 ≠ 0 then (false, b)
  else
    let b := { b with
      board := set2 b.board (x + 1) (y + 1) role.to_int
      history := (x, y, role) :: b.history
      zorbist_cache := b.zorbist_cache.toggle_piece x y role.to_int }
    let b := b.setScore .Black x y 0
    let b := b.setScore .White x y 0
    let b := { b with shape_cache := b.shape_cache.mark_neighbors_dirty role x y b.size }
    let b := { b with shape_cache :=
      b.shape_cache.mark_neighbors_dirty role.opponent x y b.size }
    (true, b.recalc_scores x y)

/-- Undo the last move (src/board.rs Board::undo): false on empty history;
otherwise pop, clear the cell, toggle the fingerprint, dirty the same
neighbourhood and recompute. -/
def Board.undo (b : Board) : Bool × Board :=
  match b.history with
  | [] => (false, b)
  | (x, y, role) :: rest =>
    let b := { b with
      history := rest
      board := set2 b.board (x + 1) (y + 1) 0
      zorbist_cache := b.zorbist_cache.toggle_piece x y role.to_int }
    let b := { b with shape_cache := b.shape_cache.mark_neighbors_dirty role x y b.size }
    let b := { b with shape_cache :=
      b.shape_cache.mark_neighbors_dirty role.opponent x y b.size }
    (true, b.recalc_scores x y)

/-- Fuelled while-loop counting consecutive same-colour stones from (i, j)
(1-based grid coordinates) along (dx, dy), as in the count loop of
src/board.rs Board::get_winner; the in-range condition bounds the count by the
board size, so fuel size + 2 never runs out before the condition fails. -/
def countRunAux (b : Board) (i j : Nat) (dx dy : Int) (cell : Int) :
    Nat → Nat → Nat
  | 0, count => count
  | fuel + 1, count =>
    let ni := (i : Int) + dx * (count : Int)
    let nj := (j : Int) + dy * (count : Int)
    if 1 ≤ ni ∧ ni ≤ (b.size : Int) ∧ 1 ≤ nj ∧ nj ≤ (b.size : Int) ∧
        get2 b.board ni.toNat nj.toNat 2 = cell then
      countRunAux b i j dx dy cell fuel (count + 1)
    else count

/-- Length of the run of cells equal to cell starting at (i, j) in direction
(dx, dy), staying on the 1-based playable area. -/
def countRun (b : Board) (i j : Nat) (dx dy : Int) (cell : Int) : Nat :=
  countRunAux b i j dx dy cell (b.size + 2) 0

/-- Row-major list of 1-based playable coordinates, the scan order of the
winner and game-over loops. -/
def scanCells (size : Nat) : List (Nat × Nat) :=
  (List.range size).flatMap (fun i => (List.range size).map (fun j => (i + 1, j + 1)))

/-- First winner found by the scan of src/board.rs Board::get_winner at one
cell: the cell value when some direction carries a run of 5 or more. -/
def winnerAt (b : Board) (i j : Nat) : Option Int :=
  let cell := get2 b.board i j 2
  if cell = 0 then none
  else
    [((1 : Int), (0 : Int)), (0, 1), (1, 1), (1, -1)].findSome?
      (fun d => if countRun b i j d.1 d.2 cell ≥ 5 then some cell else none)

/-- Winner of the game (src/board.rs Board::get_winner): a nonzero memo hit is
returned directly; otherwise scan all cells and directions for a run of 5 and
memoize the result under the current fingerprint. -/
def Board.get_winner (b : Board) : Int × Board :=
  let hash := b.hash
  let scan : Int × Board :=
    match (scanCells b.size).findSome? (fun p => winnerAt b p.1 p.2) with
    | some cell => (cell, { b with winner_cache := b.winner_cache.put hash cell })
    | none => (0, { b with winner_cache := b.winner_cache.put hash 0 })
  match b.winner_cache.get hash with
  | some val => if val ≠ 0 then (val, b) else scan
  | none => scan

/-- Game-over test (src/board.rs Board::is_game_over): a memoized true is
returned directly; else true when a winner exists or no empty cell remains,
memoized under the current fingerprint. -/
def Board.is_game_over (b : Board) : Bool × Board :=
  let hash := b.hash
  let cachedTrue : Bool :=
    match b.gameover_cache.get hash with
    | some true => true
    | _ => false
  if cachedTrue then (true, b)
  else
    let wr := b.get_winner
    if wr.1 ≠ 0 then (true, { wr.2 with gameover_cache := wr.2.gameover_cache.put hash true })
    else if (scanCells b.size).any (fun p => get2 wr.2.board p.1 p.2 2 = 0) then
      (false, { wr.2 with gameover_cache := wr.2.gameover_cache.put hash false })
    else (true, { wr.2 with gameover_cache := wr.2.gameover_cache.put hash true })

/-- Sum of all entries of both score matrices signed for a role
(src/board.rs Board::evaluate_internal). -/
def Board.evaluate_internal (b : Board) (role : Role) : Int :=
  let black_score := (List.range b.size).foldl
    (fun acc x => (List.range b.size).foldl
      (fun acc y => acc + get2 b.role_scores_black x y 0) acc) 0
  let white_score := (List.range b.size).foldl
    (fun acc x => (List.range b.size).foldl
      (fun acc y => acc + get2 b.role_scores_white x y 0) acc) 0
  if role = .Black then black_score - white_score else white_score - black_score

/-- Board evaluation for a role (src/board.rs Board::evaluate): a memo hit for
the same role is returned; a present winner yields the signed extremal value
without memoization; otherwise the score-matrix difference is memoized under
the current fingerprint. -/
def Board.evaluate (b : Board) (role : Role) : Int × Board :=
  let hash := b.hash
  let cont : Int × Board :=
    let wr := b.get_winner
    if wr.1 = role.to_int then (10000000, wr.2)
    else if wr.1 = -role.to_int then (-10000000, wr.2)
    else
      let score := wr.2.evaluate_internal role
      (score, { wr.2 with evaluate_cache := wr.2.evaluate_cache.put hash (role, score) })
  match b.evaluate_cache.get hash with
  | some prev => if prev.1 = role then (prev.2, b) else cont
  | none => cont

/-- Stable insertion of an element into a list sorted ascending by key: the
element goes before the first strictly greater key, after equal keys. -/
def insertByKey {α : Type} (key : α → Int) (a : α) : List α → List α
  | [] => [a]
  | b :: l => if key a ≤ key b then a :: b :: l else b :: insertByKey key a l

/-- Stable ascending sort by key. Rust Vec::sort_by_key is a stable sort, and
all stable sorts agree on their output, so this structurally recursive
insertion sort is observationally identical to it. -/
def sortByKey {α : Type} (key : α → Int) : List α → List α
  | [] => []
  | a :: l => insertByKey key a (sortByKey key l)

/-- Candidate generation (src/board.rs Board::get_moves): collect all empty
cells with the max of the two roles' scores, filter by the four/three
thresholds when requested, sort ascending by score with a stable sort and
reverse (as Rust sort_by_key then reverse), and drop the score. -/
def Board.get_moves (b : Board) (role : Role) (_depth : Int)
    (only_three only_four : Bool) : List (Nat × Nat) :=
  let threshold_four : Int := 1000000
  let threshold_three : Int := 250000
  let my_matrix := b.role_scores role
  let opp_matrix := b.role_scores role.opponent
  let candidates : List (Nat × Nat × Int) :=
    ((List.range b.size).flatMap (fun x => (List.range b.size).map (fun y => (x, y)))).filterMap
      (fun p =>
        if get2 b.board (p.1 + 1) (p.2 + 1) 2 = 0 then
          some (p.1, p.2, max (get2 my_matrix p.1 p.2 0) (get2 opp_matrix p.1 p.2 0))
        else none)
  let candidates :=
    if only_four then
      candidates.filter (fun c =>
        get2 my_matrix c.1 c.2.1 0 ≥ threshold_four ∨
        get2 opp_matrix c.1 c.2.1 0 ≥ threshold_four)
    else candidates
  let candidates :=
    if only_three then
      candidates.filter (fun c =>
        get2 my_matrix c.1 c.2.1 0 ≥ threshold_three ∨
        get2 opp_matrix c.1 c.2.1 0 ≥ threshold_three)
    else candidates
  ((sortByKey (fun c => c.2.2) candidates).reverse).map (fun c => (c.1, c.2.1))

/-- Memoized candidate generation (src/board.rs Board::get_valuable_moves):
serve a cache hit under the current fingerprint when role, depth and both
flags match; otherwise compute, memoize and return. -/
def Board.get_valuable_moves (b : Board) (role : Role) (depth : Int)
    (only_three only_four : Bool) : List (Nat × Nat) × Board :=
  let hash := b.hash
  let fresh : List (Nat × Nat) × Board :=
    let moves := b.get_moves role depth only_three only_four
    let entry : VMEntry :=
      { role := role, moves := moves, depth := depth
      , only_three := only_three, only_four := only_four }
    (moves, { b with valuable_moves_cache := b.valuable_moves_cache.put hash entry })
  match b.valuable_moves_cache.get hash with
  | some prev =>
    if prev.role = role ∧ prev.depth = depth ∧ prev.only_three = only_three ∧
        prev.only_four = only_four then (prev.moves, b)
    else fresh
  | none => fresh

/-- Replay the whole history with roles swapped into a fresh board
(src/board.rs Board::reverse). The fresh board draws a new random key table in
Rust; the draw is modelled by reusing the same table parameter. -/
def Board.reverse (b : Board) : Board :=
  (b.history.reverse).foldl
    (fun nb m => (nb.put m.1 m.2.1 m.2.2.opponent).2)
    (Board.new b.size b.zorbist_cache.table)

/-- Cache statistics (src/ai.rs CacheHits). -/
structure CacheHits where
  search : Int
  total : Int
  hit : Int
deriving DecidableEq, Repr

/-- Transposition-table entry (src/ai.rs CacheEntry). -/
structure CacheEntry where
  depth : Int
  value : Int
  role : Role
  move_xy : Option (Nat × Nat)
  path : List (Nat × Nat)
  only_three : Bool
  only_four : Bool
deriving DecidableEq, Repr

/-- The search engine (src/ai.rs AIEngine). -/
structure AIEngine where
  depth : Int
  cache_hits : CacheHits
  cache : Cache Nat CacheEntry
  only_three_threshold : Int

/-- Fresh engine (src/ai.rs AIEngine::new): the transposition table is built
with Cache::new(0), read as capacity 0 with caching enabled. -/
def AIEngine.new (depth : Int) : AIEngine :=
  { depth := depth
  , cache_hits := { search := 0, total := 0, hit := 0 }
  , cache := Cache.new ⟨0, true⟩
  , only_three_threshold := 6 }

/-- Result triple of analyze: value, chosen move, predicted path. -/
abbrev SearchRes := Int × Option (Nat × Nat) × List (Nat × Nat)

/-- Mutable locals of the analyze loops (value, bestMove, bestPath, bestDepth,
alpha of src/ai.rs analyze steps 3-9). -/
structure SearchSt where
  value : Int
  best_move : Option (Nat × Nat)
  best_path : List (Nat × Nat)
  best_depth : Int
  alpha : Int

/-- Signature of the recursive analyze call threaded through the loops:
engine, board, onlyThree, onlyFour, role, depth, cdepth, path, alpha, beta. -/
abbrev AnalyzeRec :=
  AIEngine → Board → Bool → Bool → Role → Int → Int → List (Nat × Nat) → Int → Int →
    SearchRes × AIEngine × Board

/-- Inner move loop of analyze (src/ai.rs steps 6-9): apply each candidate,
recurse for the opponent with negated window, undo, update the running best
and alpha; the returned flag is true when the decisive threshold aborts all
remaining depths (break of the depth loop), while an alpha-beta cut only ends
this depth. -/
def moveLoop (recFull : AnalyzeRec) (only_three only_four : Bool) (role : Role)
    (depth d cdepth beta : Int) (path : List (Nat × Nat)) (eng : AIEngine) (b : Board)
    (st : SearchSt) : List (Nat × Nat) → SearchSt × AIEngine × Board × Bool
  | [] => (st, eng, b, false)
  | (px, py) :: rest =>
    let b1 := (b.put px py role).2
    let path1 := path ++ [(px, py)]
    let r := recFull eng b1 only_three only_four role.opponent d (cdepth + 1) path1
      (-beta) (-st.alpha)
    let eng1 := r.2.1
    let b3 := (r.2.2.undo).2
    let es := -r.1.1
    let ep := r.1.2.2
    let st1 :=
      if es ≥ shapeFIVE ∨ d = depth then
        if es > st.value ∨
            (es ≤ -shapeFIVE ∧ st.value ≤ -shapeFIVE ∧ (ep.length : Int) > st.best_depth) then
          { st with
            value := es, best_move := some (px, py),
            best_path := ep, best_depth := (ep.length : Int) }
        else st
      else st
    let st2 := { st1 with alpha := max st1.alpha st1.value }
    if st2.alpha ≥ shapeFIVE then (st2, eng1, b3, true)
    else if st2.alpha ≥ beta then (st2, eng1, b3, false)
    else moveLoop recFull only_three only_four role depth d cdepth beta path eng1 b3 st2 rest

/-- Iterative-deepening loop of analyze (src/ai.rs step 5): rescan the same
move list for each output depth d, stopping early when the move loop signals
the decisive break. -/
def depthLoop (recFull : AnalyzeRec) (only_three only_four : Bool) (role : Role)
    (depth cdepth beta : Int) (path : List (Nat × Nat)) (points : List (Nat × Nat))
    (eng : AIEngine) (b : Board) (st : SearchSt) : List Int → SearchSt × AIEngine × Board
  | [] => (st, eng, b)
  | d :: rest =>
    let r := moveLoop recFull only_three only_four role depth d cdepth beta path eng b st
      points
    if r.2.2.2 then (r.1, r.2.1, r.2.2.1)
    else depthLoop recFull only_three only_four role depth cdepth beta path points r.2.1
      r.2.2.1 r.1 rest

/-- Body of analyze after the cutoff and transposition probe (src/ai.rs steps
3-10): generate candidates (threat-only beyond the threshold depth), return the
static evaluation on an empty list, run the deepening loop, and store the
result in the transposition table when the node is shallow or a forcing mode is
active. -/
def analyzeCore (recFull : AnalyzeRec) (eng : AIEngine) (b1 : Board)
    (only_three only_four : Bool) (role : Role) (depth cdepth : Int)
    (path : List (Nat × Nat)) (alpha beta : Int) (hash_val : Nat) :
    SearchRes × AIEngine × Board :=
  let st0 : SearchSt :=
    { value := -aiMAX, best_move := none, best_path := path
    , best_depth := (path.length : Int), alpha := alpha }
  let pm := b1.get_valuable_moves role cdepth
    (only_three || decide (cdepth > eng.only_three_threshold)) only_four
  let points := pm.1
  let b2 := pm.2
  if points.isEmpty then
    let ev := b2.evaluate role
    ((ev.1, none, path), eng, ev.2)
  else
    let lr := depthLoop recFull only_three only_four role depth cdepth beta path points
      eng b2 st0 (intRange (cdepth + 1) depth)
    let st := lr.1
    let eng2 := lr.2.1
    let b3 := lr.2.2
    let depth_left := depth - cdepth
    let do_put := cdepth < eng.only_three_threshold ∨ only_three = true ∨ only_four = true
    if do_put then
      let sliced_path :=
        if (st.best_path.length : Int) ≥ cdepth then st.best_path.drop cdepth.toNat
        else []
      let entry : CacheEntry :=
        { depth := depth_left, value := st.value, role := role,
          move_xy := st.best_move, path := sliced_path,
          only_three := only_three, only_four := only_four }
      let newHits := { eng2.cache_hits with total := eng2.cache_hits.total + 1 }
      let eng3 := { eng2 with cache := eng2.cache.put hash_val entry, cache_hits := newHits }
      ((st.value, st.best_move, st.best_path), eng3, b3)
    else ((st.value, st.best_move, st.best_path), eng2, b3)

/-- Usability test of a transposition hit (the condition of src/ai.rs analyze
step 2): same role, and (decisive magnitude or covering depth) and both flags
equal. -/
def probeOk (prev : CacheEntry) (role : Role) (depth cdepth : Int)
    (only_three only_four : Bool) : Prop :=
  prev.role = role ∧ (|prev.value| ≥ shapeFIVE ∨ prev.depth ≥ depth - cdepth) ∧
    prev.only_three = only_three ∧ prev.only_four = only_four

instance (prev : CacheEntry) (role : Role) (depth cdepth : Int)
    (only_three only_four : Bool) :
    Decidable (probeOk prev role depth cdepth only_three only_four) := by
  unfold probeOk
  infer_instance

/-- Fuel-indexed analyze (src/ai.rs AIEngine::analyze). The recursion of the
source decreases depth - cdepth at every self-call; fuel is that quantity at
the entry point, and the fuel-zero branch coincides with the cdepth at-or-above
depth cutoff of step 1, which is the only way fuel can run out at the call
sites. The theorem analyzeF_fuel_irrelevant below discharges the choice of
fuel. -/
def analyzeF : Nat → AnalyzeRec
  | fuel, eng0, b0, only_three, only_four, role, depth, cdepth, path, alpha, beta =>
    let eng := { eng0 with cache_hits :=
      { eng0.cache_hits with search := eng0.cache_hits.search + 1 } }
    match fuel with
    | 0 =>
      let ev := b0.evaluate role
      ((ev.1, none, path), eng, ev.2)
    | fuel' + 1 =>
      if cdepth ≥ depth then
        let ev := b0.evaluate role
        ((ev.1, none, path), eng, ev.2)
      else
        let gr := b0.is_game_over
        if gr.1 then
          let ev := gr.2.evaluate role
          ((ev.1, none, path), eng, ev.2)
        else
          let b1 := gr.2
          let hash_val := b1.hash
          match eng.cache.get hash_val with
          | some prev =>
            if probeOk prev role depth cdepth only_three only_four then
              let engHit := { eng with cache_hits :=
                { eng.cache_hits with hit := eng.cache_hits.hit + 1 } }
              ((prev.value, prev.move_xy, path ++ prev.path), engHit, b1)
            else
              analyzeCore (analyzeF fuel') eng b1 only_three only_four role depth cdepth
                path alpha beta hash_val
          | none =>
            analyzeCore (analyzeF fuel') eng b1 only_three only_four role depth cdepth
              path alpha beta hash_val

/-- Entry point of the recursive search (src/ai.rs AIEngine::analyze), with
fuel depth - cdepth as explained at analyzeF. -/
def AIEngine.analyze (eng : AIEngine) (only_three only_four : Bool) (b : Board)
    (role : Role) (depth cdepth : Int) (path : List (Nat × Nat)) (alpha beta : Int) :
    SearchRes × AIEngine × Board :=
  analyzeF (depth - cdepth).toNat eng b only_three only_four role depth cdepth path
    alpha beta

/-- Top-level move selection (src/ai.rs AIEngine::make_move): a deep
threat-only probe, then a full-width search, then the tentative move and the
mirrored (role-reversed) probe with its duplicated re-run. -/
def AIEngine.make_move (eng : AIEngine) (b : Board) (role : Role) :
    SearchRes × AIEngine × Board :=
  let vct_depth := eng.depth + eng.depth * 2
  let r1 := eng.analyze true false b role vct_depth 0 [] (-aiMAX) aiMAX
  let value := r1.1.1
  let eng := r1.2.1
  let b := r1.2.2
  if value ≥ shapeFIVE then (r1.1, eng, b)
  else
    let r2 := eng.analyze false false b role eng.depth 0 [] (-aiMAX) aiMAX
    let value2 := r2.1.1
    let mv2 := r2.1.2.1
    let path2 := r2.1.2.2
    let eng := r2.2.1
    let b := r2.2.2
    match mv2 with
    | none => ((value2, none, path2), eng, b)
    | some m =>
      let b := (b.put m.1 m.2 role).2
      let rev_board := b.reverse
      let r3 := eng.analyze true false rev_board role vct_depth 0 [] (-aiMAX) aiMAX
      let value_rev := r3.1.1
      let move_rev := r3.1.2.1
      let path_rev := r3.1.2.2
      let eng := r3.2.1
      let b := (b.undo).2
      if value2 < shapeFIVE ∧ value_rev = shapeFIVE ∧ path_rev.length > path2.length then
        let r4 := eng.analyze true false rev_board role vct_depth 0 [] (-aiMAX) aiMAX
        let path_rev2 := r4.1.2.2
        let eng := r4.2.1
        if path_rev.length ≤ path_rev2.length then ((value2, move_rev, path_rev), eng, b)
        else ((value2, some m, path2), eng, b)
      else ((value2, some m, path2), eng, b)

/-- Apply a list of placements in order, failing when any put returns false
(used to state the N-puts-then-N-undos invariant). -/
def Board.putList : Board → List (Nat × Nat × Role) → Option Board
  | b, [] => some b
  | b, m :: rest =>
    let r := b.put m.1 m.2.1 m.2.2
    if r.1 then r.2.putList rest else none

/-- Apply undo n times (n undos then one more, so the count peels newest
moves first). -/
def Board.undoN : Board → Nat → Board
  | b, 0 => b
  | b, n + 1 => ((b.undoN n).undo).2

/-- A concrete Zobrist key table with pairwise-distinct powers of two for the
cells of a small board, standing in for one draw of the random keys. -/
def demoTable : Nat → Nat → Fin 2 → Nat :=
  fun x y i => 2 ^ (2 * (7 * x + y) + (i : Nat))

/-- A degenerate Zobrist key table where every key is zero, standing in for a
maximally colliding draw of the random keys: every position shares the
fingerprint 0. -/
def zeroTable : Nat → Nat → Fin 2 → Nat :=
  fun _ _ _ => 0

/-- Valid play history for a board of size n: every move is in range and the
played cells are pairwise distinct (the invariant put and undo maintain). -/
def ValidHist (n : Nat) (hist : List (Nat × Nat × Role)) : Prop :=
  (∀ m ∈ hist, m.1 < n ∧ m.2.1 < n) ∧
  (hist.map (fun m => (m.1, m.2.1))).Nodup

/-- The grid determined by replaying a history (newest first) onto the fresh
wall-padded grid of Board::new, oldest move first. -/
def replayGrid (n : Nat) (hist : List (Nat × Nat × Role)) : List (List Int) :=
  hist.foldr (fun m g => set2 g (m.1 + 1) (m.2.1 + 1) m.2.2.to_int)
    ((List.range (n + 2)).map (fun i => (List.range (n + 2)).map (fun j =>
      if 1 ≤ i ∧ i ≤ n ∧ 1 ≤ j ∧ j ≤ n then (0 : Int) else 2)))

/-- The fingerprint determined by a history: the XOR of the stones' keys, in
the index convention of toggle_piece. -/
def histHash (table : Nat → Nat → Fin 2 → Nat) (hist : List (Nat × Nat × Role)) : Nat :=
  hist.foldr (fun m h =>
    h ^^^ table m.1 m.2.1 (if m.2.2.to_int = 1 then 0 else 1)) 0

/-- Collision-freedom of a key table on the positions of a size-n board: two
valid histories with equal fingerprints replay to the same grid. -/
def InjTable (n : Nat) (table : Nat → Nat → Fin 2 → Nat) : Prop :=
  ∀ h1 h2 : List (Nat × Nat × Role), ValidHist n h1 → ValidHist n h2 →
    histHash table h1 = histHash table h2 → replayGrid n h1 = replayGrid n h2

/-- State consistency of a board over a fixed key table: the grid and the
fingerprint agree with the history, and every memoized candidate list was
computed for some valid position carrying its fingerprint key. -/
def Board.Inv (table : Nat → Nat → Fin 2 → Nat) (b : Board) : Prop :=
  ValidHist b.size b.history ∧
  b.board = replayGrid b.size b.history ∧
  b.zorbist_cache = { table := table, hash := histHash table b.history } ∧
  ∀ h prev, b.valuable_moves_cache.get h = some prev →
    ∃ hist2, ValidHist b.size hist2 ∧ histHash table hist2 = h ∧
      ∀ m ∈ prev.moves, m.1 < b.size ∧ m.2 < b.size ∧
        get2 (replayGrid b.size hist2) (m.1 + 1) (m.2 + 1) 2 = 0

/-- Ray distance between two cells: some s when (u, v) lies exactly s steps
from (x, y) along one of the 4 line directions (s is positive), none
otherwise. -/
def rayDist (x y u v : Nat) : Option Nat :=
  let dx := (u : Int) - (x : Int)
  let dy := (v : Int) - (y : Int)
  if dx = 0 ∧ dy = 0 then none
  else if dx = 0 ∨ dy = 0 ∨ dx = dy ∨ dx = -dy then some (max dx.natAbs dy.natAbs)
  else none

/-- Dimension statement for a four-level nested list, by index. -/
def grid4Dims {α : Type} (a b c d : Nat) (g : List (List (List (List α)))) : Prop :=
  g.length = a ∧ ∀ i, i < a →
    (g.getD i []).length = b ∧ ∀ j, j < b →
      ((g.getD i []).getD j []).length = c ∧ ∀ k, k < c →
        (((g.getD i []).getD j []).getD k []).length = d

/-- Dimension statement for a two-level nested list, by index. -/
def grid2Dims {α : Type} (a b : Nat) (g : List (List α)) : Prop :=
  g.length = a ∧ ∀ i, i < a → (g.getD i []).length = b

/-- The board components written by the score recomputation have the expected
dimensions (true of every board built by Board::new and preserved by all
operations). -/
def Board.dimsOk (b : Board) : Prop :=
  grid4Dims 2 4 b.size b.size b.shape_cache.data ∧
  grid4Dims 2 4 b.size b.size b.shape_cache.dirty ∧
  grid2Dims b.size b.size b.role_scores_black ∧
  grid2Dims b.size b.size b.role_scores_white

/-- Sum of the per-direction pattern costs of a role at a cell, recomputed
directly from the grid (the value update_cache_if_needed caches). -/
def Board.dirCostSum (b : Board) (ro : Role) (u v : Nat) : Int :=
  (List.range 4).foldl (fun acc d => acc + (b.find_best_pattern_in_dir ro u v d).2) 0

/-- The aggregate score cacl_score_for_point assigns to a cell when all its
cache entries are recomputed from the current grid: own pattern costs plus the
defensive surcharge tier of the opponent costs. -/
def Board.freshScore (b : Board) (ro : Role) (u v : Nat) : Int :=
  defensiveAdd (b.dirCostSum ro u v) (b.dirCostSum ro.opponent u v)

/-- All eight shape-cache dirty flags (2 roles, 4 directions) of a cell are
set. -/
def Board.allDirtyAt (b : Board) (u v : Nat) : Prop :=
  ∀ r d : Nat, r < 2 → d < 4 → get4 b.shape_cache.dirty r d u v false = true

/-- The cell's shape-cache entries and scores are exactly the recomputation
from the reference board bref (whose grid and history the state shares):
clean flags, freshly matched patterns, fresh aggregate scores. -/
def Board.freshAt (bref b : Board) (u v : Nat) : Prop :=
  (∀ ro : Role, ∀ d : Nat, d < 4 →
    get4 b.shape_cache.dirty (role_index ro) d u v false = false ∧
    get4 b.shape_cache.data (role_index ro) d u v (ShapeId.noneShape, 0)
      = bref.find_best_pattern_in_dir ro u v d) ∧
  (∀ ro : Role, get2 (b.role_scores ro) u v 0 = bref.freshScore ro u v)

/-- The shape-cache entries and score entries of one cell agree between two
boards (the operations recomputing some other cell leave them untouched). -/
def Board.cellUntouched (b b2 : Board) (u v : Nat) : Prop :=
  (∀ r d : Nat, get4 b2.shape_cache.dirty r d u v false
      = get4 b.shape_cache.dirty r d u v false) ∧
  (∀ r d : Nat, get4 b2.shape_cache.data r d u v (ShapeId.noneShape, 0)
      = get4 b.shape_cache.data r d u v (ShapeId.noneShape, 0)) ∧
  (∀ ro : Role, get2 (b2.role_scores ro) u v 0 = get2 (b.role_scores ro) u v 0)

/-- The fields of the board that put and undo must restore (grid, history,
hasher including fingerprint) together with the fixed size and pattern table:
sameCore b b2 says b2 agrees with b on all of them. -/
def Board.sameCore (b b2 : Board) : Prop :=
  b2.size = b.size ∧ b2.board = b.board ∧ b2.history = b.history ∧
  b2.zorbist_cache = b.zorbist_cache ∧ b2.patterns = b.patterns

/-- The board fields that the search queries may not change and that the
consistency invariant reads: core fields plus the valuable-move memo. -/
def Board.sameState (b b2 : Board) : Prop :=
  b2.size = b.size ∧ b2.board = b.board ∧ b2.history = b.history ∧
  b2.zorbist_cache = b.zorbist_cache ∧ b2.patterns = b.patterns ∧
  b2.valuable_moves_cache = b.valuable_moves_cache

/-!
Helper lemmas shared by the claim theorems.
-/

theorem foldl_preserve {α β : Type} (P : α → Prop) (f : α → β → α) (l : List β) (a : α)
    (hstep : ∀ a b, P a → P (f a b)) (h0 : P a) : P (l.foldl f a) := by
  induction l generalizing a with
  | nil => exact h0
  | cons x xs ih => exact ih (f a x) (hstep a x h0)

theorem mapLookup_nil {K V : Type} [DecidableEq K] (k : K) :
    mapLookup ([] : List (K × V)) k = none := rfl

theorem mapLookup_cons {K V : Type} [DecidableEq K] (p : K × V) (m : List (K × V))
    (k : K) : mapLookup (p :: m) k = if p.1 = k then some p.2 else mapLookup m k := by
  by_cases h : p.1 = k <;> simp [mapLookup, List.find?_cons, h]

theorem mapLookup_insert_self {K V : Type} [DecidableEq K] (m : List (K × V)) (k : K)
    (v : V) : mapLookup (mapInsert m k v) k = some v := by
  induction m with
  | nil => simp [mapInsert, mapLookup_cons]
  | cons p rest ih =>
    by_cases h : p.1 = k
    · simp [mapInsert, h, mapLookup_cons]
    · simp [mapInsert, h, mapLookup_cons, ih]

theorem mapLookup_insert_other {K V : Type} [DecidableEq K] (m : List (K × V)) (k k2 : K)
    (v : V) (hne : k2 ≠ k) : mapLookup (mapInsert m k v) k2 = mapLookup m k2 := by
  have hks : ¬ k = k2 := fun h => hne h.symm
  induction m with
  | nil => simp [mapInsert, mapLookup_cons, mapLookup_nil, hks]
  | cons p rest ih =>
    by_cases h : p.1 = k
    · simp [mapInsert, h, mapLookup_cons, hks]
    · simp [mapInsert, h, mapLookup_cons, ih]

theorem mapLookup_none_insert {K V : Type} [DecidableEq K] (m : List (K × V)) (k : K)
    (v : V) (h : mapLookup m k = none) : mapInsert m k v = m ++ [(k, v)] := by
  induction m with
  | nil => simp [mapInsert]
  | cons p rest ih =>
    rw [mapLookup_cons] at h
    by_cases hp : p.1 = k
    · simp [hp] at h
    · rw [if_neg hp] at h
      simp [mapInsert, hp, ih h]

theorem mapLookup_remove_other {K V : Type} [DecidableEq K] (m : List (K × V)) (k k2 : K)
    (h : mapLookup m k2 = none) : mapLookup (mapRemove m k) k2 = none := by
  induction m with
  | nil => simp [mapRemove, mapLookup_nil]
  | cons p rest ih =>
    rw [mapLookup_cons] at h
    by_cases hq : p.1 = k2
    · simp [hq] at h
    · rw [if_neg hq] at h
      by_cases hpk : p.1 = k
      · simpa [mapRemove, List.filter_cons, hpk] using ih h
      · have : mapRemove (p :: rest) k = p :: mapRemove rest k := by
          simp [mapRemove, List.filter_cons, hpk]
        rw [this, mapLookup_cons, if_neg hq]
        exact ih h

theorem cacheGet_enabled {K V : Type} [DecidableEq K] (c : Cache K V) (k : K)
    (h : c.config.enable_cache = true) : c.get k = mapLookup c.map k := by
  simp [Cache.get, h]

/-!
Claim theorems.
-/

/-- C6: from every hasher state, toggling the same (x, y, role) twice restores
the whole hasher state (in particular the prior hash value), and toggling one
(cell, role) pair then another yields the same state as toggling them in the
opposite order. -/
theorem C6_toggle_self_inverse_and_order_independent
    (z : ZobristCache) (x y : Nat) (r : Int) (x2 y2 : Nat) (r2 : Int) :
    (z.toggle_piece x y r).toggle_piece x y r = z ∧
    (z.toggle_piece x y r).toggle_piece x2 y2 r2 =
      (z.toggle_piece x2 y2 r2).toggle_piece x y r := by
  cases z with
  | mk table hash =>
    constructor
    · simp [ZobristCache.toggle_piece, Nat.xor_assoc]
    · simp [ZobristCache.toggle_piece, Nat.xor_assoc]
      rw [Nat.xor_comm (table x y (if r = 1 then 0 else 1))
        (table x2 y2 (if r2 = 1 then 0 else 1))]

theorem cache_put_existing {K V : Type} [DecidableEq K] (c : Cache K V) (k : K) (v : V)
    (hen : c.config.enable_cache = true) (hsome : (mapLookup c.map k).isSome = true) :
    c.put k v = { c with map := mapInsert c.map k v } := by
  obtain ⟨cfg, fifo, m⟩ := c
  simp only at hen hsome
  simp [Cache.put, hen, hsome]

theorem cache_put_new_evict {K V : Type} [DecidableEq K] (c : Cache K V) (k : K) (v : V)
    (hen : c.config.enable_cache = true) (hnone : mapLookup c.map k = none)
    (hcap : c.keys_fifo.length ≥ c.config.capacity) (oldest : K) (rest : List K)
    (hcons : c.keys_fifo = oldest :: rest) :
    c.put k v = { c with
      keys_fifo := rest ++ [k],
      map := mapInsert (mapRemove c.map oldest) k v } := by
  obtain ⟨cfg, fifo, m⟩ := c
  simp only at hcons hen hnone hcap
  subst hcons
  have hc2 : cfg.capacity ≤ rest.length + 1 := by simpa using hcap
  simp [Cache.put, hen, hnone, hc2]

theorem cache_put_new_room {K V : Type} [DecidableEq K] (c : Cache K V) (k : K) (v : V)
    (hen : c.config.enable_cache = true) (hnone : mapLookup c.map k = none)
    (hcap : c.keys_fifo.length < c.config.capacity) :
    c.put k v = { c with keys_fifo := c.keys_fifo ++ [k], map := mapInsert c.map k v } := by
  obtain ⟨cfg, fifo, m⟩ := c
  simp only at hen hnone hcap
  simp [Cache.put, hen, hnone, Nat.not_le.mpr hcap]

/-- C7: on an enabled, well-formed cache state (the FIFO queue lists exactly
the stored keys in insertion order), put on a present key replaces the value
without touching the queue or any other binding; put on a new key evicts
exactly the oldest-inserted key when the number of stored keys is at or over
capacity; and put on a new key under capacity removes nothing and appends. -/
theorem C7_cache_put_fifo_eviction {K V : Type} [DecidableEq K]
    (c : Cache K V) (k : K) (v : V)
    (hen : c.config.enable_cache = true)
    (hwf : c.keys_fifo = c.map.map Prod.fst) :
    ((mapLookup c.map k).isSome = true →
      (c.put k v).keys_fifo = c.keys_fifo ∧
      (c.put k v).get k = some v ∧
      (∀ k2, k2 ≠ k → (c.put k v).get k2 = c.get k2)) ∧
    ((mapLookup c.map k).isSome = false → c.map.length ≥ c.config.capacity →
      c.map ≠ [] →
      ∃ oldest rest, c.keys_fifo = oldest :: rest ∧
        (c.put k v).keys_fifo = rest ++ [k] ∧
        (c.put k v).map = mapRemove c.map oldest ++ [(k, v)]) ∧
    ((mapLookup c.map k).isSome = false → c.map.length < c.config.capacity →
      (c.put k v).keys_fifo = c.keys_fifo ++ [k] ∧
      (c.put k v).map = c.map ++ [(k, v)]) := by
  refine ⟨?_, ?_, ?_⟩
  · intro hsome
    rw [cache_put_existing c k v hen hsome]
    refine ⟨rfl, ?_, ?_⟩
    · simp [Cache.get, hen, mapLookup_insert_self]
    · intro k2 hk2
      simp [Cache.get, hen, mapLookup_insert_other c.map k k2 v hk2]
  · intro hnone hcap hne
    have hl : mapLookup c.map k = none := by
      cases hl : mapLookup c.map k with
      | none => rfl
      | some w => rw [hl] at hnone; simp at hnone
    have hfifone : c.keys_fifo ≠ [] := by
      rw [hwf]
      simpa using hne
    obtain ⟨oldest, rest, hcons⟩ := List.exists_cons_of_ne_nil hfifone
    have hlen : c.keys_fifo.length ≥ c.config.capacity := by
      rw [hwf, List.length_map]
      exact hcap
    refine ⟨oldest, rest, hcons, ?_⟩
    rw [cache_put_new_evict c k v hen hl hlen oldest rest hcons]
    refine ⟨rfl, ?_⟩
    have hrm : mapLookup (mapRemove c.map oldest) k = none :=
      mapLookup_remove_other c.map oldest k hl
    exact mapLookup_none_insert _ k v hrm
  · intro hnone hcap
    have hl : mapLookup c.map k = none := by
      cases hl : mapLookup c.map k with
      | none => rfl
      | some w => rw [hl] at hnone; simp at hnone
    have hlen : c.keys_fifo.length < c.config.capacity := by
      rw [hwf, List.length_map]
      exact hcap
    rw [cache_put_new_room c k v hen hl hlen]
    exact ⟨rfl, mapLookup_none_insert _ k v hl⟩

/-- C7 witness: a concrete enabled capacity-2 cache holding one entry accepts
a new key without evicting anything. -/
theorem C7_witness :
    (((Cache.new ⟨2, true⟩ : Cache Nat Nat).put 1 10).put 2 20).keys_fifo = [1] ++ [2] ∧
    (((Cache.new ⟨2, true⟩ : Cache Nat Nat).put 1 10).put 2 20).map
      = [(1, 10)] ++ [(2, 20)] := by
  have h := C7_cache_put_fifo_eviction ((Cache.new ⟨2, true⟩ : Cache Nat Nat).put 1 10)
    2 20 (by decide) (by decide)
  exact h.2.2 (by decide) (by decide)

theorem cache_put_new_evict_nil {K V : Type} [DecidableEq K] (c : Cache K V) (k : K)
    (v : V) (hen : c.config.enable_cache = true) (hnone : mapLookup c.map k = none)
    (hcap : c.keys_fifo.length ≥ c.config.capacity) (hnil : c.keys_fifo = []) :
    c.put k v = { c with keys_fifo := [k], map := mapInsert c.map k v } := by
  obtain ⟨cfg, fifo, m⟩ := c
  simp only at hnil hen hnone hcap
  subst hnil
  have hc2 : cfg.capacity = 0 := by simpa using hcap
  simp [Cache.put, hen, hnone, hc2]

/-- C8 counterexample: a cache constructed with capacity 0 (and caching
enabled, the only reading of the Cache::new(0) calls consistent with
src/cache.rs) does not retain entries across distinct keys: already the second
distinct put evicts the first entry, so capacity 0 behaves as an
almost-disabled single-slot cache rather than as a large-default sentinel. -/
theorem C8_counterexample :
    (((Cache.new ⟨0, true⟩ : Cache Nat Nat).put 1 10).put 2 20).get 1 = none ∧
    (((Cache.new ⟨0, true⟩ : Cache Nat Nat).put 1 10).put 2 20).get 2 = some 20 := by
  decide

/-- C8 amended: with capacity 0 (enabled, well-formed, reachable states hold
at most one entry), every put leaves exactly the new binding: the cache keeps
only the most recently inserted entry; Cache::new uses the given capacity
unchanged, and the 1000000 default applies only through CacheConfig::default,
which the engine never invokes. -/
theorem C8_capacity_zero_single_slot {K V : Type} [DecidableEq K]
    (c : Cache K V) (k : K) (v : V)
    (hen : c.config.enable_cache = true)
    (hcap : c.config.capacity = 0)
    (hwf : c.keys_fifo = c.map.map Prod.fst)
    (hlen : c.map.length ≤ 1) :
    (c.put k v).map = [(k, v)] ∧ (c.put k v).keys_fifo = [k] := by
  match hm : c.map with
  | [] =>
    have hnil : c.keys_fifo = [] := by rw [hwf, hm]; rfl
    have hnone : mapLookup c.map k = none := by rw [hm]; rfl
    rw [cache_put_new_evict_nil c k v hen hnone (by omega) hnil]
    rw [hm]
    exact ⟨rfl, rfl⟩
  | p :: rest =>
    have hrest : rest = [] := by
      rw [hm] at hlen
      simp only [List.length_cons] at hlen
      exact List.eq_nil_of_length_eq_zero (by omega)
    subst hrest
    have hfifo : c.keys_fifo = [p.1] := by rw [hwf, hm]; rfl
    by_cases hpk : p.1 = k
    · have hsome : (mapLookup c.map k).isSome = true := by
        rw [hm, mapLookup_cons, if_pos hpk]
        rfl
      rw [cache_put_existing c k v hen hsome]
      constructor
      · rw [hm]
        simp [mapInsert, hpk]
      · rw [hfifo, hpk]
    · have hnone : mapLookup c.map k = none := by
        rw [hm, mapLookup_cons, if_neg hpk]
        rfl
      rw [cache_put_new_evict c k v hen hnone (by rw [hfifo]; omega) p.1 [] hfifo]
      rw [hm]
      simp [mapRemove, List.filter, mapInsert]

/-- C8 witness: the amended single-slot behaviour at a concrete capacity-0
cache already holding one entry. -/
theorem C8_witness :
    (((Cache.new ⟨0, true⟩ : Cache Nat Nat).put 7 70).put 9 90).map = [(9, 90)] ∧
    (((Cache.new ⟨0, true⟩ : Cache Nat Nat).put 7 70).put 9 90).keys_fifo = [9] := by
  exact C8_capacity_zero_single_slot ((Cache.new ⟨0, true⟩ : Cache Nat Nat).put 7 70)
    9 90 (by decide) (by decide) (by decide) (by decide)

theorem put_fail_oob (b : Board) (x y : Nat) (role : Role)
    (h1 : x ≥ b.size ∨ y ≥ b.size) : b.put x y role = (false, b) := by
  unfold Board.put
  rw [if_pos h1]

theorem put_fail_occupied (b : Board) (x y : Nat) (role : Role)
    (h1 : ¬ (x ≥ b.size ∨ y ≥ b.size)) (h2 : get2 b.board (x + 1) (y + 1) 2 ≠ 0) :
    b.put x y role = (false, b) := by
  unfold Board.put
  rw [if_neg h1, if_pos h2]

theorem put_success_true (b : Board) (x y : Nat) (role : Role)
    (h1 : ¬ (x ≥ b.size ∨ y ≥ b.size)) (h2 : get2 b.board (x + 1) (y + 1) 2 = 0) :
    (b.put x y role).1 = true := by
  unfold Board.put
  rw [if_neg h1, if_neg (by simp [h2])]

/-- C9: put returns false exactly when the target is out of range or occupied
and then mutates nothing; undo returns false exactly when the history is empty
and then mutates nothing; both report failure only through the returned
boolean, the board value being returned unchanged. -/
theorem C9_put_undo_failure (b : Board) (x y : Nat) (role : Role) :
    (((b.put x y role).1 = false ↔
        (x ≥ b.size ∨ y ≥ b.size ∨ get2 b.board (x + 1) (y + 1) 2 ≠ 0)) ∧
      ((b.put x y role).1 = false → (b.put x y role).2 = b)) ∧
    (((b.undo).1 = false ↔ b.history = []) ∧
      ((b.undo).1 = false → (b.undo).2 = b)) := by
  have hfail : (x ≥ b.size ∨ y ≥ b.size ∨ get2 b.board (x + 1) (y + 1) 2 ≠ 0) →
      b.put x y role = (false, b) := by
    intro hrhs
    by_cases h1 : x ≥ b.size ∨ y ≥ b.size
    · exact put_fail_oob b x y role h1
    · refine put_fail_occupied b x y role h1 ?_
      tauto
  refine ⟨⟨⟨?_, ?_⟩, ?_⟩, ?_, ?_⟩
  · intro hfalse
    by_contra hrhs
    push_neg at hrhs
    have ht := put_success_true b x y role (by omega) hrhs.2.2
    rw [hfalse] at ht
    exact Bool.false_ne_true ht
  · intro hrhs
    rw [hfail hrhs]
  · intro hfalse
    have hrhs : x ≥ b.size ∨ y ≥ b.size ∨ get2 b.board (x + 1) (y + 1) 2 ≠ 0 := by
      by_contra hr
      push_neg at hr
      have ht := put_success_true b x y role (by omega) hr.2.2
      rw [hfalse] at ht
      exact Bool.false_ne_true ht
    rw [hfail hrhs]
  · unfold Board.undo
    cases b.history with
    | nil => simp
    | cons m rest => simp
  · unfold Board.undo
    cases b.history with
    | nil => simp
    | cons m rest => simp

/-- C9 witness: on a concrete board, the out-of-range put and the empty-history
undo fail and return the board unchanged. -/
theorem C9_witness :
    ((Board.new 2 demoTable).put 5 0 .White).1 = false ∧
    ((Board.new 2 demoTable).put 5 0 .White).2 = Board.new 2 demoTable ∧
    ((Board.new 2 demoTable).undo).1 = false ∧
    ((Board.new 2 demoTable).undo).2 = Board.new 2 demoTable := by
  have h := C9_put_undo_failure (Board.new 2 demoTable) 5 0 .White
  refine ⟨?_, ?_, ?_, ?_⟩
  · exact h.1.1.mpr (Or.inl (by decide))
  · exact h.1.2 (h.1.1.mpr (Or.inl (by decide)))
  · exact h.2.1.mpr rfl
  · exact h.2.2 (h.2.1.mpr rfl)

theorem sameCore_refl (b : Board) : b.sameCore b := ⟨rfl, rfl, rfl, rfl, rfl⟩

theorem sameCore_trans {b b2 b3 : Board} (h : b.sameCore b2) (h2 : b2.sameCore b3) :
    b.sameCore b3 := by
  obtain ⟨a1, a2, a3, a4, a5⟩ := h
  obtain ⟨c1, c2, c3, c4, c5⟩ := h2
  exact ⟨c1.trans a1, c2.trans a2, c3.trans a3, c4.trans a4, c5.trans a5⟩

theorem setScore_sameCore (b : Board) (r : Role) (x y : Nat) (v : Int) :
    b.sameCore (b.setScore r x y v) := by
  cases r <;> exact ⟨rfl, rfl, rfl, rfl, rfl⟩

theorem update_cache_sameCore (b : Board) (r : Role) (x y : Nat) :
    b.sameCore (b.update_cache_if_needed r x y) := by
  unfold Board.update_cache_if_needed
  apply foldl_preserve (fun b2 => b.sameCore b2)
  · intro b2 dir h
    by_cases hd : get4 b2.shape_cache.dirty (role_index r) dir x y false
    · simp only [hd, if_true]
      exact sameCore_trans h ⟨rfl, rfl, rfl, rfl, rfl⟩
    · simp only [hd, if_false]
      exact h
  · exact sameCore_refl b

theorem cacl_role_pass_sameCore (b : Board) (role : Role) (x y : Nat) :
    b.sameCore (b.cacl_role_pass role x y) := by
  unfold Board.cacl_role_pass
  refine sameCore_trans (update_cache_sameCore b role x y) ?_
  refine sameCore_trans (update_cache_sameCore _ role.opponent x y) ?_
  apply setScore_sameCore

theorem cacl_sameCore (b : Board) (x y : Nat) :
    b.sameCore (b.cacl_score_for_point x y) := by
  unfold Board.cacl_score_for_point
  apply foldl_preserve (fun b2 => b.sameCore b2)
  · intro b2 role h
    exact sameCore_trans h (cacl_role_pass_sameCore b2 role x y)
  · exact sameCore_trans (setScore_sameCore b .Black x y 0)
      (setScore_sameCore _ .White x y 0)

theorem caclStep_sameCore (b : Board) (c : Nat × Nat) : b.sameCore (b.caclStep c) := by
  unfold Board.caclStep
  by_cases hc : get2 b.board (c.1 + 1) (c.2 + 1) 2 = 0
  · simp only [hc, if_true]
    exact cacl_sameCore b c.1 c.2
  · simp only [hc, if_false]
    exact sameCore_refl b

theorem recalc_sameCore (b : Board) (x y : Nat) :
    b.sameCore (b.recalc_scores x y) := by
  unfold Board.recalc_scores
  apply foldl_preserve (fun b2 => b.sameCore b2)
  · intro b2 d h
    apply foldl_preserve (fun b3 => b.sameCore b3)
    · intro b3 sign h3
      apply foldl_preserve (fun b4 => b.sameCore b4)
      · intro b4 c h4
        exact sameCore_trans h4 (caclStep_sameCore b4 c)
      · exact h3
    · exact h
  · exact caclStep_sameCore b (x, y)

theorem list_set_self {α : Type} (l : List α) (i : Nat) (a : α) (h : l[i]? = some a) :
    l.set i a = l := by
  induction l generalizing i with
  | nil => simp at h
  | cons x xs ih =>
    cases i with
    | zero =>
      simp only [List.getElem?_cons_zero, Option.some_inj] at h
      simp [List.set, h]
    | succ n =>
      simp only [List.getElem?_cons_succ] at h
      simp [List.set, ih n h]

theorem get2_bounds (g : List (List Int)) (i j : Nat) (h : get2 g i j 2 = 0) :
    ∃ row, g[i]? = some row ∧ row[j]? = some 0 := by
  unfold get2 at h
  rw [List.getD_eq_getElem?_getD, List.getD_eq_getElem?_getD] at h
  cases hg : g[i]? with
  | none =>
    rw [hg] at h
    simp at h
  | some row =>
    rw [hg] at h
    simp only [Option.getD_some] at h
    cases hr : row[j]? with
    | none =>
      rw [hr] at h
      simp at h
    | some a =>
      rw [hr] at h
      simp only [Option.getD_some] at h
      exact ⟨row, rfl, by rw [hr, h]⟩

theorem set2_set2_restore (g : List (List Int)) (i j : Nat) (v : Int)
    (h : get2 g i j 2 = 0) : set2 (set2 g i j v) i j 0 = g := by
  obtain ⟨row, hg, hr⟩ := get2_bounds g i j h
  obtain ⟨hi, -⟩ := List.getElem?_eq_some.mp hg
  have hrow : g.getD i [] = row := by
    rw [List.getD_eq_getElem?_getD, hg]
    rfl
  unfold set2
  rw [hrow]
  have hmid : (g.set i (row.set j v)).getD i [] = row.set j v := by
    rw [List.getD_eq_getElem?_getD, List.getElem?_set_self hi]
    rfl
  rw [hmid, List.set_set, List.set_set, list_set_self row j 0 hr, list_set_self g i row hg]

theorem toggle_piece_involutive (z : ZobristCache) (x y : Nat) (r : Int) :
    (z.toggle_piece x y r).toggle_piece x y r = z := by
  cases z with
  | mk table hash => simp [ZobristCache.toggle_piece, Nat.xor_assoc]

theorem shape_set_sameCore (b : Board) (sc : ShapeCache) :
    b.sameCore { b with shape_cache := sc } := ⟨rfl, rfl, rfl, rfl, rfl⟩

theorem put_success_core (b : Board) (x y : Nat) (role : Role)
    (h1 : ¬ (x ≥ b.size ∨ y ≥ b.size)) (h2 : get2 b.board (x + 1) (y + 1) 2 = 0) :
    Board.sameCore
      { b with board := set2 b.board (x + 1) (y + 1) role.to_int,
               history := (x, y, role) :: b.history,
               zorbist_cache := b.zorbist_cache.toggle_piece x y role.to_int }
      (b.put x y role).2 := by
  unfold Board.put
  rw [if_neg h1, if_neg (by simp [h2])]
  refine sameCore_trans ?_ (recalc_sameCore _ x y)
  refine sameCore_trans ?_ (shape_set_sameCore _ _)
  refine sameCore_trans ?_ (shape_set_sameCore _ _)
  refine sameCore_trans ?_ (setScore_sameCore _ .White x y 0)
  exact setScore_sameCore _ .Black x y 0

theorem undo_cons_core (b : Board) (x y : Nat) (role : Role) (rest : List (Nat × Nat × Role))
    (hh : b.history = (x, y, role) :: rest) :
    Board.sameCore
      { b with board := set2 b.board (x + 1) (y + 1) 0,
               history := rest,
               zorbist_cache := b.zorbist_cache.toggle_piece x y role.to_int }
      (b.undo).2 := by
  unfold Board.undo
  rw [hh]
  refine sameCore_trans ?_ (recalc_sameCore _ x y)
  refine sameCore_trans ?_ (shape_set_sameCore _ _)
  exact shape_set_sameCore _ _

theorem putList_undoN_core : ∀ (l : List (Nat × Nat × Role)) (b b2 : Board),
    b.putList l = some b2 → b.sameCore (b2.undoN l.length) := by
  intro l
  induction l with
  | nil =>
    intro b b2 h
    simp only [Board.putList, Option.some_inj] at h
    subst h
    exact sameCore_refl b
  | cons m rest ih =>
    intro b b2 h
    simp only [Board.putList] at h
    cases hput : (b.put m.1 m.2.1 m.2.2).1 with
    | false =>
      rw [hput] at h
      simp at h
    | true =>
      rw [hput] at h
      simp only [if_true] at h
      have h1 : ¬ (m.1 ≥ b.size ∨ m.2.1 ≥ b.size) := by
        intro hc
        rw [put_fail_oob b m.1 m.2.1 m.2.2 hc] at hput
        simp at hput
      have h2 : get2 b.board (m.1 + 1) (m.2.1 + 1) 2 = 0 := by
        by_contra hc
        rw [put_fail_occupied b m.1 m.2.1 m.2.2 h1 hc] at hput
        simp at hput
      obtain ⟨hbs, hbb, hbh, hbz, hbp⟩ := put_success_core b m.1 m.2.1 m.2.2 h1 h2
      simp only at hbs hbb hbh hbz hbp
      obtain ⟨hus, hub, huh, huz, hup⟩ := ih (b.put m.1 m.2.1 m.2.2).2 b2 h
      simp only [List.length_cons, Board.undoN]
      have hhist : (b2.undoN rest.length).history = (m.1, m.2.1, m.2.2) :: b.history := by
        rw [huh, hbh]
      obtain ⟨hvs, hvb, hvh, hvz, hvp⟩ :=
        undo_cons_core (b2.undoN rest.length) m.1 m.2.1 m.2.2 b.history hhist
      simp only at hvs hvb hvh hvz hvp
      refine ⟨?_, ?_, ?_, ?_, ?_⟩
      · rw [hvs, hus, hbs]
      · rw [hvb, hub, hbb]
        exact set2_set2_restore b.board (m.1 + 1) (m.2.1 + 1) m.2.2.to_int h2
      · exact hvh
      · rw [hvz, huz, hbz]
        exact toggle_piece_involutive b.zorbist_cache m.1 m.2.1 m.2.2.to_int
      · rw [hvp, hup, hbp]

set_option maxRecDepth 100000 in
/-- C1 counterexample: on the initial board (a reachable state) the placement
(0,0,White) is legal, yet put followed by the matching undo does not restore
the per-cell score matrices: the initial 1000-point centre bonus of Board::new
is overwritten by the pattern-based recomputation, here on a size-1 board. -/
theorem C1_counterexample :
    ((Board.new 1 demoTable).put 0 0 .White).1 = true ∧
    (((((Board.new 1 demoTable).put 0 0 .White).2).undo).2).role_scores_white
      ≠ (Board.new 1 demoTable).role_scores_white := by
  constructor
  · decide
  · decide

/-- C1 amended: for every board and every sequence of N successful puts, the N
matching undos restore the grid, the move history and the 64-bit fingerprint
exactly; the per-cell score matrices are not always restored (see the
counterexample: the initial centre bonus is lost). -/
theorem C1_put_undo_restores_grid_and_fingerprint (l : List (Nat × Nat × Role))
    (b b2 : Board) (h : b.putList l = some b2) :
    (b2.undoN l.length).board = b.board ∧ (b2.undoN l.length).history = b.history ∧
    (b2.undoN l.length).hash = b.hash := by
  obtain ⟨hs, hb, hh, hz, hp⟩ := putList_undoN_core l b b2 h
  refine ⟨hb, hh, ?_⟩
  show (b2.undoN l.length).zorbist_cache.hash = b.zorbist_cache.hash
  rw [hz]

set_option maxRecDepth 100000 in
/-- C1 witness: a concrete put then undo on the initial size-1 board restores
grid, history and fingerprint. -/
theorem C1_witness :
    ((((Board.new 1 demoTable).put 0 0 .White).2).undoN 1).board
        = (Board.new 1 demoTable).board ∧
    ((((Board.new 1 demoTable).put 0 0 .White).2).undoN 1).history
        = (Board.new 1 demoTable).history ∧
    ((((Board.new 1 demoTable).put 0 0 .White).2).undoN 1).hash
        = (Board.new 1 demoTable).hash := by
  exact C1_put_undo_restores_grid_and_fingerprint [(0, 0, .White)]
    (Board.new 1 demoTable) (((Board.new 1 demoTable).put 0 0 .White).2) rfl

theorem getD_set_ne {α : Type} (l : List α) (i j : Nat) (a dflt : α) (h : i ≠ j) :
    (l.set i a).getD j dflt = l.getD j dflt := by
  rw [List.getD_eq_getElem?_getD, List.getD_eq_getElem?_getD, List.getElem?_set_ne h]

theorem getD_set_self {α : Type} (l : List α) (i : Nat) (a dflt : α) (h : i < l.length) :
    (l.set i a).getD i dflt = a := by
  rw [List.getD_eq_getElem?_getD, List.getElem?_set_self h]
  rfl

theorem get2_set2_ne {α : Type} (g : List (List α)) (i j i2 j2 : Nat) (v dflt : α)
    (h : i ≠ i2 ∨ j ≠ j2) : get2 (set2 g i j v) i2 j2 dflt = get2 g i2 j2 dflt := by
  unfold get2 set2
  by_cases hi : i = i2
  · subst hi
    have hj : j ≠ j2 := h.resolve_left (by simp)
    by_cases hlen : i < g.length
    · rw [getD_set_self g i _ [] hlen, getD_set_ne _ j j2 _ _ hj]
    · rw [List.set_eq_of_length_le (by omega)]
  · rw [getD_set_ne _ i i2 _ _ hi]

theorem get2_set2_self {α : Type} (g : List (List α)) (i j : Nat) (v dflt : α)
    (hi : i < g.length) (hj : j < (g.getD i []).length) :
    get2 (set2 g i j v) i j dflt = v := by
  unfold get2 set2
  rw [getD_set_self g i _ [] hi, getD_set_self _ j v dflt hj]

theorem get4_set4_ne {α : Type} (g : List (List (List (List α)))) (r d x y r2 d2 x2 y2 : Nat)
    (v dflt : α) (h : r ≠ r2 ∨ d ≠ d2 ∨ x ≠ x2 ∨ y ≠ y2) :
    get4 (set4 g r d x y v) r2 d2 x2 y2 dflt = get4 g r2 d2 x2 y2 dflt := by
  unfold get4 set4
  by_cases hr : r = r2
  case neg => rw [getD_set_ne _ r r2 _ _ hr]
  subst hr
  by_cases hrl : r < g.length
  case neg =>
    rw [List.set_eq_of_length_le (by omega)]
  rw [getD_set_self g r _ [] hrl]
  by_cases hd : d = d2
  case neg => rw [getD_set_ne _ d d2 _ _ hd]
  subst hd
  by_cases hdl : d < (g.getD r []).length
  case neg =>
    rw [List.set_eq_of_length_le (by omega)]
  rw [getD_set_self _ d _ [] hdl]
  by_cases hx : x = x2
  case neg => rw [getD_set_ne _ x x2 _ _ hx]
  subst hx
  by_cases hxl : x < ((g.getD r []).getD d []).length
  case neg =>
    rw [List.set_eq_of_length_le (by omega)]
  rw [getD_set_self _ x _ [] hxl]
  have hy : y ≠ y2 := by tauto
  rw [getD_set_ne _ y y2 _ _ hy]

theorem get4_set4_self {α : Type} (g : List (List (List (List α)))) (r d x y : Nat)
    (v dflt : α) (hr : r < g.length) (hd : d < (g.getD r []).length)
    (hx : x < ((g.getD r []).getD d []).length)
    (hy : y < (((g.getD r []).getD d []).getD x []).length) :
    get4 (set4 g r d x y v) r d x y dflt = v := by
  unfold get4 set4
  rw [getD_set_self g r _ [] hr, getD_set_self _ d _ [] hd, getD_set_self _ x _ [] hx,
    getD_set_self _ y v dflt hy]

theorem check_pattern_congr {b b2 : Board} (h : b.sameCore b2) (role_val : Int)
    (x y : Nat) (dx dy act_idx : Int) (pattern_vec : List Int) :
    b2.check_pattern role_val x y dx dy act_idx pattern_vec
      = b.check_pattern role_val x y dx dy act_idx pattern_vec := by
  obtain ⟨hs, hb, hh, hz, hp⟩ := h
  unfold Board.check_pattern
  rw [hs, hb]

theorem find_best_congr {b b2 : Board} (h : b.sameCore b2) (ro : Role) (u v d : Nat) :
    b2.find_best_pattern_in_dir ro u v d = b.find_best_pattern_in_dir ro u v d := by
  unfold Board.find_best_pattern_in_dir
  rw [h.2.2.2.2, h.2.2.1]
  simp only [check_pattern_congr h]

theorem dirCostSum_congr {b b2 : Board} (h : b.sameCore b2) (ro : Role) (u v : Nat) :
    b2.dirCostSum ro u v = b.dirCostSum ro u v := by
  unfold Board.dirCostSum
  simp only [find_best_congr h]

theorem freshScore_congr {b b2 : Board} (h : b.sameCore b2) (ro : Role) (u v : Nat) :
    b2.freshScore ro u v = b.freshScore ro u v := by
  unfold Board.freshScore
  rw [dirCostSum_congr h, dirCostSum_congr h]

theorem cellUntouched_refl (b : Board) (u v : Nat) : b.cellUntouched b u v :=
  ⟨fun _ _ => rfl, fun _ _ => rfl, fun _ => rfl⟩

theorem cellUntouched_trans {b b2 b3 : Board} {u v : Nat}
    (h : b.cellUntouched b2 u v) (h2 : b2.cellUntouched b3 u v) :
    b.cellUntouched b3 u v := by
  obtain ⟨a1, a2, a3⟩ := h
  obtain ⟨c1, c2, c3⟩ := h2
  exact ⟨fun r d => (c1 r d).trans (a1 r d), fun r d => (c2 r d).trans (a2 r d),
    fun ro => (c3 ro).trans (a3 ro)⟩

theorem setScore_cellUntouched (b : Board) (ro : Role) (x y u v : Nat) (w : Int)
    (hne : x ≠ u ∨ y ≠ v) : b.cellUntouched (b.setScore ro x y w) u v := by
  cases ro with
  | Black =>
    refine ⟨fun _ _ => rfl, fun _ _ => rfl, fun ro2 => ?_⟩
    cases ro2 with
    | Black => exact get2_set2_ne _ x y u v _ _ hne
    | White => rfl
  | White =>
    refine ⟨fun _ _ => rfl, fun _ _ => rfl, fun ro2 => ?_⟩
    cases ro2 with
    | Black => rfl
    | White => exact get2_set2_ne _ x y u v _ _ hne

theorem update_cache_cellUntouched (b : Board) (ro : Role) (x y u v : Nat)
    (hne : x ≠ u ∨ y ≠ v) : b.cellUntouched (b.update_cache_if_needed ro x y) u v := by
  unfold Board.update_cache_if_needed
  apply foldl_preserve (fun b2 => b.cellUntouched b2 u v)
  · intro b2 dir h
    by_cases hd : get4 b2.shape_cache.dirty (role_index ro) dir x y false
    · simp only [hd, if_true]
      refine cellUntouched_trans h ⟨fun r d => ?_, fun r d => ?_, fun ro2 => rfl⟩
      · exact get4_set4_ne _ _ _ x y r d u v _ _ (by tauto)
      · exact get4_set4_ne _ _ _ x y r d u v _ _ (by tauto)
    · simp only [hd, if_false]
      exact h
  · exact cellUntouched_refl b u v

theorem cacl_role_pass_cellUntouched (b : Board) (ro : Role) (x y u v : Nat)
    (hne : x ≠ u ∨ y ≠ v) : b.cellUntouched (b.cacl_role_pass ro x y) u v := by
  unfold Board.cacl_role_pass
  refine cellUntouched_trans (update_cache_cellUntouched b ro x y u v hne) ?_
  refine cellUntouched_trans (update_cache_cellUntouched _ ro.opponent x y u v hne) ?_
  exact setScore_cellUntouched _ ro x y u v _ hne

theorem cacl_cellUntouched (b : Board) (x y u v : Nat) (hne : x ≠ u ∨ y ≠ v) :
    b.cellUntouched (b.cacl_score_for_point x y) u v := by
  unfold Board.cacl_score_for_point
  apply foldl_preserve (fun b2 => b.cellUntouched b2 u v)
  · intro b2 ro h
    exact cellUntouched_trans h (cacl_role_pass_cellUntouched b2 ro x y u v hne)
  · exact cellUntouched_trans (setScore_cellUntouched b .Black x y u v 0 hne)
      (setScore_cellUntouched _ .White x y u v 0 hne)

theorem foldl_preserve_mem {α β : Type} (P : α → Prop) (f : α → β → α) (l : List β)
    (a : α) (hstep : ∀ a2 x, x ∈ l → P a2 → P (f a2 x)) (h0 : P a) : P (l.foldl f a) := by
  induction l generalizing a with
  | nil => exact h0
  | cons x xs ih =>
    exact ih (f a x) (fun a2 z hz => hstep a2 z (List.mem_cons_of_mem x hz))
      (hstep a x (List.mem_cons_self x xs) h0)

theorem getD_length_set {α : Type} (g : List (List α)) (i j : Nat) (r : List α)
    (hlen : r.length = (g.getD i []).length) :
    ((g.set i r).getD j []).length = (g.getD j []).length := by
  by_cases hij : i = j
  · subst hij
    by_cases hl : i < g.length
    · rw [getD_set_self g i r [] hl, hlen]
    · rw [List.set_eq_of_length_le (by omega)]
  · rw [getD_set_ne _ i j _ _ hij]

theorem grid4Dims_set4 {α : Type} {a b c d : Nat} (g : List (List (List (List α))))
    (r dd x y : Nat) (v : α) (hdims : grid4Dims a b c d g) :
    grid4Dims a b c d (set4 g r dd x y v) := by
  obtain ⟨h1, h2⟩ := hdims
  constructor
  · rw [set4, List.length_set, h1]
  · intro i hi
    have hrow : ((set4 g r dd x y v).getD i []).length = (g.getD i []).length := by
      apply getD_length_set
      rw [List.length_set]
    refine ⟨hrow.trans (h2 i hi).1, ?_⟩
    intro j hj
    by_cases hri : r = i
    case neg =>
      rw [set4, getD_set_ne _ r i _ _ hri]
      exact ((h2 i hi).2 j hj)
    subst hri
    by_cases hrl : r < g.length
    case neg =>
      rw [set4, List.set_eq_of_length_le (by omega)]
      exact ((h2 r hi).2 j hj)
    rw [set4, getD_set_self g r _ [] hrl]
    have hrow2 : (((g.getD r []).set dd (((g.getD r []).getD dd []).set x
          ((((g.getD r []).getD dd []).getD x []).set y v))).getD j []).length
        = ((g.getD r []).getD j []).length := by
      apply getD_length_set
      rw [List.length_set]
    refine ⟨hrow2.trans ((h2 r hi).2 j hj).1, ?_⟩
    intro k hk
    by_cases hdj : dd = j
    case neg =>
      rw [getD_set_ne _ dd j _ _ hdj]
      exact ((h2 r hi).2 j hj).2 k hk
    subst hdj
    by_cases hdl : dd < (g.getD r []).length
    case neg =>
      rw [List.set_eq_of_length_le (by omega)]
      exact ((h2 r hi).2 dd hj).2 k hk
    rw [getD_set_self _ dd _ [] hdl]
    have hrow3 : ((((g.getD r []).getD dd []).set x
          ((((g.getD r []).getD dd []).getD x []).set y v)).getD k []).length
        = (((g.getD r []).getD dd []).getD k []).length := by
      apply getD_length_set
      rw [List.length_set]
    exact hrow3.trans (((h2 r hi).2 dd hj).2 k hk)

theorem grid2Dims_set2 {α : Type} {a b : Nat} (g : List (List α)) (x y : Nat) (v : α)
    (hdims : grid2Dims a b g) : grid2Dims a b (set2 g x y v) := by
  obtain ⟨h1, h2⟩ := hdims
  constructor
  · rw [set2, List.length_set, h1]
  · intro i hi
    have : ((set2 g x y v).getD i []).length = (g.getD i []).length := by
      apply getD_length_set
      rw [List.length_set]
    exact this.trans (h2 i hi)

theorem foldl_congr_mem {α β : Type} (f g : α → β → α) (l : List β) (a : α)
    (h : ∀ acc x, x ∈ l → f acc x = g acc x) : l.foldl f a = l.foldl g a := by
  induction l generalizing a with
  | nil => rfl
  | cons x xs ih =>
    simp only [List.foldl_cons]
    rw [h a x (List.mem_cons_self x xs)]
    exact ih (g a x) (fun acc z hz => h acc z (List.mem_cons_of_mem x hz))

theorem setScore_size (b : Board) (ro : Role) (x y : Nat) (w : Int) :
    (b.setScore ro x y w).size = b.size := by
  cases ro <;> rfl

theorem setScore_other_role (b : Board) (ro ro2 : Role) (x y : Nat) (w : Int)
    (h : ro ≠ ro2) : (b.setScore ro x y w).role_scores ro2 = b.role_scores ro2 := by
  cases ro <;> cases ro2 <;> first | rfl | exact absurd rfl h

theorem setScore_shape (b : Board) (ro : Role) (x y : Nat) (w : Int) :
    (b.setScore ro x y w).shape_cache = b.shape_cache := by
  cases ro <;> rfl

theorem setScore_dimsOk (b : Board) (ro : Role) (x y : Nat) (w : Int)
    (h : b.dimsOk) : (b.setScore ro x y w).dimsOk := by
  obtain ⟨h1, h2, h3, h4⟩ := h
  cases ro with
  | Black => exact ⟨h1, h2, grid2Dims_set2 _ x y w h3, h4⟩
  | White => exact ⟨h1, h2, h3, grid2Dims_set2 _ x y w h4⟩

theorem setScore_get2 (b : Board) (ro : Role) (x y : Nat) (w : Int)
    (hdims : b.dimsOk) (hx : x < b.size) (hy : y < b.size) :
    get2 ((b.setScore ro x y w).role_scores ro) x y 0 = w := by
  cases ro with
  | Black =>
    refine get2_set2_self _ x y w 0 ?_ ?_
    · rw [hdims.2.2.1.1]; exact hx
    · rw [hdims.2.2.1.2 x hx]; exact hy
  | White =>
    refine get2_set2_self _ x y w 0 ?_ ?_
    · rw [hdims.2.2.2.1]; exact hx
    · rw [hdims.2.2.2.2 x hx]; exact hy

theorem update_cache_clean_id (b : Board) (ro : Role) (u v : Nat)
    (hclean : ∀ d, d < 4 → get4 b.shape_cache.dirty (role_index ro) d u v false = false) :
    b.update_cache_if_needed ro u v = b := by
  unfold Board.update_cache_if_needed
  apply foldl_preserve_mem (fun b2 => b2 = b)
  · intro b2 d hd hb2
    subst hb2
    rw [hclean d (by simpa using List.mem_range.mp hd)]
    simp
  · rfl

theorem dims4_bounds {α : Type} {sz : Nat} {g : List (List (List (List α)))}
    (h : grid4Dims 2 4 sz sz g) {r d x y : Nat} (hr : r < 2) (hd : d < 4)
    (hx : x < sz) (hy : y < sz) :
    r < g.length ∧ d < (g.getD r []).length ∧ x < ((g.getD r []).getD d []).length ∧
    y < (((g.getD r []).getD d []).getD x []).length := by
  obtain ⟨h1, h2⟩ := h
  refine ⟨by omega, ?_, ?_, ?_⟩
  · rw [(h2 r hr).1]; exact hd
  · rw [((h2 r hr).2 d hd).1]; exact hx
  · rw [(((h2 r hr).2 d hd).2 x hx)]; exact hy

theorem role_index_lt (ro : Role) : role_index ro < 2 := by
  cases ro <;> decide

theorem update_fold_chars (bref : Board) (ro : Role) (u v : Nat)
    (hu : u < bref.size) (hv : v < bref.size) :
    ∀ (dirs : List Nat) (s : Board), bref.sameCore s → s.dimsOk → dirs.Nodup →
    (∀ d ∈ dirs, d < 4) →
    (bref.sameCore (dirs.foldl (fun b dir =>
        if get4 b.shape_cache.dirty (role_index ro) dir u v false then
          let r := b.find_best_pattern_in_dir ro u v dir
          { b with shape_cache :=
              { data := set4 b.shape_cache.data (role_index ro) dir u v r
              , dirty := set4 b.shape_cache.dirty (role_index ro) dir u v false } }
        else b) s) ∧
     (dirs.foldl (fun b dir =>
        if get4 b.shape_cache.dirty (role_index ro) dir u v false then
          let r := b.find_best_pattern_in_dir ro u v dir
          { b with shape_cache :=
              { data := set4 b.shape_cache.data (role_index ro) dir u v r
              , dirty := set4 b.shape_cache.dirty (role_index ro) dir u v false } }
        else b) s).dimsOk ∧
     ((dirs.foldl (fun b dir =>
        if get4 b.shape_cache.dirty (role_index ro) dir u v false then
          let r := b.find_best_pattern_in_dir ro u v dir
          { b with shape_cache :=
              { data := set4 b.shape_cache.data (role_index ro) dir u v r
              , dirty := set4 b.shape_cache.dirty (role_index ro) dir u v false } }
        else b) s).role_scores_black = s.role_scores_black ∧
      (dirs.foldl (fun b dir =>
        if get4 b.shape_cache.dirty (role_index ro) dir u v false then
          let r := b.find_best_pattern_in_dir ro u v dir
          { b with shape_cache :=
              { data := set4 b.shape_cache.data (role_index ro) dir u v r
              , dirty := set4 b.shape_cache.dirty (role_index ro) dir u v false } }
        else b) s).role_scores_white = s.role_scores_white) ∧
     (∀ r2 d2 : Nat, (r2 ≠ role_index ro ∨ ¬ d2 ∈ dirs) →
        get4 (dirs.foldl (fun b dir =>
          if get4 b.shape_cache.dirty (role_index ro) dir u v false then
            let r := b.find_best_pattern_in_dir ro u v dir
            { b with shape_cache :=
                { data := set4 b.shape_cache.data (role_index ro) dir u v r
                , dirty := set4 b.shape_cache.dirty (role_index ro) dir u v false } }
          else b) s).shape_cache.dirty r2 d2 u v false
            = get4 s.shape_cache.dirty r2 d2 u v false ∧
        get4 (dirs.foldl (fun b dir =>
          if get4 b.shape_cache.dirty (role_index ro) dir u v false then
            let r := b.find_best_pattern_in_dir ro u v dir
            { b with shape_cache :=
                { data := set4 b.shape_cache.data (role_index ro) dir u v r
                , dirty := set4 b.shape_cache.dirty (role_index ro) dir u v false } }
          else b) s).shape_cache.data r2 d2 u v (ShapeId.noneShape, 0)
            = get4 s.shape_cache.data r2 d2 u v (ShapeId.noneShape, 0)) ∧
     (∀ d2 ∈ dirs, get4 s.shape_cache.dirty (role_index ro) d2 u v false = true →
        get4 (dirs.foldl (fun b dir =>
          if get4 b.shape_cache.dirty (role_index ro) dir u v false then
            let r := b.find_best_pattern_in_dir ro u v dir
            { b with shape_cache :=
                { data := set4 b.shape_cache.data (role_index ro) dir u v r
                , dirty := set4 b.shape_cache.dirty (role_index ro) dir u v false } }
          else b) s).shape_cache.dirty (role_index ro) d2 u v false = false ∧
        get4 (dirs.foldl (fun b dir =>
          if get4 b.shape_cache.dirty (role_index ro) dir u v false then
            let r := b.find_best_pattern_in_dir ro u v dir
            { b with shape_cache :=
                { data := set4 b.shape_cache.data (role_index ro) dir u v r
                , dirty := set4 b.shape_cache.dirty (role_index ro) dir u v false } }
          else b) s).shape_cache.data (role_index ro) d2 u v (ShapeId.noneShape, 0)
            = bref.find_best_pattern_in_dir ro u v d2)) := by
  intro dirs
  induction dirs with
  | nil =>
    intro s hcore hdims _ _
    exact ⟨hcore, hdims, ⟨rfl, rfl⟩, fun _ _ _ => ⟨rfl, rfl⟩, fun d2 hd2 => absurd hd2 (by simp)⟩
  | cons d0 rest ih =>
    intro s hcore hdims hnodup hlt
    have hd0lt : d0 < 4 := hlt d0 (List.mem_cons_self d0 rest)
    have hd0nin : ¬ d0 ∈ rest := (List.nodup_cons.mp hnodup).1
    have hunodup : rest.Nodup := (List.nodup_cons.mp hnodup).2
    have hultr : ∀ d ∈ rest, d < 4 := fun d hd => hlt d (List.mem_cons_of_mem d0 hd)
    have husz : u < s.size := by rw [hcore.1]; exact hu
    have hvsz : v < s.size := by rw [hcore.1]; exact hv
    simp only [List.foldl_cons]
    by_cases hdirty0 : get4 s.shape_cache.dirty (role_index ro) d0 u v false
    · simp only [hdirty0, if_true]
      have hbounds := dims4_bounds hdims.2.1 (role_index_lt ro) hd0lt husz hvsz
      have hboundsData := dims4_bounds hdims.1 (role_index_lt ro) hd0lt husz hvsz
      have hcore1 : bref.sameCore { s with shape_cache :=
          { data := set4 s.shape_cache.data (role_index ro) d0 u v
              (s.find_best_pattern_in_dir ro u v d0)
          , dirty := set4 s.shape_cache.dirty (role_index ro) d0 u v false } } :=
        sameCore_trans hcore (shape_set_sameCore s _)
      have hdims1 : Board.dimsOk { s with shape_cache :=
          { data := set4 s.shape_cache.data (role_index ro) d0 u v
              (s.find_best_pattern_in_dir ro u v d0)
          , dirty := set4 s.shape_cache.dirty (role_index ro) d0 u v false } } := by
        obtain ⟨g1, g2, g3, g4⟩ := hdims
        exact ⟨grid4Dims_set4 _ _ _ _ _ _ g1, grid4Dims_set4 _ _ _ _ _ _ g2, g3, g4⟩
      obtain ⟨o1, o2, o3, o4, o5⟩ := ih _ hcore1 hdims1 hunodup hultr
      refine ⟨o1, o2, o3, ?_, ?_⟩
      · intro r2 d2 hor
        have hne : r2 ≠ role_index ro ∨ ¬ d2 ∈ rest := by
          rcases hor with h | h
          · exact Or.inl h
          · exact Or.inr (fun hmem => h (List.mem_cons_of_mem d0 hmem))
        have hne2 : role_index ro ≠ r2 ∨ d0 ≠ d2 ∨ u ≠ u ∨ v ≠ v := by
          rcases hor with h | h
          · exact Or.inl (Ne.symm h)
          · exact Or.inr (Or.inl (fun hq => h (hq ▸ List.mem_cons_self d0 rest)))
        obtain ⟨q1, q2⟩ := o4 r2 d2 hne
        constructor
        · rw [q1]
          exact get4_set4_ne _ _ _ u v r2 d2 u v _ _ hne2
        · rw [q2]
          exact get4_set4_ne _ _ _ u v r2 d2 u v _ _ hne2
      · intro d2 hd2 hsdirty
        rcases List.mem_cons.mp hd2 with heq | hmem
        · subst heq
          obtain ⟨q1, q2⟩ := o4 (role_index ro) d2 (Or.inr hd0nin)
          constructor
          · rw [q1]
            exact get4_set4_self _ _ _ u v false false hbounds.1 hbounds.2.1
              hbounds.2.2.1 hbounds.2.2.2
          · rw [q2]
            rw [get4_set4_self _ _ _ u v _ _ hboundsData.1 hboundsData.2.1
              hboundsData.2.2.1 hboundsData.2.2.2]
            exact find_best_congr hcore ro u v d2
        · have hd2ne : d2 ≠ d0 := fun hq => hd0nin (hq ▸ hmem)
          have hmid : get4 (set4 s.shape_cache.dirty (role_index ro) d0 u v false)
              (role_index ro) d2 u v false = true := by
            rw [get4_set4_ne _ _ _ u v _ d2 u v _ _ (Or.inr (Or.inl (Ne.symm hd2ne)))]
            exact hsdirty
          exact o5 d2 hmem hmid
    · rw [if_neg hdirty0]
      obtain ⟨o1, o2, o3, o4, o5⟩ := ih s hcore hdims hunodup hultr
      refine ⟨o1, o2, o3, ?_, ?_⟩
      · intro r2 d2 hor
        refine o4 r2 d2 ?_
        rcases hor with h | h
        · exact Or.inl h
        · exact Or.inr (fun hm => h (List.mem_cons_of_mem d0 hm))
      · intro d2 hd2 hsd
        rcases List.mem_cons.mp hd2 with heq | hmem
        · subst heq
          exact absurd hsd hdirty0
        · exact o5 d2 hmem hsd

theorem role_index_opponent_ne (ro : Role) : role_index ro.opponent ≠ role_index ro := by
  cases ro <;> decide

theorem update_cache_all_dirty (bref s : Board) (ro : Role) (u v : Nat)
    (hcore : bref.sameCore s) (hdims : s.dimsOk) (hu : u < bref.size) (hv : v < bref.size)
    (hdirty : ∀ d, d < 4 → get4 s.shape_cache.dirty (role_index ro) d u v false = true) :
    bref.sameCore (s.update_cache_if_needed ro u v) ∧
    (s.update_cache_if_needed ro u v).dimsOk ∧
    (s.update_cache_if_needed ro u v).role_scores_black = s.role_scores_black ∧
    (s.update_cache_if_needed ro u v).role_scores_white = s.role_scores_white ∧
    (∀ r2 d2 : Nat, r2 ≠ role_index ro →
      get4 (s.update_cache_if_needed ro u v).shape_cache.dirty r2 d2 u v false
        = get4 s.shape_cache.dirty r2 d2 u v false ∧
      get4 (s.update_cache_if_needed ro u v).shape_cache.data r2 d2 u v
          (ShapeId.noneShape, 0)
        = get4 s.shape_cache.data r2 d2 u v (ShapeId.noneShape, 0)) ∧
    (∀ d, d < 4 →
      get4 (s.update_cache_if_needed ro u v).shape_cache.dirty (role_index ro) d u v false
        = false ∧
      get4 (s.update_cache_if_needed ro u v).shape_cache.data (role_index ro) d u v
          (ShapeId.noneShape, 0)
        = bref.find_best_pattern_in_dir ro u v d) := by
  have h := update_fold_chars bref ro u v hu hv (List.range 4) s hcore hdims
    (List.nodup_range 4) (fun d hd => List.mem_range.mp hd)
  obtain ⟨o1, o2, o3, o4, o5⟩ := h
  unfold Board.update_cache_if_needed
  refine ⟨o1, o2, o3.1, o3.2, ?_, ?_⟩
  · intro r2 d2 hr2
    exact o4 r2 d2 (Or.inl hr2)
  · intro d hd
    exact o5 d (List.mem_range.mpr hd) (hdirty d hd)

theorem sum_data_eq (bref s : Board) (ro : Role) (u v : Nat)
    (hdata : ∀ d, d < 4 → get4 s.shape_cache.data (role_index ro) d u v
      (ShapeId.noneShape, 0) = bref.find_best_pattern_in_dir ro u v d) :
    (List.range 4).foldl (fun acc dir => acc +
      (get4 s.shape_cache.data (role_index ro) dir u v (ShapeId.noneShape, 0)).2) 0
      = bref.dirCostSum ro u v := by
  unfold Board.dirCostSum
  apply foldl_congr_mem
  intro acc d hd
  rw [hdata d (List.mem_range.mp hd)]


theorem role_eq_or_opponent (ro ro2 : Role) : ro2 = ro ∨ ro2 = ro.opponent := by
  cases ro <;> cases ro2 <;> simp [Role.opponent]

theorem role_opponent_ne (ro : Role) : ro ≠ ro.opponent := by
  cases ro <;> decide

theorem role_scores_eq_of_fields {b b2 : Board}
    (hb : b2.role_scores_black = b.role_scores_black)
    (hw : b2.role_scores_white = b.role_scores_white) (ro : Role) :
    b2.role_scores ro = b.role_scores ro := by
  cases ro
  · exact hb
  · exact hw

theorem cacl_role_pass_all_dirty (bref s : Board) (ro : Role) (u v : Nat)
    (hcore : bref.sameCore s) (hdims : s.dimsOk) (hu : u < bref.size) (hv : v < bref.size)
    (hd_own : ∀ d, d < 4 → get4 s.shape_cache.dirty (role_index ro) d u v false = true)
    (hd_opp : ∀ d, d < 4 →
      get4 s.shape_cache.dirty (role_index ro.opponent) d u v false = true) :
    bref.sameCore (s.cacl_role_pass ro u v) ∧ (s.cacl_role_pass ro u v).dimsOk ∧
    (∀ ro2 : Role, ∀ d, d < 4 →
      get4 (s.cacl_role_pass ro u v).shape_cache.dirty (role_index ro2) d u v false
        = false ∧
      get4 (s.cacl_role_pass ro u v).shape_cache.data (role_index ro2) d u v
          (ShapeId.noneShape, 0)
        = bref.find_best_pattern_in_dir ro2 u v d) ∧
    get2 ((s.cacl_role_pass ro u v).role_scores ro) u v 0 = bref.freshScore ro u v ∧
    (s.cacl_role_pass ro u v).role_scores ro.opponent = s.role_scores ro.opponent := by
  obtain ⟨c1, c2, c3b, c3w, c4, c5⟩ :=
    update_cache_all_dirty bref s ro u v hcore hdims hu hv hd_own
  obtain ⟨e1, e2, e3b, e3w, e4, e5⟩ :=
    update_cache_all_dirty bref (s.update_cache_if_needed ro u v) ro.opponent u v
      c1 c2 hu hv
      (by
        intro d hd
        rw [(c4 (role_index ro.opponent) d (role_index_opponent_ne ro)).1]
        exact hd_opp d hd)
  have hT := sum_data_eq bref (s.update_cache_if_needed ro u v) ro u v
    (fun d hd => (c5 d hd).2)
  have hO := sum_data_eq bref
    ((s.update_cache_if_needed ro u v).update_cache_if_needed ro.opponent u v)
    ro.opponent u v (fun d hd => (e5 d hd).2)
  simp only [Board.cacl_role_pass]
  rw [hT, hO]
  have hU2size : ((s.update_cache_if_needed ro u v).update_cache_if_needed
      ro.opponent u v).size = bref.size := e1.1
  refine ⟨?_, ?_, ?_, ?_, ?_⟩
  · exact sameCore_trans e1 (setScore_sameCore _ ro u v _)
  · exact setScore_dimsOk _ ro u v _ e2
  · intro ro2 d hd
    rw [setScore_shape]
    rcases role_eq_or_opponent ro ro2 with hq | hq
    · subst hq
      obtain ⟨q1, q2⟩ := e4 (role_index ro2) d (Ne.symm (role_index_opponent_ne ro2))
      exact ⟨q1.trans (c5 d hd).1, q2.trans (c5 d hd).2⟩
    · subst hq
      exact e5 d hd
  · rw [setScore_get2 _ ro u v _ e2 (by rw [hU2size]; exact hu) (by rw [hU2size]; exact hv)]
    rfl
  · rw [setScore_other_role _ ro ro.opponent u v _ (role_opponent_ne ro)]
    rw [role_scores_eq_of_fields e3b e3w ro.opponent,
      role_scores_eq_of_fields c3b c3w ro.opponent]

theorem cacl_role_pass_on_fresh (bref s : Board) (ro : Role) (u v : Nat)
    (hcore : bref.sameCore s) (hdims : s.dimsOk) (hu : u < bref.size) (hv : v < bref.size)
    (hfresh : ∀ ro2 : Role, ∀ d, d < 4 →
      get4 s.shape_cache.dirty (role_index ro2) d u v false = false ∧
      get4 s.shape_cache.data (role_index ro2) d u v (ShapeId.noneShape, 0)
        = bref.find_best_pattern_in_dir ro2 u v d) :
    bref.sameCore (s.cacl_role_pass ro u v) ∧ (s.cacl_role_pass ro u v).dimsOk ∧
    (∀ ro2 : Role, ∀ d, d < 4 →
      get4 (s.cacl_role_pass ro u v).shape_cache.dirty (role_index ro2) d u v false
        = false ∧
      get4 (s.cacl_role_pass ro u v).shape_cache.data (role_index ro2) d u v
          (ShapeId.noneShape, 0)
        = bref.find_best_pattern_in_dir ro2 u v d) ∧
    get2 ((s.cacl_role_pass ro u v).role_scores ro) u v 0 = bref.freshScore ro u v ∧
    (s.cacl_role_pass ro u v).role_scores ro.opponent = s.role_scores ro.opponent := by
  have h1 : s.update_cache_if_needed ro u v = s :=
    update_cache_clean_id s ro u v (fun d hd => (hfresh ro d hd).1)
  have h2 : s.update_cache_if_needed ro.opponent u v = s :=
    update_cache_clean_id s ro.opponent u v (fun d hd => (hfresh ro.opponent d hd).1)
  have hT := sum_data_eq bref s ro u v (fun d hd => (hfresh ro d hd).2)
  have hO := sum_data_eq bref s ro.opponent u v (fun d hd => (hfresh ro.opponent d hd).2)
  have hssize : s.size = bref.size := hcore.1
  simp only [Board.cacl_role_pass]
  rw [h1, h2, hT, hO]
  refine ⟨?_, ?_, ?_, ?_, ?_⟩
  · exact sameCore_trans hcore (setScore_sameCore _ ro u v _)
  · exact setScore_dimsOk _ ro u v _ hdims
  · intro ro2 d hd
    rw [setScore_shape]
    exact hfresh ro2 d hd
  · rw [setScore_get2 _ ro u v _ hdims (by rw [hssize]; exact hu)
      (by rw [hssize]; exact hv)]
    rfl
  · rw [setScore_other_role _ ro ro.opponent u v _ (role_opponent_ne ro)]
theorem foldl_hit_mem {α β : Type} (P Q : α → Prop) (f : α → β → α) (l : List β)
    (a : α) (x : β) (hx : x ∈ l)
    (hP : ∀ a2 b, b ∈ l → P a2 → P (f a2 b))
    (hQ : ∀ a2 b, b ∈ l → Q a2 → Q (f a2 b))
    (hhit : ∀ a2, P a2 → Q (f a2 x)) (h0 : P a) : Q (l.foldl f a) := by
  suffices hgen : ∀ (l2 : List β) (a2 : α), x ∈ l2 →
      (∀ a3 b, b ∈ l2 → P a3 → P (f a3 b)) →
      (∀ a3 b, b ∈ l2 → Q a3 → Q (f a3 b)) →
      P a2 → Q (l2.foldl f a2) from hgen l a hx hP hQ h0
  intro l2
  induction l2 with
  | nil =>
    intro a2 hx2 _ _ _
    exact absurd hx2 (List.not_mem_nil x)
  | cons b t ih =>
    intro a2 hx2 hP2 hQ2 h02
    simp only [List.foldl_cons]
    rcases List.mem_cons.mp hx2 with hb | ht
    · subst hb
      exact foldl_preserve_mem Q f t (f a2 x)
        (fun a3 z hz => hQ2 a3 z (List.mem_cons_of_mem x hz)) (hhit a2 h02)
    · exact ih (f a2 b) ht
        (fun a3 z hz hp => hP2 a3 z (List.mem_cons_of_mem b hz) hp)
        (fun a3 z hz hq => hQ2 a3 z (List.mem_cons_of_mem b hz) hq)
        (hP2 a2 b (List.mem_cons_self b t) h02)

theorem update_cache_dimsOk (b : Board) (ro : Role) (x y : Nat) (h : b.dimsOk) :
    (b.update_cache_if_needed ro x y).dimsOk := by
  have hpair : (b.update_cache_if_needed ro x y).size = b.size ∧
      (b.update_cache_if_needed ro x y).dimsOk := by
    unfold Board.update_cache_if_needed
    refine foldl_preserve (fun b2 : Board => b2.size = b.size ∧ b2.dimsOk) _ _ _ ?_
      ⟨rfl, h⟩
    · intro b2 dir hb2
      obtain ⟨hsz, d1, d2, d3, d4⟩ := hb2
      by_cases hd : get4 b2.shape_cache.dirty (role_index ro) dir x y false
      · simp only [hd, if_true]
        exact ⟨hsz, grid4Dims_set4 _ _ _ _ _ _ d1, grid4Dims_set4 _ _ _ _ _ _ d2, d3, d4⟩
      · simp only [hd, if_false]
        exact ⟨hsz, d1, d2, d3, d4⟩
  exact hpair.2

theorem cacl_role_pass_dimsOk (b : Board) (ro : Role) (x y : Nat) (h : b.dimsOk) :
    (b.cacl_role_pass ro x y).dimsOk := by
  simp only [Board.cacl_role_pass]
  exact setScore_dimsOk _ ro x y _
    (update_cache_dimsOk _ ro.opponent x y (update_cache_dimsOk b ro x y h))

theorem cacl_dimsOk (b : Board) (x y : Nat) (h : b.dimsOk) :
    (b.cacl_score_for_point x y).dimsOk := by
  simp only [Board.cacl_score_for_point]
  apply foldl_preserve (fun b2 : Board => b2.dimsOk)
  · intro b2 ro hb2
    exact cacl_role_pass_dimsOk b2 ro x y hb2
  · exact setScore_dimsOk _ .White x y 0 (setScore_dimsOk b .Black x y 0 h)

theorem caclStep_eq (b : Board) (u v : Nat) :
    b.caclStep (u, v)
      = if get2 b.board (u + 1) (v + 1) 2 = 0 then b.cacl_score_for_point u v else b := rfl

theorem caclStep_dimsOk (b : Board) (c : Nat × Nat) (h : b.dimsOk) :
    (b.caclStep c).dimsOk := by
  unfold Board.caclStep
  by_cases hc : get2 b.board (c.1 + 1) (c.2 + 1) 2 = 0
  · simp only [hc, if_true]
    exact cacl_dimsOk b c.1 c.2 h
  · simp only [hc, if_false]
    exact h

theorem recalc_dimsOk (b : Board) (x y : Nat) (h : b.dimsOk) :
    (b.recalc_scores x y).dimsOk := by
  simp only [Board.recalc_scores]
  apply foldl_preserve (fun b2 : Board => b2.dimsOk)
  · intro b2 d h2
    apply foldl_preserve (fun b3 : Board => b3.dimsOk)
    · intro b3 sign h3
      apply foldl_preserve (fun b4 : Board => b4.dimsOk)
      · intro b4 c h4
        exact caclStep_dimsOk b4 c h4
      · exact h3
    · exact h2
  · exact caclStep_dimsOk b (x, y) h

theorem cacl_all_dirty_fresh (bref s : Board) (u v : Nat)
    (hcore : bref.sameCore s) (hdims : s.dimsOk) (hu : u < bref.size) (hv : v < bref.size)
    (hdirty : s.allDirtyAt u v) :
    bref.sameCore (s.cacl_score_for_point u v) ∧ (s.cacl_score_for_point u v).dimsOk ∧
    Board.freshAt bref (s.cacl_score_for_point u v) u v := by
  simp only [Board.cacl_score_for_point, List.foldl_cons, List.foldl_nil]
  have hS0core : bref.sameCore ((s.setScore .Black u v 0).setScore .White u v 0) :=
    sameCore_trans (sameCore_trans hcore (setScore_sameCore s .Black u v 0))
      (setScore_sameCore _ .White u v 0)
  have hS0dims : ((s.setScore .Black u v 0).setScore .White u v 0).dimsOk :=
    setScore_dimsOk _ .White u v 0 (setScore_dimsOk s .Black u v 0 hdims)
  have hS0shape : ((s.setScore .Black u v 0).setScore .White u v 0).shape_cache
      = s.shape_cache := by
    rw [setScore_shape, setScore_shape]
  have hd_own : ∀ d, d < 4 →
      get4 ((s.setScore .Black u v 0).setScore .White u v 0).shape_cache.dirty
        (role_index Role.Black) d u v false = true := by
    intro d hd
    rw [hS0shape]
    exact hdirty _ d (role_index_lt _) hd
  have hd_opp : ∀ d, d < 4 →
      get4 ((s.setScore .Black u v 0).setScore .White u v 0).shape_cache.dirty
        (role_index Role.Black.opponent) d u v false = true := by
    intro d hd
    rw [hS0shape]
    exact hdirty _ d (role_index_lt _) hd
  obtain ⟨p1, p2, p3, p4, p5⟩ := cacl_role_pass_all_dirty bref
    ((s.setScore .Black u v 0).setScore .White u v 0) .Black u v
    hS0core hS0dims hu hv hd_own hd_opp
  obtain ⟨q1, q2, q3, q4, q5⟩ := cacl_role_pass_on_fresh bref
    (((s.setScore .Black u v 0).setScore .White u v 0).cacl_role_pass .Black u v) .White u v
    p1 p2 hu hv p3
  refine ⟨q1, q2, q3, ?_⟩
  intro ro
  cases ro with
  | White => exact q4
  | Black =>
    have q5b : ((((s.setScore .Black u v 0).setScore .White u v 0).cacl_role_pass
          .Black u v).cacl_role_pass .White u v).role_scores Role.Black
        = (((s.setScore .Black u v 0).setScore .White u v 0).cacl_role_pass
          .Black u v).role_scores Role.Black := q5
    rw [q5b]
    exact p4

theorem cacl_on_fresh_state (bref s : Board) (u v : Nat)
    (hcore : bref.sameCore s) (hdims : s.dimsOk) (hu : u < bref.size) (hv : v < bref.size)
    (hfresh : ∀ ro2 : Role, ∀ d, d < 4 →
      get4 s.shape_cache.dirty (role_index ro2) d u v false = false ∧
      get4 s.shape_cache.data (role_index ro2) d u v (ShapeId.noneShape, 0)
        = bref.find_best_pattern_in_dir ro2 u v d) :
    bref.sameCore (s.cacl_score_for_point u v) ∧ (s.cacl_score_for_point u v).dimsOk ∧
    Board.freshAt bref (s.cacl_score_for_point u v) u v := by
  simp only [Board.cacl_score_for_point, List.foldl_cons, List.foldl_nil]
  have hS0core : bref.sameCore ((s.setScore .Black u v 0).setScore .White u v 0) :=
    sameCore_trans (sameCore_trans hcore (setScore_sameCore s .Black u v 0))
      (setScore_sameCore _ .White u v 0)
  have hS0dims : ((s.setScore .Black u v 0).setScore .White u v 0).dimsOk :=
    setScore_dimsOk _ .White u v 0 (setScore_dimsOk s .Black u v 0 hdims)
  have hS0shape : ((s.setScore .Black u v 0).setScore .White u v 0).shape_cache
      = s.shape_cache := by
    rw [setScore_shape, setScore_shape]
  have hS0fresh : ∀ ro2 : Role, ∀ d, d < 4 →
      get4 ((s.setScore .Black u v 0).setScore .White u v 0).shape_cache.dirty
        (role_index ro2) d u v false = false ∧
      get4 ((s.setScore .Black u v 0).setScore .White u v 0).shape_cache.data
        (role_index ro2) d u v (ShapeId.noneShape, 0)
        = bref.find_best_pattern_in_dir ro2 u v d := by
    intro ro2 d hd
    rw [hS0shape]
    exact hfresh ro2 d hd
  obtain ⟨p1, p2, p3, p4, p5⟩ := cacl_role_pass_on_fresh bref
    ((s.setScore .Black u v 0).setScore .White u v 0) .Black u v
    hS0core hS0dims hu hv hS0fresh
  obtain ⟨q1, q2, q3, q4, q5⟩ := cacl_role_pass_on_fresh bref
    (((s.setScore .Black u v 0).setScore .White u v 0).cacl_role_pass .Black u v) .White u v
    p1 p2 hu hv p3
  refine ⟨q1, q2, q3, ?_⟩
  intro ro
  cases ro with
  | White => exact q4
  | Black =>
    have q5b : ((((s.setScore .Black u v 0).setScore .White u v 0).cacl_role_pass
          .Black u v).cacl_role_pass .White u v).role_scores Role.Black
        = (((s.setScore .Black u v 0).setScore .White u v 0).cacl_role_pass
          .Black u v).role_scores Role.Black := q5
    rw [q5b]
    exact p4

theorem freshAt_untouched {bref s s2 : Board} {u v : Nat}
    (h : Board.freshAt bref s u v) (hun : s.cellUntouched s2 u v) :
    Board.freshAt bref s2 u v := by
  obtain ⟨h1, h2⟩ := h
  obtain ⟨u1, u2, u3⟩ := hun
  exact ⟨fun ro d hd => ⟨(u1 _ _).trans (h1 ro d hd).1, (u2 _ _).trans (h1 ro d hd).2⟩,
    fun ro => (u3 ro).trans (h2 ro)⟩

theorem allDirty_untouched {s s2 : Board} {u v : Nat} (h : s.allDirtyAt u v)
    (hun : s.cellUntouched s2 u v) : s2.allDirtyAt u v :=
  fun r d hr hd => (hun.1 r d).trans (h r d hr hd)

theorem freshAt_change_ref {bref bref2 b : Board} {u v : Nat} (h : bref.sameCore bref2)
    (hf : Board.freshAt bref b u v) : Board.freshAt bref2 b u v := by
  obtain ⟨h1, h2⟩ := hf
  refine ⟨fun ro d hd => ⟨(h1 ro d hd).1,
      (h1 ro d hd).2.trans (find_best_congr h ro u v d).symm⟩,
    fun ro => (h2 ro).trans (freshScore_congr h ro u v).symm⟩

theorem prod_ne_coords {c : Nat × Nat} {u v : Nat} (h : c ≠ (u, v)) :
    c.1 ≠ u ∨ c.2 ≠ v := by
  rcases c with ⟨a, b⟩
  by_cases ha : a = u
  · subst ha
    by_cases hb : b = v
    · subst hb
      exact absurd rfl h
    · exact Or.inr hb
  · exact Or.inl ha

theorem caclStep_untouched (s : Board) (c : Nat × Nat) (u v : Nat) (hne : c ≠ (u, v)) :
    s.cellUntouched (s.caclStep c) u v := by
  unfold Board.caclStep
  by_cases hc : get2 s.board (c.1 + 1) (c.2 + 1) 2 = 0
  · simp only [hc, if_true]
    exact cacl_cellUntouched s c.1 c.2 u v (prod_ne_coords hne)
  · simp only [hc, if_false]
    exact cellUntouched_refl s u v
theorem mem_pair {α : Type} {a x y : α} (h : a ∈ [x, y]) : a = x ∨ a = y := by
  rcases List.mem_cons.mp h with h1 | h1
  · exact Or.inl h1
  · rcases List.mem_cons.mp h1 with h2 | h2
    · exact Or.inr h2
    · exact absurd h2 (List.not_mem_nil a)

theorem caclStep_fresh_pres (bref s : Board) (c : Nat × Nat) (u v : Nat)
    (hu : u < bref.size) (hv : v < bref.size)
    (h : bref.sameCore s ∧ s.dimsOk ∧ Board.freshAt bref s u v) :
    bref.sameCore (s.caclStep c) ∧ (s.caclStep c).dimsOk ∧
    Board.freshAt bref (s.caclStep c) u v := by
  obtain ⟨h1, h2, h3⟩ := h
  by_cases hc : c = (u, v)
  · subst hc
    rw [caclStep_eq]
    by_cases hemp : get2 s.board (u + 1) (v + 1) 2 = 0
    · rw [if_pos hemp]
      exact cacl_on_fresh_state bref s u v h1 h2 hu hv (fun ro2 d hd => h3.1 ro2 d hd)
    · rw [if_neg hemp]
      exact ⟨h1, h2, h3⟩
  · exact ⟨sameCore_trans h1 (caclStep_sameCore s c), caclStep_dimsOk s c h2,
      freshAt_untouched h3 (caclStep_untouched s c u v hc)⟩

theorem caclStep_FoD_pres (bref s : Board) (c : Nat × Nat) (u v : Nat)
    (hu : u < bref.size) (hv : v < bref.size)
    (h : bref.sameCore s ∧ s.dimsOk ∧
      (Board.freshAt bref s u v ∨ s.allDirtyAt u v)) :
    bref.sameCore (s.caclStep c) ∧ (s.caclStep c).dimsOk ∧
    (Board.freshAt bref (s.caclStep c) u v ∨ (s.caclStep c).allDirtyAt u v) := by
  obtain ⟨h1, h2, h3⟩ := h
  by_cases hc : c = (u, v)
  · subst hc
    rw [caclStep_eq]
    by_cases hemp : get2 s.board (u + 1) (v + 1) 2 = 0
    · rw [if_pos hemp]
      rcases h3 with hf | hd
      · obtain ⟨a1, a2, a3⟩ :=
          cacl_on_fresh_state bref s u v h1 h2 hu hv (fun ro2 d hd2 => hf.1 ro2 d hd2)
        exact ⟨a1, a2, Or.inl a3⟩
      · obtain ⟨a1, a2, a3⟩ := cacl_all_dirty_fresh bref s u v h1 h2 hu hv hd
        exact ⟨a1, a2, Or.inl a3⟩
    · rw [if_neg hemp]
      exact ⟨h1, h2, h3⟩
  · refine ⟨sameCore_trans h1 (caclStep_sameCore s c), caclStep_dimsOk s c h2, ?_⟩
    rcases h3 with hf | hd
    · exact Or.inl (freshAt_untouched hf (caclStep_untouched s c u v hc))
    · exact Or.inr (allDirty_untouched hd (caclStep_untouched s c u v hc))

theorem caclStep_hit (bref s : Board) (u v : Nat)
    (hu : u < bref.size) (hv : v < bref.size)
    (hempty : get2 bref.board (u + 1) (v + 1) 2 = 0)
    (h : bref.sameCore s ∧ s.dimsOk ∧
      (Board.freshAt bref s u v ∨ s.allDirtyAt u v)) :
    bref.sameCore (s.caclStep (u, v)) ∧ (s.caclStep (u, v)).dimsOk ∧
    Board.freshAt bref (s.caclStep (u, v)) u v := by
  obtain ⟨h1, h2, h3⟩ := h
  have hemp2 : get2 s.board (u + 1) (v + 1) 2 = 0 := by
    rw [h1.2.1]
    exact hempty
  rw [caclStep_eq, if_pos hemp2]
  rcases h3 with hf | hd
  · exact cacl_on_fresh_state bref s u v h1 h2 hu hv (fun ro2 d hd2 => hf.1 ro2 d hd2)
  · exact cacl_all_dirty_fresh bref s u v h1 h2 hu hv hd

theorem caclFold_fresh (bref : Board) (cells : List (Nat × Nat)) (s : Board) (u v : Nat)
    (hu : u < bref.size) (hv : v < bref.size)
    (h : bref.sameCore s ∧ s.dimsOk ∧ Board.freshAt bref s u v) :
    bref.sameCore (cells.foldl Board.caclStep s) ∧
    (cells.foldl Board.caclStep s).dimsOk ∧
    Board.freshAt bref (cells.foldl Board.caclStep s) u v :=
  foldl_preserve (fun s2 : Board =>
      bref.sameCore s2 ∧ s2.dimsOk ∧ Board.freshAt bref s2 u v)
    Board.caclStep cells s
    (fun s2 c h2 => caclStep_fresh_pres bref s2 c u v hu hv h2) h

theorem caclFold_FoD (bref : Board) (cells : List (Nat × Nat)) (s : Board) (u v : Nat)
    (hu : u < bref.size) (hv : v < bref.size)
    (h : bref.sameCore s ∧ s.dimsOk ∧
      (Board.freshAt bref s u v ∨ s.allDirtyAt u v)) :
    bref.sameCore (cells.foldl Board.caclStep s) ∧
    (cells.foldl Board.caclStep s).dimsOk ∧
    (Board.freshAt bref (cells.foldl Board.caclStep s) u v ∨
      (cells.foldl Board.caclStep s).allDirtyAt u v) :=
  foldl_preserve (fun s2 : Board => bref.sameCore s2 ∧ s2.dimsOk ∧
      (Board.freshAt bref s2 u v ∨ s2.allDirtyAt u v))
    Board.caclStep cells s
    (fun s2 c h2 => caclStep_FoD_pres bref s2 c u v hu hv h2) h

theorem caclFold_hit (bref : Board) (cells : List (Nat × Nat)) (s : Board) (u v : Nat)
    (hu : u < bref.size) (hv : v < bref.size)
    (hempty : get2 bref.board (u + 1) (v + 1) 2 = 0) (hmem : (u, v) ∈ cells)
    (h : bref.sameCore s ∧ s.dimsOk ∧
      (Board.freshAt bref s u v ∨ s.allDirtyAt u v)) :
    bref.sameCore (cells.foldl Board.caclStep s) ∧
    (cells.foldl Board.caclStep s).dimsOk ∧
    Board.freshAt bref (cells.foldl Board.caclStep s) u v :=
  foldl_hit_mem
    (fun s2 : Board => bref.sameCore s2 ∧ s2.dimsOk ∧
      (Board.freshAt bref s2 u v ∨ s2.allDirtyAt u v))
    (fun s2 : Board => bref.sameCore s2 ∧ s2.dimsOk ∧ Board.freshAt bref s2 u v)
    Board.caclStep cells s (u, v) hmem
    (fun s2 c _ h2 => caclStep_FoD_pres bref s2 c u v hu hv h2)
    (fun s2 c _ h2 => caclStep_fresh_pres bref s2 c u v hu hv h2)
    (fun s2 h2 => caclStep_hit bref s2 u v hu hv hempty h2) h

theorem recalc_FoD_hit (b2 : Board) (x y u v : Nat)
    (hdims : b2.dimsOk) (hu : u < b2.size) (hv : v < b2.size)
    (hempty : get2 b2.board (u + 1) (v + 1) 2 = 0)
    (hmem : ∃ d, d ∈ [((1 : Int), (0 : Int)), (0, 1), (1, 1), (-1, 1)] ∧
      ∃ sg : Int, (sg = 1 ∨ sg = -1) ∧ (u, v) ∈ rayCells b2.size x y d.1 d.2 sg 4)
    (hFoD : Board.freshAt b2 b2 u v ∨ b2.allDirtyAt u v) :
    b2.sameCore (b2.recalc_scores x y) ∧ (b2.recalc_scores x y).dimsOk ∧
    Board.freshAt b2 (b2.recalc_scores x y) u v := by
  simp only [Board.recalc_scores]
  obtain ⟨d0, hd0, sg0, hsg0, hmem0⟩ := hmem
  have h0 : b2.sameCore (b2.caclStep (x, y)) ∧ (b2.caclStep (x, y)).dimsOk ∧
      (Board.freshAt b2 (b2.caclStep (x, y)) u v ∨ (b2.caclStep (x, y)).allDirtyAt u v) :=
    caclStep_FoD_pres b2 b2 (x, y) u v hu hv ⟨sameCore_refl b2, hdims, hFoD⟩
  refine foldl_hit_mem
    (fun s2 : Board => b2.sameCore s2 ∧ s2.dimsOk ∧
      (Board.freshAt b2 s2 u v ∨ s2.allDirtyAt u v))
    (fun s2 : Board => b2.sameCore s2 ∧ s2.dimsOk ∧ Board.freshAt b2 s2 u v)
    _ _ _ d0 hd0 ?_ ?_ ?_ h0
  · intro s2 d _ h2
    refine foldl_preserve (fun s3 : Board => b2.sameCore s3 ∧ s3.dimsOk ∧
      (Board.freshAt b2 s3 u v ∨ s3.allDirtyAt u v)) _ _ _ ?_ h2
    intro s3 sg h3
    exact caclFold_FoD b2 _ s3 u v hu hv h3
  · intro s2 d _ h2
    refine foldl_preserve (fun s3 : Board => b2.sameCore s3 ∧ s3.dimsOk ∧
      Board.freshAt b2 s3 u v) _ _ _ ?_ h2
    intro s3 sg h3
    exact caclFold_fresh b2 _ s3 u v hu hv h3
  · intro s2 h2
    have hsgmem : sg0 ∈ [(1 : Int), -1] := by
      rcases hsg0 with h | h <;> subst h <;> simp
    refine foldl_hit_mem
      (fun s3 : Board => b2.sameCore s3 ∧ s3.dimsOk ∧
        (Board.freshAt b2 s3 u v ∨ s3.allDirtyAt u v))
      (fun s3 : Board => b2.sameCore s3 ∧ s3.dimsOk ∧ Board.freshAt b2 s3 u v)
      _ _ _ sg0 hsgmem ?_ ?_ ?_ h2
    · intro s3 sg _ h3
      exact caclFold_FoD b2 _ s3 u v hu hv h3
    · intro s3 sg _ h3
      exact caclFold_fresh b2 _ s3 u v hu hv h3
    · intro s3 h3
      exact caclFold_hit b2 (rayCells b2.size x y d0.1 d0.2 sg0 4) s3 u v hu hv
        hempty hmem0 h3

theorem recalc_untouched (b2 : Board) (x y u v : Nat)
    (hne : (x, y) ≠ ((u, v) : Nat × Nat))
    (hrays : ∀ d : Int × Int, d ∈ [((1 : Int), (0 : Int)), (0, 1), (1, 1), (-1, 1)] →
      ∀ sg : Int, (sg = 1 ∨ sg = -1) → (u, v) ∉ rayCells b2.size x y d.1 d.2 sg 4) :
    b2.cellUntouched (b2.recalc_scores x y) u v := by
  simp only [Board.recalc_scores]
  have h0 : b2.cellUntouched (b2.caclStep (x, y)) u v :=
    caclStep_untouched b2 (x, y) u v hne
  refine foldl_preserve_mem (fun s2 : Board => b2.cellUntouched s2 u v) _ _ _ ?_ h0
  intro s2 d hd h2
  refine foldl_preserve_mem (fun s3 : Board => b2.cellUntouched s3 u v) _ _ _ ?_ h2
  intro s3 sg hsg h3
  refine foldl_preserve_mem (fun s4 : Board => b2.cellUntouched s4 u v) _ _ _ ?_ h3
  intro s4 c hc h4
  have hcne : c ≠ (u, v) := by
    intro hceq
    subst hceq
    exact hrays d hd sg (mem_pair hsg) hc
  exact cellUntouched_trans h4 (caclStep_untouched s4 c u v hcne)

theorem recalc_center_fresh (b2 : Board) (x y : Nat) (hdims : b2.dimsOk)
    (hx : x < b2.size) (hy : y < b2.size)
    (hempty : get2 b2.board (x + 1) (y + 1) 2 = 0)
    (hFoD : Board.freshAt b2 b2 x y ∨ b2.allDirtyAt x y) :
    b2.sameCore (b2.recalc_scores x y) ∧ (b2.recalc_scores x y).dimsOk ∧
    Board.freshAt b2 (b2.recalc_scores x y) x y := by
  simp only [Board.recalc_scores]
  have h0 := caclStep_hit b2 b2 x y hx hy hempty ⟨sameCore_refl b2, hdims, hFoD⟩
  refine foldl_preserve (fun s2 : Board => b2.sameCore s2 ∧ s2.dimsOk ∧
    Board.freshAt b2 s2 x y) _ _ _ ?_ h0
  intro s2 d h2
  refine foldl_preserve (fun s3 : Board => b2.sameCore s3 ∧ s3.dimsOk ∧
    Board.freshAt b2 s3 x y) _ _ _ ?_ h2
  intro s3 sg h3
  exact caclFold_fresh b2 _ s3 x y hx hy h3
theorem mem_takeWhile_both {α : Type} (p : α → Bool) (l : List α) (a : α)
    (h : a ∈ l.takeWhile p) : a ∈ l ∧ p a = true := by
  induction l with
  | nil => exact absurd h (by simp [List.takeWhile])
  | cons b t ih =>
    rw [List.takeWhile_cons] at h
    by_cases hp : p b = true
    · rw [if_pos hp] at h
      rcases List.mem_cons.mp h with hb | ht
      · subst hb
        exact ⟨List.mem_cons_self _ _, hp⟩
      · obtain ⟨m1, m2⟩ := ih ht
        exact ⟨List.mem_cons_of_mem _ m1, m2⟩
    · rw [if_neg hp] at h
      exact absurd h (List.not_mem_nil a)

theorem get_mem_takeWhile {α : Type} (p : α → Bool) (l : List α) (k : Nat)
    (hk : k < l.length)
    (hall : ∀ i, (hi : i < l.length) → i ≤ k → p (l.get ⟨i, hi⟩) = true) :
    l.get ⟨k, hk⟩ ∈ l.takeWhile p := by
  induction l generalizing k with
  | nil => exact absurd hk (by simp)
  | cons b t ih =>
    rw [List.takeWhile_cons]
    have hpb : p b = true := hall 0 (by simp) (Nat.zero_le k)
    rw [if_pos hpb]
    cases k with
    | zero => exact List.mem_cons_self _ _
    | succ k2 =>
      have hk2 : k2 < t.length := by simpa using hk
      have hgt : (b :: t).get ⟨k2 + 1, hk⟩ = t.get ⟨k2, hk2⟩ := rfl
      rw [hgt]
      refine List.mem_cons_of_mem b (ih k2 hk2 ?_)
      intro i hi hik
      have hgi : (b :: t).get ⟨i + 1, by simpa using Nat.succ_lt_succ hi⟩
          = t.get ⟨i, hi⟩ := rfl
      rw [← hgi]
      exact hall (i + 1) (by simpa using Nat.succ_lt_succ hi) (Nat.succ_le_succ hik)

theorem ray_mem_elim (size x y m : Nat) (ddx ddy sg : Int) (c : Nat × Nat)
    (hc : c ∈ rayCells size x y ddx ddy sg m) :
    ∃ st : Nat, 1 ≤ st ∧ st ≤ m ∧ (c.1 : Int) - x = sg * st * ddx ∧
      (c.2 : Int) - y = sg * st * ddy ∧ c.1 < size ∧ c.2 < size := by
  unfold rayCells at hc
  obtain ⟨p, hp, hpc⟩ := List.mem_map.mp hc
  obtain ⟨hpL, hppred⟩ := mem_takeWhile_both _ _ p hp
  obtain ⟨q, hq, hqp⟩ := List.mem_map.mp hpL
  obtain ⟨s0, hs0, hsq⟩ := List.mem_map.mp hq
  have hsm : s0 < m := List.mem_range.mp hs0
  subst hsq
  subst hqp
  have hpred : 0 ≤ (x : Int) + sg * ((s0 : Int) + 1) * ddx ∧
      (x : Int) + sg * ((s0 : Int) + 1) * ddx < (size : Int) ∧
      0 ≤ (y : Int) + sg * ((s0 : Int) + 1) * ddy ∧
      (y : Int) + sg * ((s0 : Int) + 1) * ddy < (size : Int) := by
    simpa using hppred
  obtain ⟨hp1, hp2, hp3, hp4⟩ := hpred
  subst hpc
  have e1 : ((((x : Int) + sg * ((s0 : Int) + 1) * ddx).toNat : Int))
      = (x : Int) + sg * ((s0 : Int) + 1) * ddx := Int.toNat_of_nonneg hp1
  have e2 : ((((y : Int) + sg * ((s0 : Int) + 1) * ddy).toNat : Int))
      = (y : Int) + sg * ((s0 : Int) + 1) * ddy := Int.toNat_of_nonneg hp3
  refine ⟨s0 + 1, Nat.le_add_left 1 s0, by omega, ?_, ?_, by omega, by omega⟩
  · show ((((x : Int) + sg * ((s0 : Int) + 1) * ddx).toNat : Int)) - x
      = sg * ((s0 + 1 : Nat) : Int) * ddx
    rw [e1]
    push_cast
    ring
  · show ((((y : Int) + sg * ((s0 : Int) + 1) * ddy).toNat : Int)) - y
      = sg * ((s0 + 1 : Nat) : Int) * ddy
    rw [e2]
    push_cast
    ring

theorem ray_mem_intro (size x y u v m : Nat) (ddx ddy sg : Int) (st : Nat)
    (h1 : 1 ≤ st) (hm : st ≤ m) (hx : x < size) (hy : y < size)
    (hu : u < size) (hv : v < size)
    (hdu : (u : Int) - x = sg * st * ddx) (hdv : (v : Int) - y = sg * st * ddy)
    (hdx : ddx = 1 ∨ ddx = 0 ∨ ddx = -1) (hdy : ddy = 1 ∨ ddy = 0 ∨ ddy = -1)
    (hsg : sg = 1 ∨ sg = -1) :
    (u, v) ∈ rayCells size x y ddx ddy sg m := by
  have hin : ∀ i : Nat, i < st →
      0 ≤ (x : Int) + sg * ((i : Int) + 1) * ddx ∧
      (x : Int) + sg * ((i : Int) + 1) * ddx < (size : Int) ∧
      0 ≤ (y : Int) + sg * ((i : Int) + 1) * ddy ∧
      (y : Int) + sg * ((i : Int) + 1) * ddy < (size : Int) := by
    intro i hi
    rcases hsg with rfl | rfl <;> rcases hdx with rfl | rfl | rfl <;>
      rcases hdy with rfl | rfl | rfl <;>
      simp only [one_mul, mul_one, mul_zero, zero_mul, neg_mul, mul_neg,
        neg_neg] at hdu hdv ⊢ <;>
      omega
  unfold rayCells
  apply List.mem_map.mpr
  refine ⟨((u : Int), (v : Int)), ?_, by simp⟩
  have hkl : st - 1 < ((((List.range m).map (fun s : Nat => ((s : Int) + 1))).map
      (fun step => ((x : Int) + sg * step * ddx, (y : Int) + sg * step * ddy)))).length := by
    simp only [List.length_map, List.length_range]
    omega
  have hgetk : ((((List.range m).map (fun s : Nat => ((s : Int) + 1))).map
      (fun step => ((x : Int) + sg * step * ddx, (y : Int) + sg * step * ddy)))).get
        ⟨st - 1, hkl⟩ = ((u : Int), (v : Int)) := by
    rw [List.get_eq_getElem]
    simp only [List.getElem_map, List.getElem_range]
    have hst1 : (((st - 1 : Nat) : Int)) + 1 = (st : Int) := by omega
    rw [hst1]
    simp only [Prod.mk.injEq]
    constructor
    · rw [← hdu]
      ring
    · rw [← hdv]
      ring
  rw [← hgetk]
  apply get_mem_takeWhile
  intro i hi hik
  rw [List.get_eq_getElem]
  simp only [List.getElem_map, List.getElem_range, decide_eq_true_eq]
  have hilen : i < m := by
    simp only [List.length_map, List.length_range] at hi
    exact hi
  exact hin i (by omega)

theorem rayDist_of_offsets (x y u v : Nat) (ddx ddy sg : Int) (st : Nat)
    (hst : 1 ≤ st) (hdu : (u : Int) - x = sg * st * ddx)
    (hdv : (v : Int) - y = sg * st * ddy)
    (hd : (ddx = 1 ∧ ddy = 0) ∨ (ddx = 0 ∧ ddy = 1) ∨ (ddx = 1 ∧ ddy = 1) ∨
      (ddx = -1 ∧ ddy = 1))
    (hsg : sg = 1 ∨ sg = -1) :
    rayDist x y u v = some st := by
  rcases hd with ⟨rfl, rfl⟩ | ⟨rfl, rfl⟩ | ⟨rfl, rfl⟩ | ⟨rfl, rfl⟩ <;>
    rcases hsg with rfl | rfl <;>
    simp only [one_mul, mul_one, mul_zero, zero_mul, neg_mul, mul_neg,
      neg_neg] at hdu hdv <;>
    (simp only [rayDist]
     split_ifs with h1 h2 <;>
       first
       | (exfalso; omega)
       | (simp only [Option.some.injEq]; omega))

theorem rayDist_center (x y : Nat) : rayDist x y x y = none := by
  simp [rayDist]

theorem mem_to_rayDist (size x y m : Nat) (d : Int × Int)
    (hd : d ∈ [((1 : Int), (0 : Int)), (0, 1), (1, 1), (-1, 1)]) (sg : Int)
    (hsg : sg = 1 ∨ sg = -1) (c : Nat × Nat)
    (hc : c ∈ rayCells size x y d.1 d.2 sg m) :
    ∃ st, 1 ≤ st ∧ st ≤ m ∧ rayDist x y c.1 c.2 = some st := by
  obtain ⟨st, h1, hm, hdu, hdv, _, _⟩ := ray_mem_elim size x y m d.1 d.2 sg c hc
  refine ⟨st, h1, hm, ?_⟩
  refine rayDist_of_offsets x y c.1 c.2 d.1 d.2 sg st h1 hdu hdv ?_ hsg
  have hd4 : d = (1, 0) ∨ d = (0, 1) ∨ d = (1, 1) ∨ d = (-1, 1) := by
    simpa using hd
  rcases hd4 with rfl | rfl | rfl | rfl
  · exact Or.inl ⟨rfl, rfl⟩
  · exact Or.inr (Or.inl ⟨rfl, rfl⟩)
  · exact Or.inr (Or.inr (Or.inl ⟨rfl, rfl⟩))
  · exact Or.inr (Or.inr (Or.inr ⟨rfl, rfl⟩))

theorem rayDist_to_mem (size x y u v m s : Nat) (hx : x < size) (hy : y < size)
    (hu : u < size) (hv : v < size) (hs : rayDist x y u v = some s) (hm : s ≤ m) :
    ∃ d, d ∈ [((1 : Int), (0 : Int)), (0, 1), (1, 1), (-1, 1)] ∧
      ∃ sg : Int, (sg = 1 ∨ sg = -1) ∧ (u, v) ∈ rayCells size x y d.1 d.2 sg m := by
  simp only [rayDist] at hs
  split_ifs at hs with h1 h2
  have hmax : max ((u : Int) - x).natAbs ((v : Int) - y).natAbs = s :=
    Option.some.inj hs
  have hs1 : 1 ≤ s := by omega
  rcases h2 with hz | hz | hz | hz
  · refine ⟨(0, 1), by simp, ?_⟩
    by_cases hsgn : 0 ≤ (v : Int) - y
    · exact ⟨1, Or.inl rfl,
        ray_mem_intro size x y u v m 0 1 1 s hs1 hm hx hy hu hv (by omega) (by omega)
          (Or.inr (Or.inl rfl)) (Or.inl rfl) (Or.inl rfl)⟩
    · exact ⟨-1, Or.inr rfl,
        ray_mem_intro size x y u v m 0 1 (-1) s hs1 hm hx hy hu hv (by omega) (by omega)
          (Or.inr (Or.inl rfl)) (Or.inl rfl) (Or.inr rfl)⟩
  · refine ⟨(1, 0), by simp, ?_⟩
    by_cases hsgn : 0 ≤ (u : Int) - x
    · exact ⟨1, Or.inl rfl,
        ray_mem_intro size x y u v m 1 0 1 s hs1 hm hx hy hu hv (by omega) (by omega)
          (Or.inl rfl) (Or.inr (Or.inl rfl)) (Or.inl rfl)⟩
    · exact ⟨-1, Or.inr rfl,
        ray_mem_intro size x y u v m 1 0 (-1) s hs1 hm hx hy hu hv (by omega) (by omega)
          (Or.inl rfl) (Or.inr (Or.inl rfl)) (Or.inr rfl)⟩
  · refine ⟨(1, 1), by simp, ?_⟩
    by_cases hsgn : 0 ≤ (u : Int) - x
    · exact ⟨1, Or.inl rfl,
        ray_mem_intro size x y u v m 1 1 1 s hs1 hm hx hy hu hv (by omega) (by omega)
          (Or.inl rfl) (Or.inl rfl) (Or.inl rfl)⟩
    · exact ⟨-1, Or.inr rfl,
        ray_mem_intro size x y u v m 1 1 (-1) s hs1 hm hx hy hu hv (by omega) (by omega)
          (Or.inl rfl) (Or.inl rfl) (Or.inr rfl)⟩
  · refine ⟨(-1, 1), by simp, ?_⟩
    by_cases hsgn : 0 ≤ (v : Int) - y
    · exact ⟨1, Or.inl rfl,
        ray_mem_intro size x y u v m (-1) 1 1 s hs1 hm hx hy hu hv (by omega) (by omega)
          (Or.inr (Or.inr rfl)) (Or.inl rfl) (Or.inl rfl)⟩
    · exact ⟨-1, Or.inr rfl,
        ray_mem_intro size x y u v m (-1) 1 (-1) s hs1 hm hx hy hu hv (by omega)
          (by omega) (Or.inr (Or.inr rfl)) (Or.inl rfl) (Or.inr rfl)⟩
theorem mark_dirty_expand (sc : ShapeCache) (role : Role) (x y : Nat) :
    sc.mark_dirty role x y =
      { data := sc.data
      , dirty := set4 (set4 (set4 (set4 sc.dirty (role_index role) 0 x y true)
          (role_index role) 1 x y true) (role_index role) 2 x y true)
          (role_index role) 3 x y true } := rfl

theorem mark_dirty_data (sc : ShapeCache) (role : Role) (x y : Nat) :
    (sc.mark_dirty role x y).data = sc.data := rfl

theorem mark_dirty_dims {sz : Nat} (sc : ShapeCache) (role : Role) (x y : Nat)
    (hdims : grid4Dims 2 4 sz sz sc.dirty) :
    grid4Dims 2 4 sz sz (sc.mark_dirty role x y).dirty := by
  rw [mark_dirty_expand]
  exact grid4Dims_set4 _ _ _ _ _ _ (grid4Dims_set4 _ _ _ _ _ _
    (grid4Dims_set4 _ _ _ _ _ _ (grid4Dims_set4 _ _ _ _ _ _ hdims)))

theorem get4_set4_keep {sz : Nat} (g : List (List (List (List Bool))))
    (hdims : grid4Dims 2 4 sz sz g) (r d x y : Nat) (hr : r < 2) (hd : d < 4)
    (hx : x < sz) (hy : y < sz) (r2 d2 u v : Nat)
    (h : get4 g r2 d2 u v false = true) :
    get4 (set4 g r d x y true) r2 d2 u v false = true := by
  by_cases he : r = r2 ∧ d = d2 ∧ x = u ∧ y = v
  · obtain ⟨rfl, rfl, rfl, rfl⟩ := he
    obtain ⟨b1, b2, b3, b4⟩ := dims4_bounds hdims hr hd hx hy
    rw [get4_set4_self _ _ _ _ _ _ _ b1 b2 b3 b4]
  · have hne : r ≠ r2 ∨ d ≠ d2 ∨ x ≠ u ∨ y ≠ v := by tauto
    rw [get4_set4_ne _ _ _ _ _ _ _ _ _ _ _ hne]
    exact h

theorem mark_dirty_keeps {sz : Nat} (sc : ShapeCache) (role : Role) (x y : Nat)
    (hdims : grid4Dims 2 4 sz sz sc.dirty) (hx : x < sz) (hy : y < sz)
    (r2 d2 u v : Nat) (h : get4 sc.dirty r2 d2 u v false = true) :
    get4 (sc.mark_dirty role x y).dirty r2 d2 u v false = true := by
  rw [mark_dirty_expand]
  have hR := role_index_lt role
  have h1 : grid4Dims 2 4 sz sz (set4 sc.dirty (role_index role) 0 x y true) :=
    grid4Dims_set4 _ _ _ _ _ _ hdims
  have h2 : grid4Dims 2 4 sz sz (set4 (set4 sc.dirty (role_index role) 0 x y true)
      (role_index role) 1 x y true) := grid4Dims_set4 _ _ _ _ _ _ h1
  have h3 : grid4Dims 2 4 sz sz (set4 (set4 (set4 sc.dirty (role_index role) 0 x y true)
      (role_index role) 1 x y true) (role_index role) 2 x y true) :=
    grid4Dims_set4 _ _ _ _ _ _ h2
  exact get4_set4_keep _ h3 _ 3 x y hR (by omega) hx hy r2 d2 u v
    (get4_set4_keep _ h2 _ 2 x y hR (by omega) hx hy r2 d2 u v
      (get4_set4_keep _ h1 _ 1 x y hR (by omega) hx hy r2 d2 u v
        (get4_set4_keep _ hdims _ 0 x y hR (by omega) hx hy r2 d2 u v h)))

theorem mark_dirty_sets {sz : Nat} (sc : ShapeCache) (role : Role) (x y : Nat)
    (hdims : grid4Dims 2 4 sz sz sc.dirty) (hx : x < sz) (hy : y < sz) :
    ∀ d2, d2 < 4 →
      get4 (sc.mark_dirty role x y).dirty (role_index role) d2 x y false = true := by
  have hR := role_index_lt role
  have h1 : grid4Dims 2 4 sz sz (set4 sc.dirty (role_index role) 0 x y true) :=
    grid4Dims_set4 _ _ _ _ _ _ hdims
  have h2 : grid4Dims 2 4 sz sz (set4 (set4 sc.dirty (role_index role) 0 x y true)
      (role_index role) 1 x y true) := grid4Dims_set4 _ _ _ _ _ _ h1
  have h3 : grid4Dims 2 4 sz sz (set4 (set4 (set4 sc.dirty (role_index role) 0 x y true)
      (role_index role) 1 x y true) (role_index role) 2 x y true) :=
    grid4Dims_set4 _ _ _ _ _ _ h2
  simp only [mark_dirty_expand]
  intro d2 hd2
  interval_cases d2
  · refine get4_set4_keep _ h3 _ 3 x y hR (by omega) hx hy _ 0 x y
      (get4_set4_keep _ h2 _ 2 x y hR (by omega) hx hy _ 0 x y
        (get4_set4_keep _ h1 _ 1 x y hR (by omega) hx hy _ 0 x y ?_))
    obtain ⟨b1, b2, b3, b4⟩ := dims4_bounds hdims hR (show (0 : Nat) < 4 by decide) hx hy
    rw [get4_set4_self _ _ _ _ _ _ _ b1 b2 b3 b4]
  · refine get4_set4_keep _ h3 _ 3 x y hR (by omega) hx hy _ 1 x y
      (get4_set4_keep _ h2 _ 2 x y hR (by omega) hx hy _ 1 x y ?_)
    obtain ⟨b1, b2, b3, b4⟩ := dims4_bounds h1 hR (show (1 : Nat) < 4 by decide) hx hy
    rw [get4_set4_self _ _ _ _ _ _ _ b1 b2 b3 b4]
  · refine get4_set4_keep _ h3 _ 3 x y hR (by omega) hx hy _ 2 x y ?_
    obtain ⟨b1, b2, b3, b4⟩ := dims4_bounds h2 hR (show (2 : Nat) < 4 by decide) hx hy
    rw [get4_set4_self _ _ _ _ _ _ _ b1 b2 b3 b4]
  · obtain ⟨b1, b2, b3, b4⟩ := dims4_bounds h3 hR (show (3 : Nat) < 4 by decide) hx hy
    rw [get4_set4_self _ _ _ _ _ _ _ b1 b2 b3 b4]

theorem rayCells_flip (size x y : Nat) (dx dy sg : Int) (m : Nat) :
    rayCells size x y (-dx) (-dy) sg m = rayCells size x y dx dy (-sg) m := by
  unfold rayCells
  have hfe : (fun step : Int => ((x : Int) + sg * step * (-dx),
        (y : Int) + sg * step * (-dy)))
      = (fun step : Int => ((x : Int) + (-sg) * step * dx,
        (y : Int) + (-sg) * step * dy)) := by
    funext step
    simp only [Prod.mk.injEq]
    constructor <;> ring
  rw [hfe]
theorem mark_neighbors_chars {sz : Nat} (sc : ShapeCache) (role : Role) (x y : Nat)
    (hdims : grid4Dims 2 4 sz sz sc.dirty) (hx : x < sz) (hy : y < sz) :
    (sc.mark_neighbors_dirty role x y sz).data = sc.data ∧
    grid4Dims 2 4 sz sz (sc.mark_neighbors_dirty role x y sz).dirty ∧
    (∀ r2 d2 u2 v2 : Nat, get4 sc.dirty r2 d2 u2 v2 false = true →
      get4 (sc.mark_neighbors_dirty role x y sz).dirty r2 d2 u2 v2 false = true) ∧
    (∀ d2, d2 < 4 →
      get4 (sc.mark_neighbors_dirty role x y sz).dirty (role_index role) d2 x y false
        = true) ∧
    (∀ u v s : Nat, u < sz → v < sz → rayDist x y u v = some s → s ≤ 5 →
      ∀ d2, d2 < 4 →
      get4 (sc.mark_neighbors_dirty role x y sz).dirty (role_index role) d2 u v false
        = true) := by
  have hP : (sc.mark_neighbors_dirty role x y sz).data = sc.data ∧
      grid4Dims 2 4 sz sz (sc.mark_neighbors_dirty role x y sz).dirty ∧
      (∀ r2 d2 u2 v2 : Nat, get4 sc.dirty r2 d2 u2 v2 false = true →
        get4 (sc.mark_neighbors_dirty role x y sz).dirty r2 d2 u2 v2 false = true) ∧
      (∀ d2, d2 < 4 →
        get4 (sc.mark_neighbors_dirty role x y sz).dirty (role_index role) d2 x y false
          = true) := by
    simp only [ShapeCache.mark_neighbors_dirty]
    refine foldl_preserve (fun sc2 : ShapeCache => sc2.data = sc.data ∧
      grid4Dims 2 4 sz sz sc2.dirty ∧
      (∀ r2 d2 u2 v2 : Nat, get4 sc.dirty r2 d2 u2 v2 false = true →
        get4 sc2.dirty r2 d2 u2 v2 false = true) ∧
      (∀ d2, d2 < 4 → get4 sc2.dirty (role_index role) d2 x y false = true))
      _ _ _ ?_ ?_
    · intro sc2 d h2
      refine foldl_preserve (fun sc3 : ShapeCache => sc3.data = sc.data ∧
        grid4Dims 2 4 sz sz sc3.dirty ∧
        (∀ r2 d2 u2 v2 : Nat, get4 sc.dirty r2 d2 u2 v2 false = true →
          get4 sc3.dirty r2 d2 u2 v2 false = true) ∧
        (∀ d2, d2 < 4 → get4 sc3.dirty (role_index role) d2 x y false = true))
        _ _ _ ?_ h2
      intro sc3 sg h3
      refine foldl_preserve_mem (fun sc4 : ShapeCache => sc4.data = sc.data ∧
        grid4Dims 2 4 sz sz sc4.dirty ∧
        (∀ r2 d2 u2 v2 : Nat, get4 sc.dirty r2 d2 u2 v2 false = true →
          get4 sc4.dirty r2 d2 u2 v2 false = true) ∧
        (∀ d2, d2 < 4 → get4 sc4.dirty (role_index role) d2 x y false = true))
        _ _ _ ?_ h3
      intro sc4 c hcm h4
      obtain ⟨st, _, _, _, _, hc1, hc2⟩ := ray_mem_elim sz x y 5 d.1 d.2 sg c hcm
      obtain ⟨q1, q2, q3, q4⟩ := h4
      refine ⟨(mark_dirty_data sc4 role c.1 c.2).trans q1,
        mark_dirty_dims sc4 role c.1 c.2 q2, ?_, ?_⟩
      · intro r2 d2 u2 v2 h5
        exact mark_dirty_keeps sc4 role c.1 c.2 q2 hc1 hc2 r2 d2 u2 v2 (q3 r2 d2 u2 v2 h5)
      · intro d2 hd2
        exact mark_dirty_keeps sc4 role c.1 c.2 q2 hc1 hc2 _ d2 x y (q4 d2 hd2)
    · refine ⟨mark_dirty_data sc role x y, mark_dirty_dims sc role x y hdims, ?_, ?_⟩
      · intro r2 d2 u2 v2 h5
        exact mark_dirty_keeps sc role x y hdims hx hy r2 d2 u2 v2 h5
      · intro d2 hd2
        exact mark_dirty_sets sc role x y hdims hx hy d2 hd2
  obtain ⟨hdata, hdims2, hmono, hcenter⟩ := hP
  refine ⟨hdata, hdims2, hmono, hcenter, ?_⟩
  intro u v s hu hv hrd h5s d2 hd2
  obtain ⟨d0, hd0, sg0, hsg0, hmem⟩ := rayDist_to_mem sz x y u v 5 s hx hy hu hv hrd h5s
  have hd4 : d0 = ((1 : Int), (0 : Int)) ∨ d0 = (0, 1) ∨ d0 = (1, 1) ∨ d0 = (-1, 1) := by
    simpa using hd0
  have hconv : ∃ dm : Int × Int, dm ∈ [((0 : Int), (1 : Int)), (1, 0), (1, 1), (1, -1)] ∧
      ∃ sgm : Int, sgm ∈ [(-1 : Int), 1] ∧
        (u, v) ∈ rayCells sz x y dm.1 dm.2 sgm 5 := by
    have hsgmem : sg0 ∈ [(-1 : Int), 1] := by
      rcases hsg0 with rfl | rfl <;> simp
    rcases hd4 with rfl | rfl | rfl | rfl
    · exact ⟨(1, 0), by simp, sg0, hsgmem, hmem⟩
    · exact ⟨(0, 1), by simp, sg0, hsgmem, hmem⟩
    · exact ⟨(1, 1), by simp, sg0, hsgmem, hmem⟩
    · refine ⟨(1, -1), by simp, -sg0, ?_, ?_⟩
      · rcases hsg0 with rfl | rfl <;> norm_num
      · have hflip := rayCells_flip sz x y 1 (-1) sg0 5
        norm_num at hflip
        exact hflip ▸ hmem
  obtain ⟨dm, hdm, sgm, hsgm, hmem2⟩ := hconv
  simp only [ShapeCache.mark_neighbors_dirty]
  have hbase : grid4Dims 2 4 sz sz (sc.mark_dirty role x y).dirty :=
    mark_dirty_dims sc role x y hdims
  refine (foldl_hit_mem (fun sc2 : ShapeCache => grid4Dims 2 4 sz sz sc2.dirty)
    (fun sc2 : ShapeCache => grid4Dims 2 4 sz sz sc2.dirty ∧
      ∀ d3, d3 < 4 → get4 sc2.dirty (role_index role) d3 u v false = true)
    _ _ _ dm hdm ?_ ?_ ?_ hbase).2 d2 hd2
  · intro sc2 d _ h2
    refine foldl_preserve (fun sc3 : ShapeCache => grid4Dims 2 4 sz sz sc3.dirty)
      _ _ _ ?_ h2
    intro sc3 sg h3
    refine foldl_preserve (fun sc4 : ShapeCache => grid4Dims 2 4 sz sz sc4.dirty)
      _ _ _ ?_ h3
    intro sc4 c h4
    exact mark_dirty_dims sc4 role c.1 c.2 h4
  · intro sc2 d _ h2
    refine foldl_preserve (fun sc3 : ShapeCache => grid4Dims 2 4 sz sz sc3.dirty ∧
      ∀ d3, d3 < 4 → get4 sc3.dirty (role_index role) d3 u v false = true) _ _ _ ?_ h2
    intro sc3 sg h3
    refine foldl_preserve_mem (fun sc4 : ShapeCache => grid4Dims 2 4 sz sz sc4.dirty ∧
      ∀ d3, d3 < 4 → get4 sc4.dirty (role_index role) d3 u v false = true) _ _ _ ?_ h3
    intro sc4 c hcm h4
    obtain ⟨st2, _, _, _, _, hc1, hc2⟩ := ray_mem_elim sz x y 5 d.1 d.2 sg c hcm
    exact ⟨mark_dirty_dims sc4 role c.1 c.2 h4.1,
      fun d3 hd3 => mark_dirty_keeps sc4 role c.1 c.2 h4.1 hc1 hc2 _ d3 u v (h4.2 d3 hd3)⟩
  · intro sc2 h2
    refine foldl_hit_mem (fun sc3 : ShapeCache => grid4Dims 2 4 sz sz sc3.dirty)
      (fun sc3 : ShapeCache => grid4Dims 2 4 sz sz sc3.dirty ∧
        ∀ d3, d3 < 4 → get4 sc3.dirty (role_index role) d3 u v false = true)
      _ _ _ sgm hsgm ?_ ?_ ?_ h2
    · intro sc3 sg _ h3
      refine foldl_preserve (fun sc4 : ShapeCache => grid4Dims 2 4 sz sz sc4.dirty)
        _ _ _ ?_ h3
      intro sc4 c h4
      exact mark_dirty_dims sc4 role c.1 c.2 h4
    · intro sc3 sg _ h3
      refine foldl_preserve_mem (fun sc4 : ShapeCache => grid4Dims 2 4 sz sz sc4.dirty ∧
        ∀ d3, d3 < 4 → get4 sc4.dirty (role_index role) d3 u v false = true) _ _ _ ?_ h3
      intro sc4 c hcm h4
      obtain ⟨st2, _, _, _, _, hc1, hc2⟩ := ray_mem_elim sz x y 5 dm.1 dm.2 sg c hcm
      exact ⟨mark_dirty_dims sc4 role c.1 c.2 h4.1,
        fun d3 hd3 => mark_dirty_keeps sc4 role c.1 c.2 h4.1 hc1 hc2 _ d3 u v (h4.2 d3 hd3)⟩
    · intro sc3 h3
      refine foldl_hit_mem (fun sc4 : ShapeCache => grid4Dims 2 4 sz sz sc4.dirty)
        (fun sc4 : ShapeCache => grid4Dims 2 4 sz sz sc4.dirty ∧
          ∀ d3, d3 < 4 → get4 sc4.dirty (role_index role) d3 u v false = true)
        _ _ _ (u, v) hmem2 ?_ ?_ ?_ h3
      · intro sc4 c _ h4
        exact mark_dirty_dims sc4 role c.1 c.2 h4
      · intro sc4 c hcm h4
        obtain ⟨st2, _, _, _, _, hc1, hc2⟩ := ray_mem_elim sz x y 5 dm.1 dm.2 sgm c hcm
        exact ⟨mark_dirty_dims sc4 role c.1 c.2 h4.1,
          fun d3 hd3 => mark_dirty_keeps sc4 role c.1 c.2 h4.1 hc1 hc2 _ d3 u v
            (h4.2 d3 hd3)⟩
      · intro sc4 h4
        exact ⟨mark_dirty_dims sc4 role u v h4,
          fun d3 hd3 => mark_dirty_sets sc4 role u v h4 hu hv d3 hd3⟩
theorem role_index_cover (role : Role) (r2 : Nat) (h : r2 < 2) :
    r2 = role_index role ∨ r2 = role_index role.opponent := by
  cases role <;> simp only [role_index, Role.opponent] <;> omega

theorem put_result_eq (b : Board) (x y : Nat) (role : Role)
    (h1 : ¬ (x ≥ b.size ∨ y ≥ b.size)) (h2 : get2 b.board (x + 1) (y + 1) 2 = 0) :
    (b.put x y role).2 =
      ({ b with
        board := set2 b.board (x + 1) (y + 1) role.to_int
        history := (x, y, role) :: b.history
        zorbist_cache := b.zorbist_cache.toggle_piece x y role.to_int
        role_scores_black := set2 b.role_scores_black x y 0
        role_scores_white := set2 b.role_scores_white x y 0
        shape_cache := (b.shape_cache.mark_neighbors_dirty role x y
          b.size).mark_neighbors_dirty role.opponent x y b.size } : Board).recalc_scores
        x y := by
  unfold Board.put
  rw [if_neg h1, if_neg (by simp [h2])]
  rfl

theorem undo_result_eq (b : Board) (x y : Nat) (role : Role)
    (rest : List (Nat × Nat × Role)) (hh : b.history = (x, y, role) :: rest) :
    (b.undo).2 =
      ({ b with
        history := rest
        board := set2 b.board (x + 1) (y + 1) 0
        zorbist_cache := b.zorbist_cache.toggle_piece x y role.to_int
        shape_cache := (b.shape_cache.mark_neighbors_dirty role x y
          b.size).mark_neighbors_dirty role.opponent x y b.size } : Board).recalc_scores
        x y := by
  unfold Board.undo
  rw [hh]

theorem double_marked_board_chars (b3 : Board) (x y : Nat) (role : Role)
    (hdims : b3.dimsOk) (hx : x < b3.size) (hy : y < b3.size) :
    b3.sameCore ({ b3 with shape_cache := (b3.shape_cache.mark_neighbors_dirty role x y
        b3.size).mark_neighbors_dirty role.opponent x y b3.size } : Board) ∧
    ({ b3 with shape_cache := (b3.shape_cache.mark_neighbors_dirty role x y
        b3.size).mark_neighbors_dirty role.opponent x y b3.size } : Board).dimsOk ∧
    (∀ u v s : Nat, u < b3.size → v < b3.size → rayDist x y u v = some s → s ≤ 5 →
      ({ b3 with shape_cache := (b3.shape_cache.mark_neighbors_dirty role x y
        b3.size).mark_neighbors_dirty role.opponent x y b3.size } : Board).allDirtyAt
        u v) ∧
    ({ b3 with shape_cache := (b3.shape_cache.mark_neighbors_dirty role x y
        b3.size).mark_neighbors_dirty role.opponent x y b3.size } : Board).allDirtyAt
      x y := by
  have hsc1 := @mark_neighbors_chars b3.size b3.shape_cache role x y
    hdims.2.1 hx hy
  have hsc2 := @mark_neighbors_chars b3.size
    (b3.shape_cache.mark_neighbors_dirty role x y b3.size) role.opponent x y
    hsc1.2.1 hx hy
  refine ⟨⟨rfl, rfl, rfl, rfl, rfl⟩, ⟨?_, ?_, ?_, ?_⟩, ?_, ?_⟩
  · show grid4Dims 2 4 b3.size b3.size
      ((b3.shape_cache.mark_neighbors_dirty role x y
        b3.size).mark_neighbors_dirty role.opponent x y b3.size).data
    rw [hsc2.1, hsc1.1]
    exact hdims.1
  · exact hsc2.2.1
  · exact hdims.2.2.1
  · exact hdims.2.2.2
  · intro u v s hu hv hrd h5
    intro r2 d2 hr2 hd2
    show get4 ((b3.shape_cache.mark_neighbors_dirty role x y
        b3.size).mark_neighbors_dirty role.opponent x y b3.size).dirty r2 d2 u v false
      = true
    rcases role_index_cover role r2 hr2 with rfl | rfl
    · exact hsc2.2.2.1 _ d2 u v (hsc1.2.2.2.2 u v s hu hv hrd h5 d2 hd2)
    · exact hsc2.2.2.2.2 u v s hu hv hrd h5 d2 hd2
  · intro r2 d2 hr2 hd2
    show get4 ((b3.shape_cache.mark_neighbors_dirty role x y
        b3.size).mark_neighbors_dirty role.opponent x y b3.size).dirty r2 d2 x y false
      = true
    rcases role_index_cover role r2 hr2 with rfl | rfl
    · exact hsc2.2.2.1 _ d2 x y (hsc1.2.2.2.1 d2 hd2)
    · exact hsc2.2.2.2.1 d2 hd2
/-- C3 amended: a successful put (and the matching undo of a recorded move)
marks all shape-cache entries of both roles dirty up to 5 steps along the 4
line directions, but the recalculation pass only revisits cells up to 4 steps:
cells at ray distance exactly 5 keep all 8 dirty flags set in the returned
board (they are marked but never recomputed), while every in-range empty cell
at ray distance 1..4 (and on undo the freed cell itself) ends up fully
recomputed: clean flags, per-direction patterns and aggregate scores matching
a fresh evaluation of the new grid. -/
theorem C3_mark_radius5_recompute_radius4 (b : Board) (x y : Nat) (role : Role)
    (hdims : b.dimsOk) (hx : x < b.size) (hy : y < b.size) :
    ((b.put x y role).1 = true →
      ∀ u v : Nat, u < b.size → v < b.size →
        (rayDist x y u v = some 5 → ((b.put x y role).2).allDirtyAt u v) ∧
        (∀ s : Nat, rayDist x y u v = some s → s ≤ 4 →
          get2 ((b.put x y role).2).board (u + 1) (v + 1) 2 = 0 →
          Board.freshAt ((b.put x y role).2) ((b.put x y role).2) u v)) ∧
    (∀ rest : List (Nat × Nat × Role), b.history = (x, y, role) :: rest →
      (∀ u v : Nat, u < b.size → v < b.size →
        (rayDist x y u v = some 5 → ((b.undo).2).allDirtyAt u v) ∧
        (∀ s : Nat, rayDist x y u v = some s → s ≤ 4 →
          get2 ((b.undo).2).board (u + 1) (v + 1) 2 = 0 →
          Board.freshAt ((b.undo).2) ((b.undo).2) u v)) ∧
      (get2 ((b.undo).2).board (x + 1) (y + 1) 2 = 0 →
        Board.freshAt ((b.undo).2) ((b.undo).2) x y)) := by
  constructor
  · intro hput u v hu hv
    have h1 : ¬ (x ≥ b.size ∨ y ≥ b.size) := by omega
    have h2 : get2 b.board (x + 1) (y + 1) 2 = 0 := by
      by_contra hc
      rw [put_fail_occupied b x y role h1 hc] at hput
      simp at hput
    rw [put_result_eq b x y role h1 h2]
    have hdims3 : ({ b with
        board := set2 b.board (x + 1) (y + 1) role.to_int
        history := (x, y, role) :: b.history
        zorbist_cache := b.zorbist_cache.toggle_piece x y role.to_int
        role_scores_black := set2 b.role_scores_black x y 0
        role_scores_white := set2 b.role_scores_white x y 0 } : Board).dimsOk :=
      ⟨hdims.1, hdims.2.1, grid2Dims_set2 _ x y 0 hdims.2.2.1,
        grid2Dims_set2 _ x y 0 hdims.2.2.2⟩
    obtain ⟨hmc, hmd, hmall, hmcenter⟩ := double_marked_board_chars ({ b with
        board := set2 b.board (x + 1) (y + 1) role.to_int
        history := (x, y, role) :: b.history
        zorbist_cache := b.zorbist_cache.toggle_piece x y role.to_int
        role_scores_black := set2 b.role_scores_black x y 0
        role_scores_white := set2 b.role_scores_white x y 0 } : Board) x y role
      hdims3 hx hy
    constructor
    · intro hrd5
      refine allDirty_untouched (hmall u v 5 hu hv hrd5 (by omega))
        (recalc_untouched _ x y u v ?_ ?_)
      · intro he
        rw [Prod.mk.injEq] at he
        obtain ⟨rfl, rfl⟩ := he
        rw [rayDist_center] at hrd5
        exact absurd hrd5 (by simp)
      · intro d hd sg hsg hin
        obtain ⟨st, hst1, hst4, hstd⟩ := mem_to_rayDist _ x y 4 d hd sg hsg (u, v) hin
        rw [hrd5] at hstd
        have := Option.some.inj hstd
        omega
    · intro s hrds hs4 hemp
      refine freshAt_change_ref (recalc_sameCore _ x y) ?_
      refine (recalc_FoD_hit _ x y u v hmd hu hv ?_ ?_ ?_).2.2
      · exact (recalc_sameCore _ x y).2.1 ▸ hemp
      · exact rayDist_to_mem _ x y u v 4 s hx hy hu hv hrds hs4
      · exact Or.inr (hmall u v s hu hv hrds (by omega))
  · intro rest hh
    rw [undo_result_eq b x y role rest hh]
    obtain ⟨hmc, hmd, hmall, hmcenter⟩ := double_marked_board_chars ({ b with
        history := rest
        board := set2 b.board (x + 1) (y + 1) 0
        zorbist_cache := b.zorbist_cache.toggle_piece x y role.to_int } : Board)
      x y role hdims hx hy
    refine ⟨?_, ?_⟩
    · intro u v hu hv
      constructor
      · intro hrd5
        refine allDirty_untouched (hmall u v 5 hu hv hrd5 (by omega))
          (recalc_untouched _ x y u v ?_ ?_)
        · intro he
          rw [Prod.mk.injEq] at he
          obtain ⟨rfl, rfl⟩ := he
          rw [rayDist_center] at hrd5
          exact absurd hrd5 (by simp)
        · intro d hd sg hsg hin
          obtain ⟨st, hst1, hst4, hstd⟩ := mem_to_rayDist _ x y 4 d hd sg hsg (u, v) hin
          rw [hrd5] at hstd
          have := Option.some.inj hstd
          omega
      · intro s hrds hs4 hemp
        refine freshAt_change_ref (recalc_sameCore _ x y) ?_
        refine (recalc_FoD_hit _ x y u v hmd hu hv ?_ ?_ ?_).2.2
        · exact (recalc_sameCore _ x y).2.1 ▸ hemp
        · exact rayDist_to_mem _ x y u v 4 s hx hy hu hv hrds hs4
        · exact Or.inr (hmall u v s hu hv hrds (by omega))
    · intro hempc
      refine freshAt_change_ref (recalc_sameCore _ x y) ?_
      refine (recalc_center_fresh _ x y hmd hx hy ?_ (Or.inr hmcenter)).2.2
      exact (recalc_sameCore _ x y).2.1 ▸ hempc
set_option maxRecDepth 1000000 in
/-- C3 counterexample: on a 6 by 6 board the first stone at (0,0) marks the
empty in-range cell (5,0) (ray distance 5 along the horizontal direction)
dirty, yet the returned board still carries the dirty flag there: the marked
empty cell is never recomputed, refuting the claim that every empty marked
cell has its score recomputed. -/
theorem C3_counterexample :
    ((Board.new 6 demoTable).put 0 0 .Black).1 = true ∧
    get2 (((Board.new 6 demoTable).put 0 0 .Black).2).board (5 + 1) (0 + 1) 2 = 0 ∧
    get4 (((Board.new 6 demoTable).put 0 0 .Black).2).shape_cache.dirty 0 0 5 0 false
      = true := by
  refine ⟨rfl, rfl, rfl⟩

set_option maxRecDepth 1000000 in
/-- C3 witness: the amended theorem applied to the 6 by 6 initial board and
the move (0,0,Black): the cell (5,0) at ray distance 5 is left with all dirty
flags set in the returned board. -/
theorem C3_witness :
    (Board.new 6 demoTable).dimsOk ∧ (0 : Nat) < (Board.new 6 demoTable).size ∧
    ((Board.new 6 demoTable).put 0 0 .Black).1 = true ∧
    rayDist 0 0 5 0 = some 5 ∧
    (((Board.new 6 demoTable).put 0 0 .Black).2).allDirtyAt 5 0 :=
  ⟨by unfold Board.dimsOk grid4Dims grid2Dims; decide, by decide, rfl, by decide,
    ((C3_mark_radius5_recompute_radius4 (Board.new 6 demoTable) 0 0 .Black
        (by unfold Board.dimsOk grid4Dims grid2Dims; decide)
        (by decide) (by decide)).1 rfl 5 0 (by decide) (by decide)).1 (by decide)⟩
set_option maxRecDepth 1000000 in
set_option maxHeartbeats 4000000 in
theorem make_move_empty2_res :
    ((AIEngine.new 1).make_move (Board.new 2 demoTable) .White).1
      = (0, some (1, 1), [(1, 1)]) := rfl

set_option maxRecDepth 1000000 in
set_option maxHeartbeats 4000000 in
theorem make_move_empty2_hits :
    ((AIEngine.new 1).make_move (Board.new 2 demoTable) .White).2.1.cache_hits.search
      = 7 := rfl

/-- C5 counterexample: the initial 2 by 2 board has an empty move history, yet
make_move returns a nonempty principal path and its recursion counter shows
seven search entries: the move is found by the full search, not by an
empty-history center shortcut (src/ai.rs make_move has no such branch). -/
theorem C5_counterexample :
    (Board.new 2 demoTable).history = [] ∧
    ((AIEngine.new 1).make_move (Board.new 2 demoTable) .White).1.2.2 ≠ [] ∧
    ((AIEngine.new 1).make_move (Board.new 2 demoTable) .White).2.1.cache_hits.search
      ≠ 0 := by
  refine ⟨rfl, ?_, ?_⟩
  · rw [make_move_empty2_res]
    decide
  · rw [make_move_empty2_hits]
    decide

/-- C5 amended: make_move has no empty-history shortcut; it always runs the
threat-only probe and the full search. On the empty 2 by 2 board with a
depth-1 engine the search does return the center cell (the 1000-point center
bonus of Board::new makes it the top candidate) with a neutral value, but the
principal path is the nonempty [(1,1)] and the recursion counter records seven
search entries, so the move comes from the search rather than being played
immediately. -/
theorem C5_no_center_shortcut :
    (Board.new 2 demoTable).history = [] ∧
    ((AIEngine.new 1).make_move (Board.new 2 demoTable) .White).1
      = (0, some (1, 1), [(1, 1)]) ∧
    ((AIEngine.new 1).make_move (Board.new 2 demoTable) .White).2.1.cache_hits.search
      = 7 := ⟨rfl, make_move_empty2_res, make_move_empty2_hits⟩
/-- C4: at a non-cutoff, non-terminal node, a transposition entry found for
the current fingerprint is used exactly when it was stored for the same role
and flags and is decisive or deep enough (probeOk); on a usable hit analyze
returns the stored value and move with the stored continuation appended to the
caller's path, bumping the search and hit counters; an unusable entry falls
through to the full search body. -/
theorem C4_transposition_probe (eng : AIEngine) (b : Board)
    (only_three only_four : Bool) (role : Role) (depth cdepth : Int)
    (path : List (Nat × Nat)) (alpha beta : Int) (prev : CacheEntry)
    (hcd : cdepth < depth)
    (hgo : (b.is_game_over).1 = false)
    (hget : eng.cache.get ((b.is_game_over).2).hash = some prev) :
    (probeOk prev role depth cdepth only_three only_four →
      eng.analyze only_three only_four b role depth cdepth path alpha beta
        = ((prev.value, prev.move_xy, path ++ prev.path),
           { eng with cache_hits :=
             { search := eng.cache_hits.search + 1
             , total := eng.cache_hits.total
             , hit := eng.cache_hits.hit + 1 } },
           (b.is_game_over).2)) ∧
    (¬ probeOk prev role depth cdepth only_three only_four →
      eng.analyze only_three only_four b role depth cdepth path alpha beta
        = analyzeCore (analyzeF ((depth - cdepth).toNat - 1))
            ({ eng with cache_hits :=
              { eng.cache_hits with search := eng.cache_hits.search + 1 } })
            ((b.is_game_over).2) only_three only_four role depth cdepth path alpha
            beta (((b.is_game_over).2).hash)) := by
  unfold AIEngine.analyze
  obtain ⟨k, hk⟩ : ∃ k, (depth - cdepth).toNat = k + 1 :=
    ⟨(depth - cdepth).toNat - 1, by omega⟩
  rw [hk]
  simp only [Nat.add_sub_cancel]
  constructor <;> intro hp
  · simp only [analyzeF]
    rw [if_neg (by omega : ¬ cdepth ≥ depth), hgo]
    simp only [Bool.false_eq_true, if_false]
    rw [hget]
    simp only [hp, if_true]
  · simp only [analyzeF]
    rw [if_neg (by omega : ¬ cdepth ≥ depth), hgo]
    simp only [Bool.false_eq_true, if_false]
    rw [hget]
    simp only [hp, if_false]

set_option maxRecDepth 100000 in
/-- C4 witness: a depth-2 engine whose transposition table holds a deep
neutral entry for the empty 1 by 1 board fingerprint takes the hit branch:
analyze returns the stored value, move and spliced path and bumps the
counters. -/
theorem C4_witness :
    ((0 : Int) < 2) ∧
    ((Board.new 1 demoTable).is_game_over).1 = false ∧
    ({ AIEngine.new 2 with cache := ((Cache.new ⟨0, true⟩).put 0
        ⟨5, 0, .White, some (0, 0), [(0, 0)], false, false⟩) } : AIEngine).cache.get
        (((Board.new 1 demoTable).is_game_over).2).hash
      = some ⟨5, 0, .White, some (0, 0), [(0, 0)], false, false⟩ ∧
    probeOk ⟨5, 0, .White, some (0, 0), [(0, 0)], false, false⟩ .White 2 0 false false ∧
    ({ AIEngine.new 2 with cache := ((Cache.new ⟨0, true⟩).put 0
        ⟨5, 0, .White, some (0, 0), [(0, 0)], false, false⟩) } : AIEngine).analyze
        false false (Board.new 1 demoTable) .White 2 0 [] (-aiMAX) aiMAX
      = ((0, some (0, 0), [(0, 0)]),
         { depth := 2, cache_hits := ⟨1, 0, 1⟩,
           cache := ((Cache.new ⟨0, true⟩).put 0
             ⟨5, 0, .White, some (0, 0), [(0, 0)], false, false⟩),
           only_three_threshold := 6 },
         ((Board.new 1 demoTable).is_game_over).2) :=
  ⟨by decide, by decide, by decide, by decide,
    (C4_transposition_probe
      ({ AIEngine.new 2 with cache := ((Cache.new ⟨0, true⟩).put 0
        ⟨5, 0, .White, some (0, 0), [(0, 0)], false, false⟩) } : AIEngine)
      (Board.new 1 demoTable) false false .White 2 0 [] (-aiMAX) aiMAX
      ⟨5, 0, .White, some (0, 0), [(0, 0)], false, false⟩
      (by decide) (by decide) (by decide)).1 (by decide)⟩
theorem insertByKey_perm {α : Type} (key : α → Int) (a : α) (l : List α) :
    (insertByKey key a l).Perm (a :: l) := by
  induction l with
  | nil => exact List.Perm.refl _
  | cons b t ih =>
    unfold insertByKey
    by_cases h : key a ≤ key b
    · rw [if_pos h]
    · rw [if_neg h]
      exact (ih.cons b).trans (List.Perm.swap a b t)

theorem sortByKey_perm {α : Type} (key : α → Int) (l : List α) :
    (sortByKey key l).Perm l := by
  induction l with
  | nil => exact List.Perm.refl _
  | cons a t ih =>
    exact (insertByKey_perm key a (sortByKey key t)).trans (ih.cons a)

theorem filterMap_if_eq_filter {α : Type} (p : α → Bool) (l : List α) :
    l.filterMap (fun a => if p a then some a else none) = l.filter p := by
  induction l with
  | nil => rfl
  | cons a t ih =>
    by_cases h : p a
    · rw [List.filterMap_cons, List.filter_cons]
      simp only [h, if_true, ih]
    · rw [List.filterMap_cons, List.filter_cons]
      simp only [h, if_false, Bool.false_eq_true, ih]

theorem get_moves_mem (b : Board) (role : Role) (depth : Int) (o3 o4 : Bool) :
    ∀ m ∈ b.get_moves role depth o3 o4,
      m.1 < b.size ∧ m.2 < b.size ∧ get2 b.board (m.1 + 1) (m.2 + 1) 2 = 0 := by
  intro m hm
  simp only [Board.get_moves] at hm
  obtain ⟨c, hc, hcm⟩ := List.mem_map.mp hm
  rw [List.mem_reverse] at hc
  have hc2 := (sortByKey_perm _ _).mem_iff.mp hc
  have hc3 : c ∈ ((List.range b.size).flatMap
      (fun x => (List.range b.size).map (fun y => (x, y)))).filterMap
      (fun p =>
        if get2 b.board (p.1 + 1) (p.2 + 1) 2 = 0 then
          some (p.1, p.2, max (get2 (b.role_scores role) p.1 p.2 0)
            (get2 (b.role_scores role.opponent) p.1 p.2 0))
        else none) := by
    split_ifs at hc2 with h1 h2 h3
    · exact List.mem_of_mem_filter (List.mem_of_mem_filter hc2)
    · exact List.mem_of_mem_filter hc2
    · exact List.mem_of_mem_filter hc2
    · exact hc2
  obtain ⟨p, hp, hpc⟩ := List.mem_filterMap.mp hc3
  obtain ⟨x, hx, hxp⟩ := List.mem_flatMap.mp hp
  obtain ⟨y, hy, hyp⟩ := List.mem_map.mp hxp
  subst hyp
  by_cases hemp : get2 b.board ((x, y).1 + 1) ((x, y).2 + 1) 2 = 0
  · rw [if_pos hemp] at hpc
    obtain rfl := Option.some.inj hpc
    subst hcm
    exact ⟨List.mem_range.mp hx, List.mem_range.mp hy, hemp⟩
  · rw [if_neg hemp] at hpc
    exact absurd hpc (by simp)

theorem get_moves_nodup (b : Board) (role : Role) (depth : Int) (o3 o4 : Bool) :
    (b.get_moves role depth o3 o4).Nodup := by
  simp only [Board.get_moves]
  have hprod : ((List.range b.size).flatMap
      (fun x => (List.range b.size).map (fun y => (x, y)))).Nodup :=
    List.Nodup.product (List.nodup_range b.size) (List.nodup_range b.size)
  have hbase : (((List.range b.size).flatMap
      (fun x => (List.range b.size).map (fun y => (x, y)))).filterMap
      (fun p =>
        if get2 b.board (p.1 + 1) (p.2 + 1) 2 = 0 then
          some (p.1, p.2, max (get2 (b.role_scores role) p.1 p.2 0)
            (get2 (b.role_scores role.opponent) p.1 p.2 0))
        else none)).map (fun c => (c.1, c.2.1)) |>.Nodup := by
    rw [List.map_filterMap]
    have hfe : (fun p : Nat × Nat =>
        Option.map (fun c : Nat × Nat × Int => (c.1, c.2.1))
          (if get2 b.board (p.1 + 1) (p.2 + 1) 2 = 0 then
            some (p.1, p.2, max (get2 (b.role_scores role) p.1 p.2 0)
              (get2 (b.role_scores role.opponent) p.1 p.2 0))
          else none))
        = (fun p : Nat × Nat =>
            if (decide (get2 b.board (p.1 + 1) (p.2 + 1) 2 = 0) : Bool) = true then
              some p else none) := by
      funext p
      by_cases hemp : get2 b.board (p.1 + 1) (p.2 + 1) 2 = 0
      · simp [hemp]
      · simp [hemp]
    rw [hfe]
    have := filterMap_if_eq_filter
      (fun p : Nat × Nat => decide (get2 b.board (p.1 + 1) (p.2 + 1) 2 = 0))
      ((List.range b.size).flatMap (fun x => (List.range b.size).map (fun y => (x, y))))
    simp only [this]
    exact hprod.filter _
  have hsub : ∀ cand2 : List (Nat × Nat × Int),
      cand2.Sublist (((List.range b.size).flatMap
        (fun x => (List.range b.size).map (fun y => (x, y)))).filterMap
        (fun p =>
          if get2 b.board (p.1 + 1) (p.2 + 1) 2 = 0 then
            some (p.1, p.2, max (get2 (b.role_scores role) p.1 p.2 0)
              (get2 (b.role_scores role.opponent) p.1 p.2 0))
          else none)) →
      ((cand2.map (fun c => (c.1, c.2.1))).Nodup) := by
    intro cand2 hs
    exact List.Nodup.sublist (hs.map _) hbase
  split_ifs with h1 h2 <;>
  · refine (((List.reverse_perm _).trans (sortByKey_perm _ _)).map
      (fun c : Nat × Nat × Int => (c.1, c.2.1))).nodup_iff.mpr (hsub _ ?_)
    first
    | exact ((List.filter_sublist _).trans (List.filter_sublist _))
    | exact (List.filter_sublist _)
    | exact List.Sublist.refl _

/-- C10 amended: get_moves always returns pairwise-distinct in-range cells
that are empty on the current grid, so each satisfies put's success
precondition; get_valuable_moves serves either that fresh list or a memoized
list stored under the current fingerprint, so its output has the same
property whenever every memo entry under the current fingerprint is valid
for the current grid (in particular whenever fingerprints are
collision-free). -/
theorem C10_moves_validity (b : Board) (role : Role) (depth : Int) (o3 o4 : Bool) :
    ((b.get_moves role depth o3 o4).Nodup ∧
      ∀ m ∈ b.get_moves role depth o3 o4,
        m.1 < b.size ∧ m.2 < b.size ∧ get2 b.board (m.1 + 1) (m.2 + 1) 2 = 0) ∧
    ((∀ prev : VMEntry, b.valuable_moves_cache.get b.hash = some prev →
        prev.moves.Nodup ∧ ∀ m ∈ prev.moves,
          m.1 < b.size ∧ m.2 < b.size ∧ get2 b.board (m.1 + 1) (m.2 + 1) 2 = 0) →
      (b.get_valuable_moves role depth o3 o4).1.Nodup ∧
      ∀ m ∈ (b.get_valuable_moves role depth o3 o4).1,
        m.1 < b.size ∧ m.2 < b.size ∧ get2 b.board (m.1 + 1) (m.2 + 1) 2 = 0) := by
  refine ⟨⟨get_moves_nodup b role depth o3 o4, get_moves_mem b role depth o3 o4⟩, ?_⟩
  intro hcache
  simp only [Board.get_valuable_moves]
  cases hget : b.valuable_moves_cache.get b.hash with
  | none =>
    exact ⟨get_moves_nodup b role depth o3 o4, get_moves_mem b role depth o3 o4⟩
  | some prev =>
    by_cases hflags : prev.role = role ∧ prev.depth = depth ∧ prev.only_three = o3 ∧
        prev.only_four = o4
    · simp only [if_pos hflags]
      exact hcache prev hget
    · simp only [if_neg hflags]
      exact ⟨get_moves_nodup b role depth o3 o4, get_moves_mem b role depth o3 o4⟩

set_option maxRecDepth 100000 in
/-- C10 counterexample: with a maximally colliding key table (all keys zero, a
possible draw of the random table) the memoized wrapper can serve a stale
list: on a 2 by 2 board, memoize the empty-board candidates, then place a
stone at (0,0); the next get_valuable_moves call hits the same fingerprint
and returns a list still containing (0,0), although that cell is now
occupied, violating the claimed emptiness at the time of the call. -/
theorem C10_counterexample :
    (0, 0) ∈ (((((((Board.new 2 zeroTable).get_valuable_moves .White 1 false
        false).2).put 0 0 .White).2).get_valuable_moves .White 1 false false).1) ∧
    get2 ((((((Board.new 2 zeroTable).get_valuable_moves .White 1 false
        false).2).put 0 0 .White).2)).board (0 + 1) (0 + 1) 2 ≠ 0 := by
  refine ⟨by decide, by decide⟩

set_option maxRecDepth 100000 in
/-- C10 witness: the amended theorem applied to the initial 1 by 1 board,
whose memo cache is empty, so the cache-validity hypothesis holds vacuously:
the returned candidate list is duplicate-free and every entry is an in-range
empty cell. -/
theorem C10_witness :
    ((Board.new 1 demoTable).get_valuable_moves .White 1 false false).1.Nodup ∧
    ∀ m ∈ ((Board.new 1 demoTable).get_valuable_moves .White 1 false false).1,
      m.1 < (Board.new 1 demoTable).size ∧ m.2 < (Board.new 1 demoTable).size ∧
      get2 (Board.new 1 demoTable).board (m.1 + 1) (m.2 + 1) 2 = 0 :=
  (C10_moves_validity (Board.new 1 demoTable) .White 1 false false).2 (by
    intro prev h
    rw [show (Board.new 1 demoTable).valuable_moves_cache.get
      (Board.new 1 demoTable).hash = none from rfl] at h
    exact absurd h (by simp))
theorem mapLookup_remove_self {K V : Type} [DecidableEq K] (m : List (K × V)) (k : K) :
    mapLookup (mapRemove m k) k = none := by
  induction m with
  | nil => rfl
  | cons p rest ih =>
    unfold mapRemove at ih ⊢
    rw [List.filter_cons]
    by_cases hp : p.1 = k
    · have hd : (decide ¬ p.1 = k) = false := by simp [hp]
      rw [hd]
      simp only [Bool.false_eq_true, if_false]
      exact ih
    · have hd : (decide ¬ p.1 = k) = true := by simp [hp]
      rw [hd]
      simp only [if_true]
      rw [mapLookup_cons, if_neg hp]
      exact ih

theorem mapLookup_remove_ne {K V : Type} [DecidableEq K] (m : List (K × V)) (k k2 : K)
    (h : k2 ≠ k) : mapLookup (mapRemove m k) k2 = mapLookup m k2 := by
  induction m with
  | nil => rfl
  | cons p rest ih =>
    unfold mapRemove at ih ⊢
    rw [List.filter_cons]
    by_cases hp : p.1 = k
    · have hd : (decide ¬ p.1 = k) = false := by simp [hp]
      rw [hd]
      simp only [Bool.false_eq_true, if_false]
      rw [ih, mapLookup_cons, if_neg (by rw [hp]; exact fun hc => h hc.symm)]
    · have hd : (decide ¬ p.1 = k) = true := by simp [hp]
      rw [hd]
      simp only [if_true]
      rw [mapLookup_cons, mapLookup_cons, ih]

theorem cache_get_put_cases {K V : Type} [DecidableEq K] (c : Cache K V) (k k2 : K)
    (v prev : V) (h : (c.put k v).get k2 = some prev) :
    (k2 = k ∧ prev = v) ∨ c.get k2 = some prev := by
  by_cases hen : c.config.enable_cache
  case neg =>
    have hput : c.put k v = c := by
      unfold Cache.put
      rw [if_pos (by simp [hen])]
    rw [hput] at h
    exact Or.inr h
  case pos =>
  have hcfg : (c.put k v).config = c.config := by
    unfold Cache.put
    split_ifs <;> rfl
  have hh : mapLookup (c.put k v).map k2 = some prev := by
    unfold Cache.get at h
    rw [hcfg] at h
    simp only [hen, Bool.not_true, Bool.false_eq_true, if_false] at h
    exact h
  have hmap : ∃ M, (c.put k v).map = mapInsert M k v ∧
      (∀ q, q ≠ k → mapLookup M q = some prev → mapLookup c.map q = some prev) := by
    unfold Cache.put
    rw [if_neg (by simp [hen])]
    by_cases hk : (mapLookup c.map k).isSome
    · rw [if_pos hk]
      exact ⟨c.map, rfl, fun q _ hq => hq⟩
    · rw [if_neg hk]
      by_cases hlen : c.keys_fifo.length ≥ c.config.capacity
      · rw [if_pos hlen]
        cases hfifo : c.keys_fifo with
        | nil => exact ⟨c.map, rfl, fun q _ hq => hq⟩
        | cons oldest rest =>
          refine ⟨mapRemove c.map oldest, rfl, ?_⟩
          intro q hq hlk
          by_cases ho : q = oldest
          · subst ho
            rw [mapLookup_remove_self] at hlk
            exact absurd hlk (by simp)
          · rw [mapLookup_remove_ne _ _ _ ho] at hlk
            exact hlk
      · rw [if_neg hlen]
        exact ⟨c.map, rfl, fun q _ hq => hq⟩
  obtain ⟨M, hM, hMlk⟩ := hmap
  rw [hM] at hh
  by_cases hk2 : k2 = k
  · subst hk2
    rw [mapLookup_insert_self] at hh
    exact Or.inl ⟨rfl, (Option.some.inj hh).symm⟩
  · rw [mapLookup_insert_other _ _ _ _ hk2] at hh
    refine Or.inr ?_
    unfold Cache.get
    simp only [hen, Bool.not_true, Bool.false_eq_true, if_false]
    exact hMlk k2 hk2 hh
theorem sameState_refl (b : Board) : b.sameState b := ⟨rfl, rfl, rfl, rfl, rfl, rfl⟩

theorem sameState_trans {b b2 b3 : Board} (h : b.sameState b2) (h2 : b2.sameState b3) :
    b.sameState b3 :=
  ⟨h2.1.trans h.1, h2.2.1.trans h.2.1, h2.2.2.1.trans h.2.2.1,
   h2.2.2.2.1.trans h.2.2.2.1, h2.2.2.2.2.1.trans h.2.2.2.2.1,
   h2.2.2.2.2.2.trans h.2.2.2.2.2⟩

theorem sameState_core {b b2 : Board} (h : b.sameState b2) : b.sameCore b2 :=
  ⟨h.1, h.2.1, h.2.2.1, h.2.2.2.1, h.2.2.2.2.1⟩

theorem Inv_transfer {table : Nat → Nat → Fin 2 → Nat} {b b2 : Board}
    (hInv : b.Inv table) (h : b.sameState b2) : b2.Inv table := by
  obtain ⟨i1, i2, i3, i4⟩ := hInv
  obtain ⟨s1, s2, s3, s4, s5, s6⟩ := h
  refine ⟨by rw [s1, s3]; exact i1, by rw [s2, s1, s3]; exact i2,
    by rw [s4, s3]; exact i3, ?_⟩
  intro h0 prev hget
  rw [s6] at hget
  obtain ⟨hist2, hv2, hh2, hm2⟩ := i4 h0 prev hget
  refine ⟨hist2, by rw [s1]; exact hv2, hh2, ?_⟩
  intro m hm
  rw [s1]
  exact hm2 m hm

theorem get_winner_sameState (b : Board) : b.sameState (b.get_winner).2 := by
  simp only [Board.get_winner]
  cases b.winner_cache.get b.hash with
  | none =>
    cases (scanCells b.size).findSome? (fun p => winnerAt b p.1 p.2) with
    | some cell => exact ⟨rfl, rfl, rfl, rfl, rfl, rfl⟩
    | none => exact ⟨rfl, rfl, rfl, rfl, rfl, rfl⟩
  | some val =>
    by_cases hv : val ≠ 0
    · simp only [if_pos hv]
      exact ⟨rfl, rfl, rfl, rfl, rfl, rfl⟩
    · simp only [if_neg hv]
      cases (scanCells b.size).findSome? (fun p => winnerAt b p.1 p.2) with
      | some cell => exact ⟨rfl, rfl, rfl, rfl, rfl, rfl⟩
      | none => exact ⟨rfl, rfl, rfl, rfl, rfl, rfl⟩

theorem is_game_over_sameState (b : Board) : b.sameState (b.is_game_over).2 := by
  simp only [Board.is_game_over]
  by_cases hc : (match b.gameover_cache.get b.hash with
    | some true => true
    | _ => false) = true
  · simp only [hc, if_true]
    exact sameState_refl b
  · simp only [hc, if_false]
    have hw := get_winner_sameState b
    by_cases h1 : (b.get_winner).1 ≠ 0
    · simp only [if_pos h1]
      exact sameState_trans hw ⟨rfl, rfl, rfl, rfl, rfl, rfl⟩
    · simp only [if_neg h1]
      by_cases h2 : (scanCells b.size).any
          (fun p => get2 (b.get_winner).2.board p.1 p.2 2 = 0) = true
      · simp only [h2, if_true]
        exact sameState_trans hw ⟨rfl, rfl, rfl, rfl, rfl, rfl⟩
      · simp only [h2, if_false]
        exact sameState_trans hw ⟨rfl, rfl, rfl, rfl, rfl, rfl⟩

theorem evaluate_sameState (b : Board) (role : Role) :
    b.sameState (b.evaluate role).2 := by
  simp only [Board.evaluate]
  have hw := get_winner_sameState b
  cases b.evaluate_cache.get b.hash with
  | some prev =>
    by_cases hr : prev.1 = role
    · simp only [if_pos hr]
      exact sameState_refl b
    · simp only [if_neg hr]
      by_cases h1 : (b.get_winner).1 = role.to_int
      · simp only [if_pos h1]
        exact hw
      · simp only [if_neg h1]
        by_cases h2 : (b.get_winner).1 = -role.to_int
        · simp only [if_pos h2]
          exact hw
        · simp only [if_neg h2]
          exact sameState_trans hw ⟨rfl, rfl, rfl, rfl, rfl, rfl⟩
  | none =>
    by_cases h1 : (b.get_winner).1 = role.to_int
    · simp only [if_pos h1]
      exact hw
    · simp only [if_neg h1]
      by_cases h2 : (b.get_winner).1 = -role.to_int
      · simp only [if_pos h2]
        exact hw
      · simp only [if_neg h2]
        exact sameState_trans hw ⟨rfl, rfl, rfl, rfl, rfl, rfl⟩
theorem setScore_vm (b : Board) (ro : Role) (x y : Nat) (w : Int) :
    (b.setScore ro x y w).valuable_moves_cache = b.valuable_moves_cache := by
  cases ro <;> rfl

theorem update_cache_vm (b : Board) (ro : Role) (x y : Nat) :
    (b.update_cache_if_needed ro x y).valuable_moves_cache = b.valuable_moves_cache := by
  unfold Board.update_cache_if_needed
  apply foldl_preserve
    (fun b2 : Board => b2.valuable_moves_cache = b.valuable_moves_cache)
  · intro b2 dir h2
    by_cases hd : get4 b2.shape_cache.dirty (role_index ro) dir x y false
    · simp only [hd, if_true]
      exact h2
    · simp only [hd, if_false]
      exact h2
  · rfl

theorem cacl_role_pass_vm (b : Board) (ro : Role) (x y : Nat) :
    (b.cacl_role_pass ro x y).valuable_moves_cache = b.valuable_moves_cache := by
  simp only [Board.cacl_role_pass]
  rw [setScore_vm, update_cache_vm, update_cache_vm]

theorem cacl_vm (b : Board) (x y : Nat) :
    (b.cacl_score_for_point x y).valuable_moves_cache = b.valuable_moves_cache := by
  simp only [Board.cacl_score_for_point]
  apply foldl_preserve
    (fun b2 : Board => b2.valuable_moves_cache = b.valuable_moves_cache)
  · intro b2 ro h2
    rw [cacl_role_pass_vm]
    exact h2
  · rw [setScore_vm, setScore_vm]

theorem caclStep_vm (b : Board) (c : Nat × Nat) :
    (b.caclStep c).valuable_moves_cache = b.valuable_moves_cache := by
  unfold Board.caclStep
  by_cases hc : get2 b.board (c.1 + 1) (c.2 + 1) 2 = 0
  · simp only [hc, if_true]
    exact cacl_vm b c.1 c.2
  · simp only [hc, if_false]

theorem recalc_vm (b : Board) (x y : Nat) :
    (b.recalc_scores x y).valuable_moves_cache = b.valuable_moves_cache := by
  simp only [Board.recalc_scores]
  apply foldl_preserve
    (fun b2 : Board => b2.valuable_moves_cache = b.valuable_moves_cache)
  · intro b2 d h2
    apply foldl_preserve
      (fun b3 : Board => b3.valuable_moves_cache = b.valuable_moves_cache)
    · intro b3 sign h3
      apply foldl_preserve
        (fun b4 : Board => b4.valuable_moves_cache = b.valuable_moves_cache)
      · intro b4 c h4
        rw [caclStep_vm]
        exact h4
      · exact h3
    · exact h2
  · exact caclStep_vm b (x, y)

theorem replayGrid_cons (n : Nat) (m : Nat × Nat × Role) (hist : List (Nat × Nat × Role)) :
    replayGrid n (m :: hist)
      = set2 (replayGrid n hist) (m.1 + 1) (m.2.1 + 1) m.2.2.to_int := rfl

theorem replayGrid_dims (n : Nat) (hist : List (Nat × Nat × Role)) :
    grid2Dims (n + 2) (n + 2) (replayGrid n hist) := by
  induction hist with
  | nil =>
    refine ⟨by simp [replayGrid], ?_⟩
    intro i hi
    unfold replayGrid
    try simp only [List.foldr_nil]
    rw [List.getD_eq_getElem?_getD, List.getElem?_map, List.getElem?_range hi]
    simp
  | cons m rest ih =>
    rw [replayGrid_cons]
    exact grid2Dims_set2 _ _ _ _ ih

theorem replayGrid_base_empty (n : Nat) (u v : Nat) (hu : u < n) (hv : v < n) :
    get2 (replayGrid n []) (u + 1) (v + 1) 2 = 0 := by
  have hrow : (replayGrid n []).getD (u + 1) []
      = (List.range (n + 2)).map (fun j =>
          if 1 ≤ u + 1 ∧ u + 1 ≤ n ∧ 1 ≤ j ∧ j ≤ n then (0 : Int) else 2) := by
    unfold replayGrid
    try simp only [List.foldr_nil]
    rw [List.getD_eq_getElem?_getD, List.getElem?_map,
      List.getElem?_range (by omega : u + 1 < n + 2)]
    rfl
  unfold get2
  rw [hrow, List.getD_eq_getElem?_getD, List.getElem?_map,
    List.getElem?_range (by omega : v + 1 < n + 2)]
  show (if 1 ≤ u + 1 ∧ u + 1 ≤ n ∧ 1 ≤ v + 1 ∧ v + 1 ≤ n then (0 : Int) else 2) = 0
  rw [if_pos (by omega)]

theorem replayGrid_not_mem (n : Nat) (hist : List (Nat × Nat × Role)) (u v : Nat)
    (hu : u < n) (hv : v < n)
    (hnm : (u, v) ∉ hist.map (fun m => (m.1, m.2.1))) :
    get2 (replayGrid n hist) (u + 1) (v + 1) 2 = 0 := by
  induction hist with
  | nil => exact replayGrid_base_empty n u v hu hv
  | cons m rest ih =>
    rw [replayGrid_cons]
    have hm : (m.1, m.2.1) ≠ ((u, v) : Nat × Nat) := by
      intro he
      exact hnm (by
        rw [List.map_cons, ← he]
        exact List.mem_cons_self _ _)
    have hne : m.1 + 1 ≠ u + 1 ∨ m.2.1 + 1 ≠ v + 1 := by
      rcases prod_ne_coords hm with h | h
      · exact Or.inl (by omega)
      · exact Or.inr (by omega)
    rw [get2_set2_ne _ _ _ _ _ _ _ hne]
    exact ih (fun hc => hnm (by
      rw [List.map_cons]
      exact List.mem_cons_of_mem _ hc))

theorem validHist_tail {n : Nat} {m : Nat × Nat × Role} {rest : List (Nat × Nat × Role)}
    (h : ValidHist n (m :: rest)) : ValidHist n rest := by
  obtain ⟨h1, h2⟩ := h
  rw [List.map_cons] at h2
  exact ⟨fun q hq => h1 q (List.mem_cons_of_mem m hq), (List.nodup_cons.mp h2).2⟩

theorem replayGrid_mem_ne (n : Nat) (hist : List (Nat × Nat × Role)) (u v : Nat)
    (hval : ValidHist n hist)
    (hmem : (u, v) ∈ hist.map (fun m => (m.1, m.2.1))) :
    get2 (replayGrid n hist) (u + 1) (v + 1) 2 ≠ 0 := by
  induction hist with
  | nil => exact absurd hmem (by simp)
  | cons m rest ih =>
    rw [replayGrid_cons]
    rw [List.map_cons] at hmem
    rcases List.mem_cons.mp hmem with hm | hm
    · have h1 : u = m.1 := congrArg Prod.fst hm
      have h2 : v = m.2.1 := congrArg Prod.snd hm
      subst h1
      subst h2
      obtain ⟨dims1, dims2⟩ := replayGrid_dims n rest
      have hlt1 : m.1 + 1 < n + 2 := by
        have := (hval.1 m (List.mem_cons_self m rest)).1
        omega
      have hb1 : m.1 + 1 < (replayGrid n rest).length := by
        rw [dims1]
        exact hlt1
      have hb2 : m.2.1 + 1 < ((replayGrid n rest).getD (m.1 + 1) []).length := by
        rw [dims2 (m.1 + 1) hlt1]
        have := (hval.1 m (List.mem_cons_self m rest)).2
        omega
      rw [get2_set2_self _ _ _ _ _ hb1 hb2]
      cases m.2.2 <;> simp [Role.to_int]
    · have hnd := hval.2
      rw [List.map_cons] at hnd
      have hmne : (m.1, m.2.1) ≠ ((u, v) : Nat × Nat) := by
        intro he
        rw [he] at hnd
        exact (List.nodup_cons.mp hnd).1 hm
      have hne : m.1 + 1 ≠ u + 1 ∨ m.2.1 + 1 ≠ v + 1 := by
        rcases prod_ne_coords hmne with h | h
        · exact Or.inl (by omega)
        · exact Or.inr (by omega)
      rw [get2_set2_ne _ _ _ _ _ _ _ hne]
      exact ih (validHist_tail hval) hm
theorem put_Inv (table : Nat → Nat → Fin 2 → Nat) (b : Board) (x y : Nat) (role : Role)
    (hInv : b.Inv table) (hx : x < b.size) (hy : y < b.size)
    (hemp : get2 b.board (x + 1) (y + 1) 2 = 0) :
    ((b.put x y role).2).Inv table := by
  have h1 : ¬ (x ≥ b.size ∨ y ≥ b.size) := by omega
  rw [put_result_eq b x y role h1 hemp]
  refine Inv_transfer ?_ ⟨(recalc_sameCore _ x y).1, (recalc_sameCore _ x y).2.1,
    (recalc_sameCore _ x y).2.2.1, (recalc_sameCore _ x y).2.2.2.1,
    (recalc_sameCore _ x y).2.2.2.2, recalc_vm _ x y⟩
  obtain ⟨hv, hg, hz, hvm⟩ := hInv
  unfold Board.Inv ValidHist
  dsimp only
  refine ⟨⟨?_, ?_⟩, ?_, ?_, ?_⟩
  · intro m hm
    rcases List.mem_cons.mp hm with hm1 | hm2
    · subst hm1
      exact ⟨hx, hy⟩
    · exact hv.1 m hm2
  · rw [List.map_cons]
    refine List.nodup_cons.mpr ⟨?_, hv.2⟩
    intro hc
    have hne := replayGrid_mem_ne b.size b.history x y hv hc
    rw [← hg] at hne
    exact hne hemp
  · rw [replayGrid_cons, hg]
  · rw [hz]
    rfl
  · intro h0 prev hget
    obtain ⟨hist2, a1, a2, a3⟩ := hvm h0 prev hget
    exact ⟨hist2, a1, a2, a3⟩

theorem undo_Inv (table : Nat → Nat → Fin 2 → Nat) (b : Board) (x y : Nat) (role : Role)
    (rest : List (Nat × Nat × Role)) (hInv : b.Inv table)
    (hh : b.history = (x, y, role) :: rest) :
    ((b.undo).2).Inv table := by
  rw [undo_result_eq b x y role rest hh]
  refine Inv_transfer ?_ ⟨(recalc_sameCore _ x y).1, (recalc_sameCore _ x y).2.1,
    (recalc_sameCore _ x y).2.2.1, (recalc_sameCore _ x y).2.2.2.1,
    (recalc_sameCore _ x y).2.2.2.2, recalc_vm _ x y⟩
  obtain ⟨hv, hg, hz, hvm⟩ := hInv
  rw [hh] at hv hg hz
  have hxlt : x < b.size := (hv.1 (x, y, role) (List.mem_cons_self _ _)).1
  have hylt : y < b.size := (hv.1 (x, y, role) (List.mem_cons_self _ _)).2
  have hnm : ((x, y) : Nat × Nat) ∉ rest.map (fun m => (m.1, m.2.1)) := by
    have hnd := hv.2
    rw [List.map_cons] at hnd
    exact (List.nodup_cons.mp hnd).1
  have hrest : ValidHist b.size rest := validHist_tail hv
  unfold Board.Inv
  dsimp only
  refine ⟨hrest, ?_, ?_, ?_⟩
  · rw [hg, replayGrid_cons]
    exact set2_set2_restore _ _ _ _
      (replayGrid_not_mem b.size rest x y hxlt hylt hnm)
  · rw [hz]
    show ZobristCache.mk table (histHash table ((x, y, role) :: rest) ^^^
        table x y (if role.to_int = 1 then 0 else 1))
      = ZobristCache.mk table (histHash table rest)
    have hxor : histHash table ((x, y, role) :: rest) ^^^
        table x y (if role.to_int = 1 then 0 else 1) = histHash table rest := by
      show (histHash table rest ^^^ table x y (if role.to_int = 1 then 0 else 1)) ^^^
        table x y (if role.to_int = 1 then 0 else 1) = histHash table rest
      rw [Nat.xor_assoc, Nat.xor_self, Nat.xor_zero]
    rw [hxor]
  · intro h0 prev hget
    obtain ⟨hist2, a1, a2, a3⟩ := hvm h0 prev hget
    exact ⟨hist2, a1, a2, a3⟩
theorem vmput_Inv (table : Nat → Nat → Fin 2 → Nat) (b : Board) (entry : VMEntry)
    (hInv : b.Inv table)
    (hmoves : ∀ m ∈ entry.moves, m.1 < b.size ∧ m.2 < b.size ∧
      get2 b.board (m.1 + 1) (m.2 + 1) 2 = 0) :
    ({ b with valuable_moves_cache := b.valuable_moves_cache.put b.hash entry }
      : Board).Inv table := by
  obtain ⟨hv, hg, hz, hvm⟩ := hInv
  unfold Board.Inv
  dsimp only
  refine ⟨hv, hg, hz, ?_⟩
  intro h0 prev hget
  rcases cache_get_put_cases _ _ _ _ _ hget with ⟨he1, he2⟩ | hold
  · subst he2
    refine ⟨b.history, hv, ?_, ?_⟩
    · rw [he1]
      show histHash table b.history = b.zorbist_cache.hash
      rw [hz]
    · intro m hm
      obtain ⟨c1, c2, c3⟩ := hmoves m hm
      refine ⟨c1, c2, ?_⟩
      rw [← hg]
      exact c3
  · exact hvm h0 prev hold

theorem gvm_chars (table : Nat → Nat → Fin 2 → Nat) (b : Board) (role : Role)
    (depth : Int) (o3 o4 : Bool) (hInv : b.Inv table) (hinj : InjTable b.size table) :
    b.sameCore ((b.get_valuable_moves role depth o3 o4).2) ∧
    ((b.get_valuable_moves role depth o3 o4).2).Inv table ∧
    ∀ m ∈ (b.get_valuable_moves role depth o3 o4).1,
      m.1 < b.size ∧ m.2 < b.size ∧ get2 b.board (m.1 + 1) (m.2 + 1) 2 = 0 := by
  simp only [Board.get_valuable_moves]
  cases hget : b.valuable_moves_cache.get b.hash with
  | some prev =>
    by_cases hflags : prev.role = role ∧ prev.depth = depth ∧ prev.only_three = o3 ∧
        prev.only_four = o4
    · simp only [if_pos hflags]
      refine ⟨sameCore_refl b, hInv, ?_⟩
      obtain ⟨hist2, hv2, hh2, hm2⟩ := hInv.2.2.2 b.hash prev hget
      have hhash : b.hash = histHash table b.history := by
        show b.zorbist_cache.hash = histHash table b.history
        rw [hInv.2.2.1]
      have hgr : replayGrid b.size hist2 = replayGrid b.size b.history :=
        hinj hist2 b.history hv2 hInv.1 (by rw [hh2, hhash])
      intro m hm
      obtain ⟨c1, c2, c3⟩ := hm2 m hm
      refine ⟨c1, c2, ?_⟩
      rw [hInv.2.1, ← hgr]
      exact c3
    · simp only [if_neg hflags]
      refine ⟨⟨rfl, rfl, rfl, rfl, rfl⟩, ?_, get_moves_mem b role depth o3 o4⟩
      exact vmput_Inv table b _ hInv (get_moves_mem b role depth o3 o4)
  | none =>
    refine ⟨⟨rfl, rfl, rfl, rfl, rfl⟩, ?_, get_moves_mem b role depth o3 o4⟩
    exact vmput_Inv table b _ hInv (get_moves_mem b role depth o3 o4)
theorem moveLoop_restores (table : Nat → Nat → Fin 2 → Nat) (recFull : AnalyzeRec)
    (hrec : ∀ eng2 b2 p3 p4 ro2 dd cd pth al be, b2.Inv table →
      InjTable b2.size table →
      b2.sameCore ((recFull eng2 b2 p3 p4 ro2 dd cd pth al be).2.2) ∧
      ((recFull eng2 b2 p3 p4 ro2 dd cd pth al be).2.2).Inv table)
    (o3 o4 : Bool) (role : Role) (depth d cdepth beta : Int)
    (path : List (Nat × Nat)) :
    ∀ (points : List (Nat × Nat)) (eng : AIEngine) (b : Board) (st : SearchSt),
      b.Inv table → InjTable b.size table →
      (∀ m ∈ points, m.1 < b.size ∧ m.2 < b.size ∧
        get2 b.board (m.1 + 1) (m.2 + 1) 2 = 0) →
      b.sameCore ((moveLoop recFull o3 o4 role depth d cdepth beta path eng b st
        points).2.2.1) ∧
      ((moveLoop recFull o3 o4 role depth d cdepth beta path eng b st
        points).2.2.1).Inv table := by
  intro points
  induction points with
  | nil =>
    intro eng b st hInv hinj hval
    exact ⟨sameCore_refl b, hInv⟩
  | cons m rest ih =>
    intro eng b st hInv hinj hval
    obtain ⟨px, py⟩ := m
    have hmx : px < b.size := (hval (px, py) (List.mem_cons_self _ _)).1
    have hmy : py < b.size := (hval (px, py) (List.mem_cons_self _ _)).2.1
    have hme : get2 b.board (px + 1) (py + 1) 2 = 0 :=
      (hval (px, py) (List.mem_cons_self _ _)).2.2
    have h1 : ¬ (px ≥ b.size ∨ py ≥ b.size) := by omega
    have hputInv := put_Inv table b px py role hInv hmx hmy hme
    obtain ⟨ps1, ps2, ps3, ps4, ps5⟩ := put_success_core b px py role h1 hme
    simp only at ps1 ps2 ps3 ps4 ps5
    obtain ⟨hr1, hrInv⟩ := hrec eng (b.put px py role).2 o3 o4 role.opponent d
      (cdepth + 1) (path ++ [(px, py)]) (-beta) (-st.alpha) hputInv
      (by rw [ps1]; exact hinj)
    obtain ⟨hu1, hu2, hu3, hu4, hu5⟩ := hr1
    have hh2 : ((recFull eng (b.put px py role).2 o3 o4 role.opponent d (cdepth + 1)
        (path ++ [(px, py)]) (-beta) (-st.alpha)).2.2).history
        = (px, py, role) :: b.history := by
      rw [hu3, ps3]
    have hundoInv := undo_Inv table _ px py role b.history hrInv hh2
    obtain ⟨hv1, hv2, hv3, hv4, hv5⟩ := undo_cons_core _ px py role b.history hh2
    simp only at hv1 hv2 hv3 hv4 hv5
    have hrestore : b.sameCore ((((recFull eng (b.put px py role).2 o3 o4 role.opponent
        d (cdepth + 1) (path ++ [(px, py)]) (-beta) (-st.alpha)).2.2).undo).2) := by
      refine ⟨?_, ?_, ?_, ?_, ?_⟩
      · rw [hv1, hu1, ps1]
      · rw [hv2, hu2, ps2]
        exact set2_set2_restore b.board (px + 1) (py + 1) role.to_int hme
      · exact hv3
      · rw [hv4, hu4, ps4]
        exact toggle_piece_involutive b.zorbist_cache px py role.to_int
      · rw [hv5, hu5, ps5]
    simp only [moveLoop]
    have hval3 : ∀ q ∈ rest,
        q.1 < ((((recFull eng (b.put px py role).2 o3 o4 role.opponent d (cdepth + 1)
          (path ++ [(px, py)]) (-beta) (-st.alpha)).2.2).undo).2).size ∧
        q.2 < ((((recFull eng (b.put px py role).2 o3 o4 role.opponent d (cdepth + 1)
          (path ++ [(px, py)]) (-beta) (-st.alpha)).2.2).undo).2).size ∧
        get2 ((((recFull eng (b.put px py role).2 o3 o4 role.opponent d (cdepth + 1)
          (path ++ [(px, py)]) (-beta) (-st.alpha)).2.2).undo).2).board
          (q.1 + 1) (q.2 + 1) 2 = 0 := by
      intro q hq
      obtain ⟨c1, c2, c3⟩ := hval q (List.mem_cons_of_mem _ hq)
      rw [hrestore.1, hrestore.2.1]
      exact ⟨c1, c2, c3⟩
    split_ifs <;>
      first
      | exact ⟨hrestore, hundoInv⟩
      | (obtain ⟨hfin1, hfin2⟩ := ih _ _ _ hundoInv
           (by rw [hrestore.1]; exact hinj) hval3
         exact ⟨sameCore_trans hrestore hfin1, hfin2⟩)
theorem depthLoop_restores (table : Nat → Nat → Fin 2 → Nat) (recFull : AnalyzeRec)
    (hrec : ∀ eng2 b2 p3 p4 ro2 dd cd pth al be, b2.Inv table →
      InjTable b2.size table →
      b2.sameCore ((recFull eng2 b2 p3 p4 ro2 dd cd pth al be).2.2) ∧
      ((recFull eng2 b2 p3 p4 ro2 dd cd pth al be).2.2).Inv table)
    (o3 o4 : Bool) (role : Role) (depth cdepth beta : Int)
    (path : List (Nat × Nat)) (points : List (Nat × Nat)) :
    ∀ (ds : List Int) (eng : AIEngine) (b : Board) (st : SearchSt),
      b.Inv table → InjTable b.size table →
      (∀ m ∈ points, m.1 < b.size ∧ m.2 < b.size ∧
        get2 b.board (m.1 + 1) (m.2 + 1) 2 = 0) →
      b.sameCore ((depthLoop recFull o3 o4 role depth cdepth beta path points eng b st
        ds).2.2) ∧
      ((depthLoop recFull o3 o4 role depth cdepth beta path points eng b st ds).2.2).Inv
        table := by
  intro ds
  induction ds with
  | nil =>
    intro eng b st hInv hinj hval
    exact ⟨sameCore_refl b, hInv⟩
  | cons d rest ih =>
    intro eng b st hInv hinj hval
    obtain ⟨hm1, hm2⟩ := moveLoop_restores table recFull hrec o3 o4 role depth d cdepth
      beta path points eng b st hInv hinj hval
    simp only [depthLoop]
    split_ifs
    · exact ⟨hm1, hm2⟩
    · have hval2 : ∀ q ∈ points,
          q.1 < ((moveLoop recFull o3 o4 role depth d cdepth beta path eng b st
            points).2.2.1).size ∧
          q.2 < ((moveLoop recFull o3 o4 role depth d cdepth beta path eng b st
            points).2.2.1).size ∧
          get2 ((moveLoop recFull o3 o4 role depth d cdepth beta path eng b st
            points).2.2.1).board (q.1 + 1) (q.2 + 1) 2 = 0 := by
        intro q hq
        obtain ⟨c1, c2, c3⟩ := hval q hq
        rw [hm1.1, hm1.2.1]
        exact ⟨c1, c2, c3⟩
      obtain ⟨hfin1, hfin2⟩ := ih _ _ _ hm2 (by rw [hm1.1]; exact hinj) hval2
      exact ⟨sameCore_trans hm1 hfin1, hfin2⟩

theorem analyzeCore_restores (table : Nat → Nat → Fin 2 → Nat) (recFull : AnalyzeRec)
    (hrec : ∀ eng2 b2 p3 p4 ro2 dd cd pth al be, b2.Inv table →
      InjTable b2.size table →
      b2.sameCore ((recFull eng2 b2 p3 p4 ro2 dd cd pth al be).2.2) ∧
      ((recFull eng2 b2 p3 p4 ro2 dd cd pth al be).2.2).Inv table)
    (eng : AIEngine) (b1 : Board) (o3 o4 : Bool) (role : Role) (depth cdepth : Int)
    (path : List (Nat × Nat)) (alpha beta : Int) (hash_val : Nat)
    (hInv : b1.Inv table) (hinj : InjTable b1.size table) :
    b1.sameCore ((analyzeCore recFull eng b1 o3 o4 role depth cdepth path alpha beta
      hash_val).2.2) ∧
    ((analyzeCore recFull eng b1 o3 o4 role depth cdepth path alpha beta
      hash_val).2.2).Inv table := by
  obtain ⟨hg1, hg2, hg3⟩ := gvm_chars table b1 role cdepth
    (o3 || decide (cdepth > eng.only_three_threshold)) o4 hInv hinj
  simp only [analyzeCore]
  split_ifs with hempty hdo
  · -- empty points: evaluate on the gvm board
    have hev := evaluate_sameState
      ((b1.get_valuable_moves role cdepth
        (o3 || decide (cdepth > eng.only_three_threshold)) o4).2) role
    exact ⟨sameCore_trans hg1 (sameState_core hev), Inv_transfer hg2 hev⟩
  all_goals
    have hval2 : ∀ q ∈ (b1.get_valuable_moves role cdepth
        (o3 || decide (cdepth > eng.only_three_threshold)) o4).1,
        q.1 < ((b1.get_valuable_moves role cdepth
          (o3 || decide (cdepth > eng.only_three_threshold)) o4).2).size ∧
        q.2 < ((b1.get_valuable_moves role cdepth
          (o3 || decide (cdepth > eng.only_three_threshold)) o4).2).size ∧
        get2 ((b1.get_valuable_moves role cdepth
          (o3 || decide (cdepth > eng.only_three_threshold)) o4).2).board
          (q.1 + 1) (q.2 + 1) 2 = 0 := by
      intro q hq
      obtain ⟨c1, c2, c3⟩ := hg3 q hq
      rw [hg1.1, hg1.2.1]
      exact ⟨c1, c2, c3⟩
  all_goals
    obtain ⟨hd1, hd2⟩ := depthLoop_restores table recFull hrec o3 o4 role depth cdepth
      beta path
      ((b1.get_valuable_moves role cdepth
        (o3 || decide (cdepth > eng.only_three_threshold)) o4).1)
      (intRange (cdepth + 1) depth) eng
      ((b1.get_valuable_moves role cdepth
        (o3 || decide (cdepth > eng.only_three_threshold)) o4).2)
      { value := -aiMAX, best_move := none, best_path := path
      , best_depth := (path.length : Int), alpha := alpha }
      hg2 (by rw [hg1.1]; exact hinj) hval2
  all_goals exact ⟨sameCore_trans hg1 hd1, hd2⟩
theorem analyzeF_restores (table : Nat → Nat → Fin 2 → Nat) :
    ∀ (fuel : Nat) (eng : AIEngine) (b : Board) (o3 o4 : Bool) (role : Role)
      (depth cdepth : Int) (path : List (Nat × Nat)) (alpha beta : Int),
      b.Inv table → InjTable b.size table →
      b.sameCore ((analyzeF fuel eng b o3 o4 role depth cdepth path alpha beta).2.2) ∧
      ((analyzeF fuel eng b o3 o4 role depth cdepth path alpha beta).2.2).Inv table := by
  intro fuel
  induction fuel with
  | zero =>
    intro eng b o3 o4 role depth cdepth path alpha beta hInv hinj
    simp only [analyzeF]
    have hev := evaluate_sameState b role
    exact ⟨sameState_core hev, Inv_transfer hInv hev⟩
  | succ fuel ih =>
    intro eng b o3 o4 role depth cdepth path alpha beta hInv hinj
    simp only [analyzeF]
    split_ifs with hcd hgo
    · have hev := evaluate_sameState b role
      exact ⟨sameState_core hev, Inv_transfer hInv hev⟩
    · have hgo2 := is_game_over_sameState b
      have hev := evaluate_sameState ((b.is_game_over).2) role
      exact ⟨sameCore_trans (sameState_core hgo2) (sameState_core hev),
        Inv_transfer (Inv_transfer hInv hgo2) hev⟩
    · have hgo2 := is_game_over_sameState b
      have hInv1 : ((b.is_game_over).2).Inv table := Inv_transfer hInv hgo2
      have hinj1 : InjTable ((b.is_game_over).2).size table := by
        rw [(sameState_core hgo2).1]
        exact hinj
      cases hget : eng.cache.get ((b.is_game_over).2).hash with
      | none =>
        obtain ⟨hc1, hc2⟩ := analyzeCore_restores table (analyzeF fuel) ih
          ({ eng with cache_hits :=
            { eng.cache_hits with search := eng.cache_hits.search + 1 } })
          ((b.is_game_over).2) o3 o4 role depth cdepth path alpha beta
          (((b.is_game_over).2).hash) hInv1 hinj1
        exact ⟨sameCore_trans (sameState_core hgo2) hc1, hc2⟩
      | some prev =>
        by_cases hp : probeOk prev role depth cdepth o3 o4
        · simp only [hp, if_true]
          exact ⟨sameState_core hgo2, hInv1⟩
        · simp only [hp, if_false]
          obtain ⟨hc1, hc2⟩ := analyzeCore_restores table (analyzeF fuel) ih
            ({ eng with cache_hits :=
              { eng.cache_hits with search := eng.cache_hits.search + 1 } })
            ((b.is_game_over).2) o3 o4 role depth cdepth path alpha beta
            (((b.is_game_over).2).hash) hInv1 hinj1
          exact ⟨sameCore_trans (sameState_core hgo2) hc1, hc2⟩

theorem validHist_one_cases (hist : List (Nat × Nat × Role)) (h : ValidHist 1 hist) :
    hist = [] ∨ ∃ r, hist = [(0, 0, r)] := by
  rcases hist with _ | ⟨⟨x, y, r⟩, tl⟩
  · exact Or.inl rfl
  · obtain ⟨hb, hn⟩ := h
    obtain ⟨hx, hy⟩ := hb (x, y, r) (List.mem_cons_self _ _)
    have hx1 : x < 1 := hx
    have hy1 : y < 1 := hy
    have hx0 : x = 0 := by omega
    have hy0 : y = 0 := by omega
    subst hx0
    subst hy0
    rcases tl with _ | ⟨m, tl2⟩
    · exact Or.inr ⟨r, rfl⟩
    · exfalso
      obtain ⟨hm1, hm2⟩ := hb m (List.mem_cons_of_mem _ (List.mem_cons_self _ _))
      rw [List.map_cons, List.nodup_cons] at hn
      exact hn.1 (List.mem_map.mpr ⟨m, List.mem_cons_self _ _, by
        show (m.1, m.2.1) = (0, 0)
        have h1 : m.1 = 0 := by omega
        have h2 : m.2.1 = 0 := by omega
        rw [h1, h2]⟩)

theorem injTable_one_demo : InjTable 1 demoTable := by
  intro h1 h2 hv1 hv2 hh
  rcases validHist_one_cases h1 hv1 with rfl | ⟨r1, rfl⟩ <;>
    rcases validHist_one_cases h2 hv2 with rfl | ⟨r2, rfl⟩
  · rfl
  · exfalso
    cases r2 <;> exact absurd hh (by decide)
  · exfalso
    cases r1 <;> exact absurd hh (by decide)
  · cases r1 <;> cases r2
    · rfl
    · exact absurd hh (by decide)
    · exact absurd hh (by decide)
    · rfl

theorem newBoard_Inv : (Board.new 1 demoTable).Inv demoTable := by
  refine ⟨⟨?_, ?_⟩, rfl, rfl, ?_⟩
  · intro m hm
    cases hm
  · exact List.Pairwise.nil
  · intro h prev hp
    rw [show (Board.new 1 demoTable).valuable_moves_cache.get h = none from rfl] at hp
    exact absurd hp (by simp)

/-- C2 (amended): on a board whose grid, history and fingerprint are consistent
over a collision-free Zobrist key table, analyze hands the board back with the
grid, the move history, the fingerprint hasher, the size and the pattern table
all equal to their entry values. Without the consistency and collision-freedom
hypotheses the restoration fails: a stale memoized candidate list can name an
occupied cell, the put whose result src/ai.rs ignores then mutates nothing,
and the unconditional undo pops a genuine move (see the counterexample). -/
theorem C2_analyze_restores (table : Nat → Nat → Fin 2 → Nat) (eng : AIEngine)
    (b : Board) (only_three only_four : Bool) (role : Role) (depth cdepth : Int)
    (path : List (Nat × Nat)) (alpha beta : Int)
    (hInv : b.Inv table) (hinj : InjTable b.size table) :
    b.sameCore ((eng.analyze only_three only_four b role depth cdepth path alpha
      beta).2.2) := by
  unfold AIEngine.analyze
  exact (analyzeF_restores table (depth - cdepth).toNat eng b only_three only_four
    role depth cdepth path alpha beta hInv hinj).1

set_option maxRecDepth 1000000 in
set_option maxHeartbeats 4000000 in
/-- C2 counterexample: over the all-zero key table every position shares the
fingerprint 0, so the candidate list memoized for the empty 2 by 2 board is
served again after (0, 0) has been played; analyze calls put on the occupied
cell, ignores the failure as src/ai.rs does, and the unconditional undo pops
the genuine move: the board comes back with an empty history instead of the
one-move history it entered with. -/
theorem C2_counterexample :
    (((((Board.new 2 zeroTable).get_valuable_moves .White 0 false false).2).put 0 0
      .White).2).history = [(0, 0, Role.White)] ∧
    ((((AIEngine.new 1).analyze false false
      (((((Board.new 2 zeroTable).get_valuable_moves .White 0 false false).2).put 0 0
        .White).2) .White 1 0 [] (-aiMAX) aiMAX)).2.2).history = [] :=
  ⟨rfl, rfl⟩

/-- C2 witness: the fresh size-1 board over the demo key table satisfies the
consistency invariant and that table is collision-free on it, so the concrete
analyze call at depth 1 returns the board with its core state intact. -/
theorem C2_witness :
    (Board.new 1 demoTable).Inv demoTable ∧
    InjTable (Board.new 1 demoTable).size demoTable ∧
    (Board.new 1 demoTable).sameCore
      (((AIEngine.new 1).analyze false false (Board.new 1 demoTable) .White 1 0 []
        (-aiMAX) aiMAX).2.2) :=
  ⟨newBoard_Inv, injTable_one_demo,
    C2_analyze_restores demoTable (AIEngine.new 1) (Board.new 1 demoTable) false false
      .White 1 0 [] (-aiMAX) aiMAX newBoard_Inv injTable_one_demo⟩
